import Mathlib

/-!
Verification of the storage core of `serverauditor_sshconfig` (termius-cli):
a shallow embedding of `core/storage/driver.py` — the three format drivers
(pickle / json / csv), the ordered driver registry, and the `PersistentDict`
class (construction-time hydration with format auto-detection, `dump`,
`sync` with atomic temp-file commit, `close`).

Modelling conventions:
* Python values are `PyVal` (strings, arbitrary-precision ints, bools, None,
  lists, dicts).  Floats are outside the embedded universe.
* File contents are byte lists (`List Nat`, each < 256).  Text-mode reads
  decode UTF-8 and apply universal-newline translation, as CPython does on
  a POSIX system with UTF-8 default encoding; text-mode writes encode UTF-8
  (newline translation is the identity on POSIX).
* The json / csv / pickle library calls are modelled byte-for-byte for the
  embedded universe (compact json with `ensure_ascii`, csv QUOTE_MINIMAL
  with CRLF line terminator, pickle protocol 2), at integer precision and
  without object-identity memo sharing.
* Exceptions are explicit `PyErr` values; `dict.update` is a fold that can
  stop with an error after a partial mutation, exactly as CPython's
  `dict.update` over a lazy iterable does.
-/

set_option maxHeartbeats 2000000

namespace TermiusStorage

/-- Embedded universe of Python values handled by the storage layer. -/
inductive PyVal : Type where
  | vstr (s : String)
  | vint (n : Int)
  | vbool (b : Bool)
  | vnone
  | vlist (xs : List PyVal)
  | vdict (kvs : List (PyVal × PyVal))
  deriving Repr

mutual

/-- Structural boolean equality on `PyVal` (used to build `DecidableEq`). -/
def pyBeq : PyVal → PyVal → Bool
  | .vstr a, .vstr b => a == b
  | .vint a, .vint b => a == b
  | .vbool a, .vbool b => a == b
  | .vnone, .vnone => true
  | .vlist xs, .vlist ys => pyBeqList xs ys
  | .vdict xs, .vdict ys => pyBeqPairs xs ys
  | _, _ => false

def pyBeqList : List PyVal → List PyVal → Bool
  | [], [] => true
  | x :: xs, y :: ys => pyBeq x y && pyBeqList xs ys
  | _, _ => false

def pyBeqPairs : List (PyVal × PyVal) → List (PyVal × PyVal) → Bool
  | [], [] => true
  | (k1, v1) :: xs, (k2, v2) :: ys => pyBeq k1 k2 && pyBeq v1 v2 && pyBeqPairs xs ys
  | _, _ => false

end

/-- The in-memory mapping (Python dict): an insertion-ordered association
list with unique keys maintained by `mapInsert`. -/
abbrev PyMap := List (PyVal × PyVal)

/-- First-match association lookup (Python `d[k]` on the unique-keys maps
we build). -/
def mapLookup (m : PyMap) (k : PyVal) : Option PyVal :=
  match m with
  | [] => none
  | (k0, v0) :: rest => if pyBeq k0 k then some v0 else mapLookup rest k

/-- Python `d[k] = v`: replace in place if the key exists (keeping its
position and the original key object), else append. -/
def mapInsert (m : PyMap) (k v : PyVal) : PyMap :=
  match m with
  | [] => [(k, v)]
  | (k0, v0) :: rest => if pyBeq k0 k then (k0, v) :: rest else (k0, v0) :: mapInsert rest k v

/-- Sequential insertion of key/value pairs (the dict fast path of
`dict.update` with a dict argument). -/
def mapInsertPairs (m : PyMap) (kvs : List (PyVal × PyVal)) : PyMap :=
  match kvs with
  | [] => m
  | (k, v) :: rest => mapInsertPairs (mapInsert m k v) rest

/-- Exceptions raised by the modelled library calls, distinguishable by
class (and message where the code's control flow depends on it). -/
inductive PyErr : Type where
  | valueError (msg : String)
  | typeError (msg : String)
  | notImplementedError (msg : String)
  | unicodeDecodeError
  | unpicklingError (msg : String)
  | eofError
  | jsonDecodeError
  | csvError (msg : String)
  deriving Repr, DecidableEq

/-! ### Decimal integer printing and parsing (Python `str(int)` / json ints) -/

def digitChar (d : Nat) : Char := Char.ofNat (48 + d)

/-- Digits of `n` in base 10, most significant first, prepended to `acc`. -/
def natToDigitsAux (n : Nat) (acc : List Char) : List Char :=
  if h : n < 10 then digitChar n :: acc
  else natToDigitsAux (n / 10) (digitChar (n % 10) :: acc)
  termination_by n
  decreasing_by omega

def natRepr (n : Nat) : List Char := natToDigitsAux n []

/-- Python `str` of an int: decimal digits, `-` sign for negatives. -/
def intRepr (i : Int) : List Char :=
  if i < 0 then '-' :: natRepr (-i).toNat else natRepr i.toNat

def isDigitC (c : Char) : Bool := 48 ≤ c.toNat && c.toNat ≤ 57

/-- Maximal leading run of decimal digits. -/
def takeDigits : List Char → (List Char × List Char)
  | [] => ([], [])
  | c :: rest =>
    if isDigitC c then
      let (ds, r) := takeDigits rest
      (c :: ds, r)
    else ([], c :: rest)

/-- Value of a digit string, accumulator style. -/
def digitsVal (ds : List Char) (acc : Nat) : Nat :=
  match ds with
  | [] => acc
  | c :: rest => digitsVal rest (acc * 10 + (c.toNat - 48))

/-! ### UTF-8 (CPython's default text encoding, strict errors) -/

/-- UTF-8 encoding of one unicode scalar value. -/
def utf8EncodeChar (c : Char) : List Nat :=
  let u := c.toNat
  if u < 0x80 then [u]
  else if u < 0x800 then [0xC0 + u / 64, 0x80 + u % 64]
  else if u < 0x10000 then [0xE0 + u / 4096, 0x80 + u / 64 % 64, 0x80 + u % 64]
  else [0xF0 + u / 262144, 0x80 + u / 4096 % 64, 0x80 + u / 64 % 64, 0x80 + u % 64]

def utf8EncodeList : List Char → List Nat
  | [] => []
  | c :: cs => utf8EncodeChar c ++ utf8EncodeList cs

def utf8Encode (s : String) : List Nat := utf8EncodeList s.data

/-- Strict UTF-8 decoding: rejects stray continuation bytes, overlong forms,
surrogates and out-of-range sequences (CPython `errors='strict'`). -/
def utf8Decode : List Nat → Option (List Char)
  | [] => some []
  | b1 :: rest =>
    if b1 < 0x80 then (utf8Decode rest).map (Char.ofNat b1 :: ·)
    else if b1 < 0xC2 then none
    else if b1 < 0xE0 then
      match rest with
      | b2 :: rest2 =>
        if 0x80 ≤ b2 && b2 < 0xC0 then
          (utf8Decode rest2).map (Char.ofNat ((b1 - 0xC0) * 64 + (b2 - 0x80)) :: ·)
        else none
      | [] => none
    else if b1 < 0xF0 then
      match rest with
      | b2 :: b3 :: rest3 =>
        let u := (b1 - 0xE0) * 4096 + (b2 - 0x80) * 64 + (b3 - 0x80)
        if (0x80 ≤ b2 && b2 < 0xC0) && (0x80 ≤ b3 && b3 < 0xC0) &&
            (decide (0x800 ≤ u) && !(decide (0xD800 ≤ u) && decide (u < 0xE000))) then
          (utf8Decode rest3).map (Char.ofNat u :: ·)
        else none
      | _ => none
    else if b1 < 0xF5 then
      match rest with
      | b2 :: b3 :: b4 :: rest4 =>
        let u := (b1 - 0xF0) * 262144 + (b2 - 0x80) * 4096 + (b3 - 0x80) * 64 + (b4 - 0x80)
        if (0x80 ≤ b2 && b2 < 0xC0) && (0x80 ≤ b3 && b3 < 0xC0) && (0x80 ≤ b4 && b4 < 0xC0) &&
            (decide (0x10000 ≤ u) && decide (u < 0x110000)) then
          (utf8Decode rest4).map (Char.ofNat u :: ·)
        else none
      | _ => none
    else none

/-- Universal-newline translation performed by CPython text-mode reads:
`\r\n` and lone `\r` both become `\n`. -/
def univNewline : List Char → List Char
  | [] => []
  | c :: rest =>
    if c = '\r' then
      match rest with
      | [] => ['\n']
      | c2 :: rest2 =>
        if c2 = '\n' then '\n' :: univNewline rest2 else '\n' :: univNewline (c2 :: rest2)
    else c :: univNewline rest

/-! ### Python `str` / `repr` (what `csv.writer` applies to non-string fields) -/

def hexDigitChar (d : Nat) : Char := if d < 10 then digitChar d else Char.ofNat (87 + d)

/-- One character inside a Python string `repr` with quote character `q`.
Exact for ASCII and for the common short escapes; printable non-ASCII is
kept as-is (CPython escapes only non-printable non-ASCII, a distinction
driven by the Unicode database that we do not model). -/
def reprEscChar (q c : Char) : List Char :=
  if c = '\\' then ['\\', '\\']
  else if c = q then ['\\', q]
  else if c = '\n' then ['\\', 'n']
  else if c = '\r' then ['\\', 'r']
  else if c = '\t' then ['\\', 't']
  else if c.toNat < 0x20 || c.toNat = 0x7f then
    ['\\', 'x', hexDigitChar (c.toNat / 16), hexDigitChar (c.toNat % 16)]
  else [c]

def reprEscList (q : Char) : List Char → List Char
  | [] => []
  | c :: cs => reprEscChar q c ++ reprEscList q cs

/-- Python `repr` of a string: single quotes, unless the string contains a
single quote and no double quote. -/
def strReprChars (s : String) : List Char :=
  let q : Char := if s.data.contains '\'' && !(s.data.contains '"') then '"' else '\''
  q :: reprEscList q s.data ++ [q]

mutual

/-- Python `str()` on the embedded universe. -/
def pyStr : PyVal → String
  | .vstr s => s
  | .vint n => String.mk (intRepr n)
  | .vbool b => if b then "True" else "False"
  | .vnone => "None"
  | .vlist xs => "[" ++ pyReprList xs ++ "]"
  | .vdict kvs => "\x7b" ++ pyReprPairs kvs ++ "\x7d"

/-- Python `repr()` (differs from `str` only on strings). -/
def pyRepr : PyVal → String
  | .vstr s => String.mk (strReprChars s)
  | .vint n => String.mk (intRepr n)
  | .vbool b => if b then "True" else "False"
  | .vnone => "None"
  | .vlist xs => "[" ++ pyReprList xs ++ "]"
  | .vdict kvs => "\x7b" ++ pyReprPairs kvs ++ "\x7d"

def pyReprList : List PyVal → String
  | [] => ""
  | [x] => pyRepr x
  | x :: xs => pyRepr x ++ ", " ++ pyReprList xs

def pyReprPairs : List (PyVal × PyVal) → String
  | [] => ""
  | [(k, v)] => pyRepr k ++ ": " ++ pyRepr v
  | (k, v) :: rest => pyRepr k ++ ": " ++ pyRepr v ++ ", " ++ pyReprPairs rest

end

/-! ### `json.dump(obj, stream, separators=(',', ':'))` — compact encoder,
`ensure_ascii=True` -/

def hex4 (n : Nat) : List Char :=
  [hexDigitChar (n / 4096 % 16), hexDigitChar (n / 256 % 16),
    hexDigitChar (n / 16 % 16), hexDigitChar (n % 16)]

/-- `ensure_ascii` escaping of one character: short escapes, `\uXXXX` for
other control / non-ASCII characters, surrogate pairs above U+FFFF. -/
def jsonEscChar (c : Char) : List Char :=
  if c = '"' then ['\\', '"']
  else if c = '\\' then ['\\', '\\']
  else if c = '\n' then ['\\', 'n']
  else if c = '\r' then ['\\', 'r']
  else if c = '\t' then ['\\', 't']
  else if c = '\x08' then ['\\', 'b']
  else if c = '\x0c' then ['\\', 'f']
  else if c.toNat < 0x20 || 0x7e < c.toNat then
    if c.toNat < 0x10000 then '\\' :: 'u' :: hex4 c.toNat
    else
      ('\\' :: 'u' :: hex4 (0xD800 + (c.toNat - 0x10000) / 1024)) ++
        ('\\' :: 'u' :: hex4 (0xDC00 + (c.toNat - 0x10000) % 1024))
  else [c]

def jsonEscList : List Char → List Char
  | [] => []
  | c :: cs => jsonEscChar c ++ jsonEscList cs

/-- Key coercion performed by `json.dump`: string keys are escaped, int /
bool / None keys become their JSON text forms.  Container keys make
`json.dump` raise `TypeError` before anything observable is produced (see
`jsonDumpableB`), so their text here is irrelevant. -/
def jsonKeyText : PyVal → List Char
  | .vstr s => jsonEscList s.data
  | .vint n => intRepr n
  | .vbool b => if b then ['t', 'r', 'u', 'e'] else ['f', 'a', 'l', 's', 'e']
  | .vnone => ['n', 'u', 'l', 'l']
  | .vlist _ => []
  | .vdict _ => []

mutual

/-- Compact JSON text of a value (separators `','` / `':'`, no whitespace). -/
def jsonEncVal : PyVal → List Char
  | .vstr s => '"' :: jsonEscList s.data ++ ['"']
  | .vint n => intRepr n
  | .vbool b => if b then ['t', 'r', 'u', 'e'] else ['f', 'a', 'l', 's', 'e']
  | .vnone => ['n', 'u', 'l', 'l']
  | .vlist xs => '[' :: jsonEncItems xs
  | .vdict kvs => '\x7b' :: jsonEncMembers kvs

def jsonEncItems : List PyVal → List Char
  | [] => [']']
  | [x] => jsonEncVal x ++ [']']
  | x :: xs => jsonEncVal x ++ ',' :: jsonEncItems xs

def jsonEncMembers : List (PyVal × PyVal) → List Char
  | [] => ['\x7d']
  | [(k, v)] => '"' :: jsonKeyText k ++ '"' :: ':' :: jsonEncVal v ++ ['\x7d']
  | (k, v) :: rest => '"' :: jsonKeyText k ++ '"' :: ':' :: jsonEncVal v ++ ',' :: jsonEncMembers rest

end

mutual

/-- Whether `json.dump` accepts the value (its `TypeError` on container
dict keys; every value of the embedded universe is otherwise serializable). -/
def jsonDumpableB : PyVal → Bool
  | .vstr _ | .vint _ | .vbool _ | .vnone => true
  | .vlist xs => jsonDumpableListB xs
  | .vdict kvs => jsonDumpablePairsB kvs

def jsonDumpableListB : List PyVal → Bool
  | [] => true
  | x :: xs => jsonDumpableB x && jsonDumpableListB xs

def jsonDumpablePairsB : List (PyVal × PyVal) → Bool
  | [] => true
  | (k, v) :: rest =>
    (match k with
      | .vstr _ | .vint _ | .vbool _ | .vnone => true
      | _ => false) && jsonDumpableB v && jsonDumpablePairsB rest

end

/-! ### `json.load` — recursive-descent parser.

Numbers are parsed at integer precision (floats are outside the embedded
universe; on inputs with a fractional part this parser fails where CPython
would produce a float).  A digit run may have leading zeros (CPython is
stricter); lone surrogate escapes are rejected (CPython builds lone
surrogate strings, unrepresentable in `Char`).  None of these corners is
reachable from the encoder's output or from the concrete inputs considered
below. -/

def isJsonWs (c : Char) : Bool := c = ' ' || c = '\t' || c = '\n' || c = '\r'

def skipWsC : List Char → List Char
  | [] => []
  | c :: rest => if isJsonWs c then skipWsC rest else c :: rest

def hexVal (c : Char) : Option Nat :=
  if 48 ≤ c.toNat && c.toNat ≤ 57 then some (c.toNat - 48)
  else if 97 ≤ c.toNat && c.toNat ≤ 102 then some (c.toNat - 87)
  else if 65 ≤ c.toNat && c.toNat ≤ 70 then some (c.toNat - 55)
  else none

def escCharOf : Char → Option Char
  | '"' => some '"'
  | '\\' => some '\\'
  | '/' => some '/'
  | 'b' => some '\x08'
  | 'f' => some '\x0c'
  | 'n' => some '\n'
  | 'r' => some '\r'
  | 't' => some '\t'
  | _ => none

/-- Body of a JSON string literal after the opening quote: returns the
decoded characters and the input after the closing quote. -/
def parseStrBody : List Char → Option (List Char × List Char)
  | [] => none
  | c :: rest =>
    if c = '"' then some ([], rest)
    else if c = '\\' then
      match rest with
      | [] => none
      | e :: rest2 =>
        if e = 'u' then
          match rest2 with
          | h1 :: h2 :: h3 :: h4 :: rest3 => do
            let d1 ← hexVal h1
            let d2 ← hexVal h2
            let d3 ← hexVal h3
            let d4 ← hexVal h4
            let u := d1 * 4096 + d2 * 256 + d3 * 16 + d4
            if 0xD800 ≤ u && u ≤ 0xDBFF then
              match rest3 with
              | b1 :: u1 :: g1 :: g2 :: g3 :: g4 :: rest4 =>
                if b1 = '\\' && u1 = 'u' then do
                  let e1 ← hexVal g1
                  let e2 ← hexVal g2
                  let e3 ← hexVal g3
                  let e4 ← hexVal g4
                  let w := e1 * 4096 + e2 * 256 + e3 * 16 + e4
                  if 0xDC00 ≤ w && w ≤ 0xDFFF then
                    (parseStrBody rest4).map
                      (fun p =>
                        (Char.ofNat (0x10000 + (u - 0xD800) * 1024 + (w - 0xDC00)) :: p.1, p.2))
                  else none
                else none
              | _ => none
            else if 0xDC00 ≤ u && u ≤ 0xDFFF then none
            else (parseStrBody rest3).map (fun p => (Char.ofNat u :: p.1, p.2))
          | _ => none
        else
          match escCharOf e with
          | some c2 => (parseStrBody rest2).map (fun p => (c2 :: p.1, p.2))
          | none => none
    else if 0x20 ≤ c.toNat then (parseStrBody rest).map (fun p => (c :: p.1, p.2))
    else none

/-- Match an exact literal tail (`rue` of `true`, ...). -/
def expectChars : List Char → List Char → Option (List Char)
  | [], cs => some cs
  | _ :: _, [] => none
  | e :: es, c :: cs => if c = e then expectChars es cs else none

mutual

/-- JSON value parser; the fuel argument strictly decreases on every
(mutually) recursive call and is sized at the top entry point so that it
never runs out on a parse that terminates. -/
def jsonParseVal : Nat → List Char → Option (PyVal × List Char)
  | 0, _ => none
  | n + 1, cs =>
    match skipWsC cs with
    | [] => none
    | c :: r =>
      if c = '\x7b' then (jsonParseMembers n r).map (fun p => (.vdict (mapInsertPairs [] p.1), p.2))
      else if c = '[' then (jsonParseItems n r).map (fun p => (.vlist p.1, p.2))
      else if c = '"' then (parseStrBody r).map (fun p => (.vstr (String.mk p.1), p.2))
      else if c = 't' then (expectChars ['r', 'u', 'e'] r).map (fun r2 => (.vbool true, r2))
      else if c = 'f' then (expectChars ['a', 'l', 's', 'e'] r).map (fun r2 => (.vbool false, r2))
      else if c = 'n' then (expectChars ['u', 'l', 'l'] r).map (fun r2 => (.vnone, r2))
      else if c = '-' then
        match takeDigits r with
        | ([], _) => none
        | (ds, r2) => some (.vint (-(Int.ofNat (digitsVal ds 0))), r2)
      else
        match takeDigits (c :: r) with
        | ([], _) => none
        | (ds, r2) => some (.vint (Int.ofNat (digitsVal ds 0)), r2)

/-- Array tail parser, entered after `[`. -/
def jsonParseItems : Nat → List Char → Option (List PyVal × List Char)
  | 0, _ => none
  | n + 1, cs =>
    match skipWsC cs with
    | [] => none
    | c :: r =>
      if c = ']' then some ([], r)
      else do
        let (v, cs2) ← jsonParseVal n (c :: r)
        match skipWsC cs2 with
        | [] => none
        | c2 :: r2 =>
          if c2 = ',' then do
            let (vs, r3) ← jsonParseItems n r2
            some (v :: vs, r3)
          else if c2 = ']' then some ([v], r2)
          else none

/-- Object tail parser, entered after the opening brace. -/
def jsonParseMembers : Nat → List Char → Option (List (PyVal × PyVal) × List Char)
  | 0, _ => none
  | n + 1, cs =>
    match skipWsC cs with
    | [] => none
    | c :: r =>
      if c = '\x7d' then some ([], r)
      else if c = '"' then do
        let (k, cs2) ← parseStrBody r
        match skipWsC cs2 with
        | [] => none
        | c2 :: cs3 =>
          if c2 = ':' then do
            let (v, cs4) ← jsonParseVal n cs3
            match skipWsC cs4 with
            | [] => none
            | c3 :: cs5 =>
              if c3 = ',' then do
                let (ms, r2) ← jsonParseMembers n cs5
                some ((PyVal.vstr (String.mk k), v) :: ms, r2)
              else if c3 = '\x7d' then some ([(PyVal.vstr (String.mk k), v)], cs5)
              else none
          else none
      else none

end

def jsonOnlyWs (cs : List Char) : Bool :=
  match skipWsC cs with
  | [] => true
  | _ => false

/-- `json.loads`: parse one value and require only whitespace after it. -/
def jsonLoads (cs : List Char) : Except PyErr PyVal :=
  match jsonParseVal (cs.length + 1) cs with
  | some (v, rest) => if jsonOnlyWs rest then .ok v else .error .jsonDecodeError
  | none => .error .jsonDecodeError

mutual

/-- Fuel cost of parsing back the encoding of a value (used to show the
top-level fuel budget suffices). -/
def jsonCost : PyVal → Nat
  | .vstr _ | .vint _ | .vbool _ | .vnone => 1
  | .vlist xs => 1 + jsonCostItems xs
  | .vdict kvs => 1 + jsonCostMembers kvs

def jsonCostItems : List PyVal → Nat
  | [] => 1
  | x :: xs => 1 + max (jsonCost x) (jsonCostItems xs)

def jsonCostMembers : List (PyVal × PyVal) → Nat
  | [] => 1
  | (_, v) :: rest => 1 + max (jsonCost v) (jsonCostMembers rest)

end

/-! ### `csv` module: QUOTE_MINIMAL writer with CRLF terminator, and the
reader's character-level state machine -/

/-- A field is quoted iff it contains the delimiter, the quote character,
or a line-terminator character. -/
def csvFieldNeedsQuote (s : List Char) : Bool :=
  s.any (fun c => c = ',' || c = '"' || c = '\r' || c = '\n')

/-- Double every quote character (the quoting applied inside a quoted
field). -/
def csvQuoteChars : List Char → List Char
  | [] => []
  | c :: cs => if c = '"' then '"' :: '"' :: csvQuoteChars cs else c :: csvQuoteChars cs

def csvFieldText (s : String) : List Char :=
  if csvFieldNeedsQuote s.data then '"' :: csvQuoteChars s.data ++ ['"'] else s.data

/-- One `csv.writer` row for a two-column (key, value) record. -/
def csvRowText (k v : String) : List Char :=
  csvFieldText k ++ ',' :: csvFieldText v ++ ['\r', '\n']

def csvWriteRows : List (String × String) → List Char
  | [] => []
  | (k, v) :: rest => csvRowText k v ++ csvWriteRows rest

/-- Reader states: start of record, start of a later field, inside an
unquoted field, inside a quoted field, just after a closing quote. -/
inductive CsvSt : Type where
  | rStart
  | fStart
  | inF
  | inQ
  | postQ
  deriving Repr, DecidableEq

/-- The record a line terminator (or EOF) emits: nothing was pending at
the very start of a record — an empty line is the empty record. -/
def csvEmitRow (st : CsvSt) (f : List Char) (row : List String) : List String :=
  match st with
  | .rStart => []
  | _ => row ++ [String.mk f]

/-- The `csv.reader` state machine over the text stream.  `f` is the
current field, `row` the fields completed so far in the current record. -/
def csvGo : List Char → CsvSt → List Char → List String → List (List String)
  | [], st, f, row =>
    match st with
    | .rStart => []
    | _ => [row ++ [String.mk f]]
  | c :: rest, st, f, row =>
    if st = CsvSt.inQ then
      if c = '"' then
        match rest with
        | [] => csvGo [] .postQ f row
        | c2 :: rest2 =>
          if c2 = '"' then csvGo rest2 .inQ (f ++ ['"']) row
          else csvGo (c2 :: rest2) .postQ f row
      else csvGo rest .inQ (f ++ [c]) row
    else
      if c = ',' then csvGo rest .fStart [] (row ++ [String.mk f])
      else if c = '\r' then
        csvEmitRow st f row ::
          (match rest with
            | [] => csvGo [] .rStart [] []
            | c2 :: rest2 =>
              if c2 = '\n' then csvGo rest2 .rStart [] []
              else csvGo (c2 :: rest2) .rStart [] [])
      else if c = '\n' then csvEmitRow st f row :: csvGo rest .rStart [] []
      else if c = '"' then
        if st = .rStart || st = .fStart then csvGo rest .inQ [] row
        else csvGo rest .inF (f ++ ['"']) row
      else csvGo rest .inF (f ++ [c]) row

/-- `csv.reader` over a full text: the lazily produced row sequence,
materialized. -/
def csvParseRows (cs : List Char) : List (List String) := csvGo cs .rStart [] []

/-! ### `pickle` protocol 2.

`pickle.dump(dict(obj_data), stream, 2)` / `pickle.load(stream)` for the
embedded universe.  The model memoizes every saved object at a fresh index
(CPython memoizes by object identity, which can additionally share equal
interned strings — a byte-level difference that no theorem below
exercises); integers wider than needed may get one spare two's-complement
byte in `LONG1`. -/

/-- `len` little-endian bytes of `n`. -/
def natLE : Nat → Nat → List Nat
  | 0, _ => []
  | len + 1, n => n % 256 :: natLE len (n / 256)

def le4 (n : Nat) : List Nat := natLE 4 n

/-- Two's-complement little-endian byte encoding of an integer (`0` is the
empty string, as in pickle's `encode_long`). -/
def twosCompBytes (i : Int) : List Nat :=
  if i = 0 then []
  else
    let m := i.natAbs.log2 / 8 + 2
    natLE m (if 0 ≤ i then i.toNat else (2 ^ (8 * m) + i).toNat)

/-- Opcode sequence for one int: BININT1 / BININT2 / BININT / LONG1 /
LONG4 by range, as in CPython's `save_long` at protocol 2. -/
def pklInt (i : Int) : List Nat :=
  if 0 ≤ i && i < 256 then [0x4b, i.toNat]
  else if 0 ≤ i && i < 65536 then [0x4d, i.toNat % 256, i.toNat / 256]
  else if -(2 ^ 31) ≤ i && i < 2 ^ 31 then
    0x4a :: le4 (if 0 ≤ i then i.toNat else (2 ^ 32 + i).toNat)
  else
    let bs := twosCompBytes i
    if bs.length < 256 then 0x8a :: bs.length :: bs else 0x8b :: le4 bs.length ++ bs

/-- BINPUT / LONG_BINPUT memo opcode for index `m`. -/
def binput (m : Nat) : List Nat :=
  if m < 256 then [0x71, m] else 0x72 :: le4 m

mutual

/-- Pickling of one value at protocol 2, threading the memo counter. -/
def pklVal : PyVal → Nat → (List Nat × Nat)
  | .vstr s, m => (0x58 :: le4 (utf8Encode s).length ++ utf8Encode s ++ binput m, m + 1)
  | .vint i, m => (pklInt i, m)
  | .vbool b, m => ([if b then 0x88 else 0x89], m)
  | .vnone, m => ([0x4e], m)
  | .vlist [], m => (0x5d :: binput m, m + 1)
  | .vlist [x], m =>
    let (bx, m2) := pklVal x (m + 1)
    (0x5d :: binput m ++ bx ++ [0x61], m2)
  | .vlist (x :: y :: rest), m =>
    let (bxs, m2) := pklItems (x :: y :: rest) (m + 1)
    (0x5d :: binput m ++ 0x28 :: bxs ++ [0x65], m2)
  | .vdict [], m => (0x7d :: binput m, m + 1)
  | .vdict [(k, v)], m =>
    let (bk, m2) := pklVal k (m + 1)
    let (bv, m3) := pklVal v m2
    (0x7d :: binput m ++ bk ++ bv ++ [0x73], m3)
  | .vdict (p :: q :: rest), m =>
    let (bps, m2) := pklPairs (p :: q :: rest) (m + 1)
    (0x7d :: binput m ++ 0x28 :: bps ++ [0x75], m2)

def pklItems : List PyVal → Nat → (List Nat × Nat)
  | [], m => ([], m)
  | x :: xs, m =>
    let (b, m2) := pklVal x m
    let (bs, m3) := pklItems xs m2
    (b ++ bs, m3)

def pklPairs : List (PyVal × PyVal) → Nat → (List Nat × Nat)
  | [], m => ([], m)
  | (k, v) :: rest, m =>
    let (bk, m2) := pklVal k m
    let (bv, m3) := pklVal v m2
    let (bs, m4) := pklPairs rest m3
    (bk ++ bv ++ bs, m4)

end

/-- `pickle.dumps(dict(obj_data), 2)`: PROTO 2 header, the dict, STOP. -/
def pickleDumps (m : PyMap) : List Nat :=
  0x80 :: 2 :: (pklVal (.vdict m) 0).1 ++ [0x2e]

/-- Unpickler stack entries. -/
inductive PklStack : Type where
  | obj (v : PyVal)
  | mark
  deriving Repr

/-- Pop stack entries down to the topmost MARK, returning the objects in
push order. -/
def popToMark : List PklStack → List PyVal → Option (List PyVal × List PklStack)
  | [], _ => none
  | .mark :: rest, acc => some (acc, rest)
  | .obj v :: rest, acc => popToMark rest (v :: acc)

def pairUp : List PyVal → Option (List (PyVal × PyVal))
  | [] => some []
  | k :: v :: rest => (pairUp rest).map ((k, v) :: ·)
  | _ => none

def takeBytes (n : Nat) (bs : List Nat) : Option (List Nat × List Nat) :=
  if bs.length < n then none else some (bs.take n, bs.drop n)

def bytesLEVal : List Nat → Nat
  | [] => 0
  | b :: rest => b + 256 * bytesLEVal rest

/-- Decode pickle's two's-complement little-endian integer encoding. -/
def bytes2cVal (bs : List Nat) : Int :=
  match bs.getLast? with
  | none => 0
  | some top =>
    if top < 128 then Int.ofNat (bytesLEVal bs)
    else Int.ofNat (bytesLEVal bs) - Int.ofNat (2 ^ (8 * bs.length))

/-- The unpickling machine for the opcode subset protocol ≤ 2 emits for
the embedded universe; any other opcode is an `UnpicklingError`, exactly
like CPython's "invalid load key". -/
def pickleLoop : Nat → List Nat → List PklStack → List (Nat × PyVal) → Except PyErr PyVal
  | 0, _, _, _ => .error (.unpicklingError "out of fuel")
  | _ + 1, [], _, _ => .error .eofError
  | n + 1, b :: bs, stack, memo =>
    if b = 0x80 then
      match bs with
      | p :: bs2 => if p ≤ 5 then pickleLoop n bs2 stack memo
          else .error (.valueError "unsupported pickle protocol")
      | [] => .error .eofError
    else if b = 0x2e then
      match stack with
      | .obj v :: _ => .ok v
      | _ => .error (.unpicklingError "stack underflow on STOP")
    else if b = 0x7d then pickleLoop n bs (.obj (.vdict []) :: stack) memo
    else if b = 0x5d then pickleLoop n bs (.obj (.vlist []) :: stack) memo
    else if b = 0x4e then pickleLoop n bs (.obj .vnone :: stack) memo
    else if b = 0x88 then pickleLoop n bs (.obj (.vbool true) :: stack) memo
    else if b = 0x89 then pickleLoop n bs (.obj (.vbool false) :: stack) memo
    else if b = 0x28 then pickleLoop n bs (.mark :: stack) memo
    else if b = 0x4b then
      match bs with
      | x :: bs2 => pickleLoop n bs2 (.obj (.vint x) :: stack) memo
      | [] => .error .eofError
    else if b = 0x4d then
      match bs with
      | x :: y :: bs2 => pickleLoop n bs2 (.obj (.vint (x + 256 * y)) :: stack) memo
      | _ => .error .eofError
    else if b = 0x4a then
      match takeBytes 4 bs with
      | some (quad, bs2) =>
        let v := bytesLEVal quad
        let i : Int := if v < 2 ^ 31 then Int.ofNat v else Int.ofNat v - 2 ^ 32
        pickleLoop n bs2 (.obj (.vint i) :: stack) memo
      | none => .error .eofError
    else if b = 0x8a then
      match bs with
      | len :: bs2 =>
        match takeBytes len bs2 with
        | some (lb, bs3) => pickleLoop n bs3 (.obj (.vint (bytes2cVal lb)) :: stack) memo
        | none => .error .eofError
      | [] => .error .eofError
    else if b = 0x58 then
      match takeBytes 4 bs with
      | some (lenb, bs2) =>
        match takeBytes (bytesLEVal lenb) bs2 with
        | some (sb, bs3) =>
          match utf8Decode sb with
          | some chars => pickleLoop n bs3 (.obj (.vstr (String.mk chars)) :: stack) memo
          | none => .error .unicodeDecodeError
        | none => .error .eofError
      | none => .error .eofError
    else if b = 0x71 then
      match bs, stack with
      | i :: bs2, .obj v :: _ => pickleLoop n bs2 stack ((i, v) :: memo)
      | _ :: _, _ => .error (.unpicklingError "BINPUT without object")
      | [], _ => .error .eofError
    else if b = 0x72 then
      match takeBytes 4 bs, stack with
      | some (ib, bs2), .obj v :: _ => pickleLoop n bs2 stack ((bytesLEVal ib, v) :: memo)
      | some _, _ => .error (.unpicklingError "LONG_BINPUT without object")
      | none, _ => .error .eofError
    else if b = 0x68 then
      match bs with
      | i :: bs2 =>
        match memo.lookup i with
        | some v => pickleLoop n bs2 (.obj v :: stack) memo
        | none => .error (.unpicklingError "memo not found")
      | [] => .error .eofError
    else if b = 0x73 then
      match stack with
      | .obj v :: .obj k :: .obj (.vdict d) :: rest =>
        pickleLoop n bs (.obj (.vdict (mapInsert d k v)) :: rest) memo
      | _ => .error (.unpicklingError "SETITEM on bad stack")
    else if b = 0x75 then
      match popToMark stack [] with
      | some (items, .obj (.vdict d) :: rest) =>
        match pairUp items with
        | some kvs => pickleLoop n bs (.obj (.vdict (mapInsertPairs d kvs)) :: rest) memo
        | none => .error (.unpicklingError "odd SETITEMS")
      | _ => .error (.unpicklingError "SETITEMS on bad stack")
    else if b = 0x61 then
      match stack with
      | .obj v :: .obj (.vlist xs) :: rest =>
        pickleLoop n bs (.obj (.vlist (xs ++ [v])) :: rest) memo
      | _ => .error (.unpicklingError "APPEND on bad stack")
    else if b = 0x65 then
      match popToMark stack [] with
      | some (items, .obj (.vlist xs) :: rest) =>
        pickleLoop n bs (.obj (.vlist (xs ++ items)) :: rest) memo
      | _ => .error (.unpicklingError "APPENDS on bad stack")
    else .error (.unpicklingError "invalid load key")

/-- `pickle.loads` on a byte string. -/
def pickleLoads (bs : List Nat) : Except PyErr PyVal :=
  pickleLoop (bs.length + 1) bs [] []

/-! ### Streams, `dict.update`, the Driver classes and the registry -/

/-- What a driver writes: text (json / csv) or bytes (pickle). -/
inductive StreamData : Type where
  | textS (s : String)
  | binS (bs : List Nat)
  deriving Repr

/-- A file object opened for reading: text mode (`'r'`) or binary mode
(`'rb'`), over the file's raw bytes. -/
inductive ReadHandle : Type where
  | textH (bs : List Nat)
  | binH (bs : List Nat)
  deriving Repr

/-- What a driver's `load` hands to `dict.update`: a materialized value
(pickle / json) or the csv reader's row sequence. -/
inductive Loaded : Type where
  | val (v : PyVal)
  | rows (rs : List (List String))
  deriving Repr

/-- `dict.update` over an iterable of would-be pairs: inserts element by
element and stops with `ValueError` / `TypeError` at the first bad
element, leaving the earlier insertions in place (CPython semantics for a
lazy iterable). -/
def updateSeq (m : PyMap) (i : Nat) : List PyVal → PyMap × Option PyErr
  | [] => (m, none)
  | e :: rest =>
    match e with
    | .vlist [a, b] => updateSeq (mapInsert m a b) (i + 1) rest
    | .vlist xs =>
      (m, some (.valueError ("dictionary update sequence element #" ++ String.mk (natRepr i) ++
        " has length " ++ String.mk (natRepr xs.length) ++ "; 2 is required")))
    | .vstr s =>
      match s.data with
      | [a, b] => updateSeq (mapInsert m (.vstr (String.mk [a])) (.vstr (String.mk [b]))) (i + 1) rest
      | other =>
        (m, some (.valueError ("dictionary update sequence element #" ++ String.mk (natRepr i) ++
          " has length " ++ String.mk (natRepr other.length) ++ "; 2 is required")))
    | .vdict kvs =>
      match kvs with
      | [(k1, _), (k2, _)] => updateSeq (mapInsert m k1 k2) (i + 1) rest
      | other =>
        (m, some (.valueError ("dictionary update sequence element #" ++ String.mk (natRepr i) ++
          " has length " ++ String.mk (natRepr other.length) ++ "; 2 is required")))
    | _ =>
      (m, some (.typeError ("cannot convert dictionary update sequence element #" ++
        String.mk (natRepr i) ++ " to a sequence")))

/-- `self.update(loaded)` for a materialized value. -/
def updateFromVal (m : PyMap) (v : PyVal) : PyMap × Option PyErr :=
  match v with
  | .vdict kvs => (mapInsertPairs m kvs, none)
  | .vlist xs => updateSeq m 0 xs
  | .vstr s => updateSeq m 0 (s.data.map (fun c => .vstr (String.mk [c])))
  | _ => (m, some (.typeError "object is not iterable"))

/-- `self.update(csv.reader(...))`: rows are lists of strings; a row of
length ≠ 2 stops the update after the earlier rows were inserted. -/
def updateFromRows (m : PyMap) (i : Nat) : List (List String) → PyMap × Option PyErr
  | [] => (m, none)
  | [k, v] :: rest => updateFromRows (mapInsert m (.vstr k) (.vstr v)) (i + 1) rest
  | row :: _ =>
    (m, some (.valueError ("dictionary update sequence element #" ++ String.mk (natRepr i) ++
      " has length " ++ String.mk (natRepr row.length) ++ "; 2 is required")))

def updateFrom (m : PyMap) : Loaded → PyMap × Option PyErr
  | .val v => updateFromVal m v
  | .rows rs => updateFromRows m 0 rs

/-- Text-mode read: strict UTF-8 decode then universal-newline
translation. -/
def textReadAll (bs : List Nat) : Except PyErr (List Char) :=
  match utf8Decode bs with
  | some cs => .ok (univNewline cs)
  | none => .error .unicodeDecodeError

/-- A storage driver: "dict converter to stream" (`Driver` in the
source). -/
structure Driver : Type where
  dump : PyMap → Except PyErr StreamData
  load : ReadHandle → Except PyErr Loaded

/-- `PickleDriver`: `pickle.dump(dict(obj_data), stream, 2)` /
`pickle.load(stream)`.  `pickle.load` on a text-mode file fails: either
the decode of the bytes fails first, or the unpickler rejects the `str` it
reads. -/
def PickleDriver : Driver where
  dump m := .ok (.binS (pickleDumps m))
  load h :=
    match h with
    | .binH bs => (pickleLoads bs).map .val
    | .textH bs =>
      match utf8Decode bs with
      | none => .error .unicodeDecodeError
      | some _ => .error (.typeError "a bytes-like object is required, not str")

/-- `JSONDriver`: `json.dump(obj_data, stream, separators=(',', ':'))` /
`json.load(stream)`.  `json.load` accepts both text streams (after newline
translation) and binary streams (UTF-8 decoded, no translation).
`json.dump`'s `TypeError` on container keys is modelled as a pre-check:
CPython raises it mid-write, but the partial temp file output is erased on
the failure path of `sync` either way. -/
def JSONDriver : Driver where
  dump m :=
    if jsonDumpableB (.vdict m) then .ok (.textS (String.mk (jsonEncVal (.vdict m))))
    else .error (.typeError "keys must be str, int, float, bool or None")
  load h :=
    match h with
    | .textH bs => (textReadAll bs).bind (fun cs => (jsonLoads cs).map .val)
    | .binH bs =>
      match utf8Decode bs with
      | some cs => (jsonLoads cs).map .val
      | none => .error .unicodeDecodeError

/-- `CSVDriver`: `csv.writer(stream).writerows(obj_data.items())` /
`csv.reader(stream)`.  The reader is lazy in CPython; its work (including
a possible decode error on a text stream) is modelled eagerly here, which
is observationally equal at the `load`-method level for the inputs
considered (a decode error can truncate a partial update in CPython; no
claim exercises that corner).  On a binary stream the reader's
strings-not-bytes check fires only when a line is actually fetched: an
exhausted (zero-byte) stream yields the empty row sequence with no error,
while a non-empty one raises `Error("iterator should return strings, not
bytes")` at the first fetch, before anything is inserted — modelled
eagerly as a `load`-level error, again observationally equal. -/
def CSVDriver : Driver where
  dump m :=
    .ok (.textS (String.mk (csvWriteRows (m.map (fun kv => (pyStr kv.1, pyStr kv.2))))))
  load h :=
    match h with
    | .textH bs => (textReadAll bs).map (fun cs => .rows (csvParseRows cs))
    | .binH [] => .ok (.rows [])
    | .binH (_ :: _) => .error (.csvError "iterator should return strings, not bytes (the file should be opened in text mode)")

/-- The registry, in registration order (`DRIVERS` in the source). -/
def DRIVERS : List (String × Driver) :=
  [("pickle", PickleDriver), ("json", JSONDriver), ("csv", CSVDriver)]

def drvLookup : List (String × Driver) → String → Option Driver
  | [], _ => none
  | (nm, d) :: rest, s => if nm = s then some d else drvLookup rest s

/-! ### The filesystem model and `PersistentDict` -/

structure FileRec : Type where
  content : List Nat
  perm : Option Nat
  deriving Repr, DecidableEq

/-- The filesystem: an association of paths to files. -/
abbrev FS := List (String × FileRec)

def fsLookup : FS → String → Option FileRec
  | [], _ => none
  | (nm, r) :: rest, s => if nm = s then some r else fsLookup rest s

def fsErase (fs : FS) (nm : String) : FS :=
  fs.filter (fun p => !(p.1 == nm))

def fsInsert : FS → String → FileRec → FS
  | [], nm, r => [(nm, r)]
  | (n0, r0) :: rest, nm, r =>
    if n0 = nm then (n0, r) :: rest else (n0, r0) :: fsInsert rest nm r

/-- `os.access(filename, os.R_OK)`: the file exists (permission bits are
not refined in the model). -/
def osAccessR (fs : FS) (nm : String) : Bool := (fsLookup fs nm).isSome

inductive FMode : Type where
  | text
  | bin
  deriving Repr, DecidableEq

def openRead (fs : FS) (nm : String) (md : FMode) : ReadHandle :=
  let bs := match fsLookup fs nm with
    | some r => r.content
    | none => []
  match md with
  | .text => .textH bs
  | .bin => .binH bs

/-- Writing a driver's output in the mode `_write_mode` selected:
text-mode writes UTF-8 bytes (newline translation is the identity on
POSIX), binary-mode writes the bytes; a str/bytes mix raises `TypeError`. -/
def writeStream (md : FMode) (sd : StreamData) : Except PyErr (List Nat) :=
  match md, sd with
  | .text, .textS s => .ok (utf8Encode s)
  | .bin, .binS bs => .ok bs
  | .text, .binS _ => .error (.typeError "write() argument must be str, not bytes")
  | .bin, .textS _ => .error (.typeError "a bytes-like object is required, not str")

/-- The `PersistentDict` object: its configuration and in-memory mapping. -/
structure PersistentDict : Type where
  flag : String
  mode : Option Nat
  fmt : String
  filename : String
  data : PyMap
  deriving Repr

/-- `self._write_mode()`. -/
def PersistentDict.writeMode (st : PersistentDict) : FMode :=
  if st.fmt = "pickle" then .bin else .text

/-- `self._read_mode()`. -/
def PersistentDict.readMode (st : PersistentDict) : FMode :=
  if st.fmt = "pickle" then .bin else .text

/-- One iteration body of the detection loop:
`self.update(loader.load(fileobj))`, with the mapping it leaves behind and
the exception, if any. -/
def tryLoad (m : PyMap) (d : Driver) (h : ReadHandle) : PyMap × Option PyErr :=
  match d.load h with
  | .error e => (m, some e)
  | .ok lv => updateFrom m lv

/-- `PersistentDict.load`'s loop over `DRIVERS.values()`: any exception is
swallowed and the next driver is tried (on the possibly part-updated
mapping); exhaustion raises `ValueError('File not in a supported
format')`. -/
def loadLoop : PyMap → List (String × Driver) → ReadHandle → PyMap × Option PyErr
  | m, [], _ => (m, some (.valueError "File not in a supported format"))
  | m, (_, d) :: ds, h =>
    match tryLoad m d h with
    | (m2, none) => (m2, none)
    | (m2, some _) => loadLoop m2 ds h

/-- `PersistentDict.load(fileobj)` acting on the mapping contents. -/
def loadDict (m : PyMap) (h : ReadHandle) : PyMap × Option PyErr :=
  loadLoop m DRIVERS h

/-- `PersistentDict.load` as a method. -/
def PersistentDict.load (st : PersistentDict) (h : ReadHandle) :
    PersistentDict × Option PyErr :=
  let (m2, e) := loadDict st.data h
  ({ st with data := m2 }, e)

/-- `PersistentDict.dump(fileobj)`: `DRIVERS[self._format].dump(...)`,
`KeyError` becoming `NotImplementedError('Unknown format: ' +
repr(self._format))`. -/
def PersistentDict.dump (st : PersistentDict) : Except PyErr StreamData :=
  match drvLookup DRIVERS st.fmt with
  | some d => d.dump st.data
  | none => .error (.notImplementedError ("Unknown format: " ++ pyRepr (.vstr st.fmt)))

/-- `PersistentDict.sync()`: no-op unless writable; otherwise write the
serialization to `filename + '.tmp'` (on failure remove the temp and
re-raise), then `shutil.move` the temp over the target and apply the
optional permission bits. -/
def PersistentDict.sync (st : PersistentDict) (fs : FS) : FS × Option PyErr :=
  if st.flag = "r" then (fs, none)
  else
    let temp := st.filename ++ ".tmp"
    match (writeStream st.writeMode) <$> st.dump with
    | .error e => (fsErase fs temp, some e)
    | .ok (.error e) => (fsErase fs temp, some e)
    | .ok (.ok bytes) =>
      (fsInsert (fsErase fs temp) st.filename ⟨bytes, st.mode⟩, none)

/-- `PersistentDict.close()`. -/
def PersistentDict.close (st : PersistentDict) (fs : FS) : FS × Option PyErr :=
  st.sync fs

/-- `PersistentDict.__init__`: store the configuration, seed the mapping
with the explicit initial entries (`super().__init__(*args, **kwds)`), and
then — unless `flag == 'n'` or the file is not readable — open the file in
`self._read_mode()` and hydrate with `self.load(fileobj)`.  The mapping
state is returned even when the load raises, mirroring the mutated `self`
CPython leaves behind. -/
def PersistentDict.construct (filename flag : String) (mode : Option Nat) (fmt : String)
    (init : PyMap) (fs : FS) : PersistentDict × Option PyErr :=
  let st0 : PersistentDict := ⟨flag, mode, fmt, filename, init⟩
  if flag ≠ "n" ∧ osAccessR fs filename then
    let h := openRead fs filename st0.readMode
    let (m2, e) := loadDict init h
    ({ st0 with data := m2 }, e)
  else (st0, none)

/-- The hydration algorithm as the specification words it: try pickle,
then json, then csv; merge-and-stop on the first success; swallow failures;
raise the format-unsupported `ValueError` when all three fail.  (Spelled
out driver by driver, to be compared with `loadDict`'s loop over the
registry.) -/
def loadSpecOrder (m : PyMap) (h : ReadHandle) : PyMap × Option PyErr :=
  match tryLoad m PickleDriver h with
  | (m1, none) => (m1, none)
  | (m1, some _) =>
    match tryLoad m1 JSONDriver h with
    | (m2, none) => (m2, none)
    | (m2, some _) =>
      match tryLoad m2 CSVDriver h with
      | (m3, none) => (m3, none)
      | (m3, some _) => (m3, some (.valueError "File not in a supported format"))

/-! ### Predicates used to state the round-trip and auto-detection
properties -/

/-- Continuations a complete JSON value can be followed by inside a
document (or the end of it). -/
def restOkB : List Char → Bool
  | [] => true
  | c :: _ => c = ',' || c = ']' || c = '\x7d'

/-- Pairwise-distinct dict keys. -/
def nodupKeysB : List (PyVal × PyVal) → Bool
  | [] => true
  | (k, _) :: rest => !(rest.any (fun p => pyBeq p.1 k)) && nodupKeysB rest

mutual

/-- JSON-safe with string keys: the values whose `json` round trip is the
identity (claim C5's universe, restricted to string keys). -/
def jsonRoundB : PyVal → Bool
  | .vstr _ | .vint _ | .vbool _ | .vnone => true
  | .vlist xs => jsonRoundListB xs
  | .vdict kvs => nodupKeysB kvs && jsonRoundPairsB kvs

def jsonRoundListB : List PyVal → Bool
  | [] => true
  | x :: xs => jsonRoundB x && jsonRoundListB xs

def jsonRoundPairsB : List (PyVal × PyVal) → Bool
  | [] => true
  | (k, v) :: rest =>
    (match k with
      | .vstr _ => true
      | _ => false) && jsonRoundB v && jsonRoundPairsB rest

end

def noCR (s : String) : Bool := !(s.data.contains '\r')

def pairsNoCR (l : List (String × String)) : Bool :=
  l.all (fun p => noCR p.1 && noCR p.2)

def strNodupKeys : List (String × String) → Bool
  | [] => true
  | (k, _) :: rest => !(rest.any (fun p => p.1 == k)) && strNodupKeys rest

/-- A string-to-string mapping as a `PyMap`. -/
def strPairsMap (l : List (String × String)) : PyMap :=
  l.map (fun p => (.vstr p.1, .vstr p.2))

/-- The csv rows corresponding to a list of (key, value) pairs. -/
def rowsOfPairs (l : List (String × String)) : List (List String) :=
  l.map (fun p => [p.1, p.2])

/-- The csv text of the mapping starts with a character that cannot begin
a JSON value spanning the first delimiter: the first field is nonempty and
its written form does not start with a quote, a bracket, a brace or
whitespace.  (Guarantees the json driver's attempt on a csv file fails.) -/
def csvJsonSafeStart : List (String × String) → Bool
  | [] => false
  | (k, _) :: _ =>
    match csvFieldText k with
    | [] => false
    | c :: _ => !(c = '"' || c = '[' || c = '\x7b' || isJsonWs c)

/-- Recognize the `NotImplementedError` outcome of `dump` / `sync`. -/
def isNotImplErr : Option PyErr → Bool
  | some (.notImplementedError _) => true
  | _ => false

def dumpNotImpl (e : Except PyErr StreamData) : Bool :=
  match e with
  | .error (.notImplementedError _) => true
  | _ => false

/-! ## Theorems.  First, `pyBeq` decides equality. -/

theorem pyBeqList_iff (xs ys : List PyVal)
    (ih : ∀ x ∈ xs, ∀ b, pyBeq x b = true ↔ x = b) :
    pyBeqList xs ys = true ↔ xs = ys := by
  induction xs generalizing ys with
  | nil => cases ys <;> simp [pyBeqList]
  | cons x xs ihl =>
    cases ys with
    | nil => simp [pyBeqList]
    | cons y ys =>
      simp only [pyBeqList, Bool.and_eq_true]
      rw [ih x (by simp), ihl ys (fun z hz b => ih z (List.mem_cons_of_mem _ hz) b)]
      simp

theorem pyBeqPairs_iff (xs ys : List (PyVal × PyVal))
    (ih : ∀ p ∈ xs, ∀ b, (pyBeq p.1 b = true ↔ p.1 = b) ∧ (pyBeq p.2 b = true ↔ p.2 = b)) :
    pyBeqPairs xs ys = true ↔ xs = ys := by
  induction xs generalizing ys with
  | nil => cases ys <;> simp [pyBeqPairs]
  | cons x xs ihl =>
    cases ys with
    | nil => simp [pyBeqPairs]
    | cons y ys =>
      obtain ⟨k1, v1⟩ := x
      obtain ⟨k2, v2⟩ := y
      simp only [pyBeqPairs, Bool.and_eq_true]
      rw [((ih (k1, v1) (by simp) k2).1 : pyBeq k1 k2 = true ↔ k1 = k2),
        ((ih (k1, v1) (by simp) v2).2 : pyBeq v1 v2 = true ↔ v1 = v2),
        ihl ys (fun z hz b => ih z (List.mem_cons_of_mem _ hz) b)]
      simp [Prod.ext_iff, and_assoc]

theorem pyBeq_iff_aux : ∀ (n : Nat) (a b : PyVal), sizeOf a ≤ n → (pyBeq a b = true ↔ a = b) := by
  intro n
  induction n using Nat.strong_induction_on with
  | _ n ih =>
    intro a b hsz
    cases a with
    | vstr s => cases b <;> simp [pyBeq]
    | vint i => cases b <;> simp [pyBeq]
    | vbool v => cases b <;> simp [pyBeq]
    | vnone => cases b <;> simp [pyBeq]
    | vlist xs =>
      have ihels : ∀ x ∈ xs, ∀ c, pyBeq x c = true ↔ x = c := by
        intro x hx c
        have hlt : sizeOf x < sizeOf (PyVal.vlist xs) := by
          have := List.sizeOf_lt_of_mem hx
          simp only [PyVal.vlist.sizeOf_spec]
          omega
        have hxn : sizeOf x < n := by
          have h2 : sizeOf (PyVal.vlist xs) ≤ n := hsz
          omega
        exact ih (sizeOf x) hxn x c (le_refl _)
      cases b <;> try simp [pyBeq]
      case vlist ys =>
        rw [pyBeqList_iff xs ys ihels]
    | vdict kvs =>
      have ihels : ∀ p ∈ kvs, ∀ c,
          (pyBeq p.1 c = true ↔ p.1 = c) ∧ (pyBeq p.2 c = true ↔ p.2 = c) := by
        intro p hp c
        have hlt : sizeOf p < sizeOf (PyVal.vdict kvs) := by
          have := List.sizeOf_lt_of_mem hp
          simp only [PyVal.vdict.sizeOf_spec]
          omega
        obtain ⟨k, v⟩ := p
        have h2 : sizeOf (PyVal.vdict kvs) ≤ n := hsz
        have h3 : sizeOf k < sizeOf ((k, v) : PyVal × PyVal) ∧
            sizeOf v < sizeOf ((k, v) : PyVal × PyVal) := by
          constructor <;> (simp only [Prod.mk.sizeOf_spec]; omega)
        exact ⟨ih (sizeOf k) (by omega) k c (le_refl _),
          ih (sizeOf v) (by omega) v c (le_refl _)⟩
      cases b <;> try simp [pyBeq]
      case vdict ys =>
        rw [pyBeqPairs_iff kvs ys ihels]

theorem pyBeq_iff (a b : PyVal) : pyBeq a b = true ↔ a = b :=
  pyBeq_iff_aux (sizeOf a) a b (le_refl _)

instance : DecidableEq PyVal := fun a b => decidable_of_iff _ (pyBeq_iff a b)

theorem pyBeq_refl (a : PyVal) : pyBeq a a = true := (pyBeq_iff a a).mpr rfl

theorem pyBeq_false_iff (a b : PyVal) : pyBeq a b = false ↔ a ≠ b := by
  rw [← Bool.not_eq_true, not_iff_not]
  exact pyBeq_iff a b

/-! ### Mapping (dict) lemmas -/

theorem mapLookup_append (a b : PyMap) (k : PyVal) :
    mapLookup (a ++ b) k = ((mapLookup a k).orElse (fun _ => mapLookup b k)) := by
  induction a with
  | nil => simp [mapLookup]
  | cons p rest ih =>
    obtain ⟨k0, v0⟩ := p
    by_cases h : pyBeq k0 k = true
    · simp [mapLookup, h]
    · simp only [Bool.not_eq_true] at h
      simp [mapLookup, h, ih]

theorem mapInsert_fresh (m : PyMap) (k v : PyVal) (h : mapLookup m k = none) :
    mapInsert m k v = m ++ [(k, v)] := by
  induction m with
  | nil => rfl
  | cons p rest ih =>
    obtain ⟨k0, v0⟩ := p
    by_cases hk : pyBeq k0 k = true
    · simp [mapLookup, hk] at h
    · simp only [Bool.not_eq_true] at hk
      simp [mapLookup, hk] at h
      simp [mapInsert, hk, ih h]

theorem mapLookup_insert_ne (m : PyMap) (k v k' : PyVal) (h : k ≠ k') :
    mapLookup (mapInsert m k v) k' = mapLookup m k' := by
  induction m with
  | nil => simp [mapInsert, mapLookup, (pyBeq_false_iff k k').mpr h]
  | cons p rest ih =>
    obtain ⟨k0, v0⟩ := p
    by_cases hk : pyBeq k0 k = true
    · have : k0 = k := (pyBeq_iff _ _).mp hk
      subst this
      simp [mapInsert, hk, mapLookup, (pyBeq_false_iff k0 k').mpr h]
    · simp only [Bool.not_eq_true] at hk
      by_cases hk' : pyBeq k0 k' = true
      · simp [mapInsert, hk, mapLookup, hk']
      · simp only [Bool.not_eq_true] at hk'
        simp [mapInsert, hk, mapLookup, hk', ih]

theorem mapLookup_insert_self (m : PyMap) (k v : PyVal) :
    mapLookup (mapInsert m k v) k = some v := by
  induction m with
  | nil => simp [mapInsert, mapLookup, pyBeq_refl]
  | cons p rest ih =>
    obtain ⟨k0, v0⟩ := p
    by_cases hk : pyBeq k0 k = true
    · simp [mapInsert, hk, mapLookup]
    · simp only [Bool.not_eq_true] at hk
      simp [mapInsert, hk, mapLookup, ih]

theorem mapInsertPairs_fresh (kvs : List (PyVal × PyVal)) :
    ∀ (m : PyMap), (∀ p ∈ kvs, mapLookup m p.1 = none) → nodupKeysB kvs = true →
    mapInsertPairs m kvs = m ++ kvs := by
  induction kvs with
  | nil => intro m _ _; simp [mapInsertPairs]
  | cons p rest ih =>
    intro m hfresh hnd
    obtain ⟨k, v⟩ := p
    simp only [nodupKeysB, Bool.and_eq_true, Bool.not_eq_true'] at hnd
    obtain ⟨hk, hnd2⟩ := hnd
    have h1 : mapInsert m k v = m ++ [(k, v)] :=
      mapInsert_fresh m k v (hfresh (k, v) (by simp))
    simp only [mapInsertPairs, h1]
    rw [ih (m ++ [(k, v)]) ?_ hnd2]
    · simp
    · intro q hq
      rw [mapLookup_append]
      have hqm : mapLookup m q.1 = none := hfresh q (List.mem_cons_of_mem _ hq)
      have hne : pyBeq q.1 k = false := by
        rcases List.any_eq_false.mp hk q hq with h
        exact Bool.not_eq_true _ ▸ (by simpa using h)
      have : pyBeq k q.1 = false := by
        rw [pyBeq_false_iff] at hne ⊢
        exact fun hh => hne hh.symm
      simp [hqm, mapLookup, this]

theorem mapInsertPairs_lookup_absent (kvs : List (PyVal × PyVal)) :
    ∀ (m : PyMap) (k : PyVal), (∀ p ∈ kvs, p.1 ≠ k) →
    mapLookup (mapInsertPairs m kvs) k = mapLookup m k := by
  induction kvs with
  | nil => intro m k _; rfl
  | cons p rest ih =>
    intro m k habs
    obtain ⟨k0, v0⟩ := p
    simp only [mapInsertPairs]
    rw [ih _ k (fun q hq => habs q (List.mem_cons_of_mem _ hq)),
      mapLookup_insert_ne _ _ _ _ (habs (k0, v0) (by simp))]

/-- Where both the loaded pairs and the pre-existing mapping have a key,
sequential insertion leaves the loaded value (the key's last occurrence). -/
theorem mapInsertPairs_lookup_mem (kvs : List (PyVal × PyVal)) :
    ∀ (m : PyMap) (k v : PyVal), nodupKeysB kvs = true → (k, v) ∈ kvs →
    mapLookup (mapInsertPairs m kvs) k = some v := by
  induction kvs with
  | nil => intro m k v _ h; cases h
  | cons p rest ih =>
    intro m k v hnd hmem
    obtain ⟨k0, v0⟩ := p
    simp only [nodupKeysB, Bool.and_eq_true, Bool.not_eq_true'] at hnd
    obtain ⟨hk, hnd2⟩ := hnd
    rcases List.mem_cons.mp hmem with heq | hmem2
    · obtain ⟨h1, h2⟩ := Prod.mk.injEq .. ▸ heq
      subst h1; subst h2
      simp only [mapInsertPairs]
      rw [mapInsertPairs_lookup_absent rest _ k ?_, mapLookup_insert_self]
      intro q hq
      have := List.any_eq_false.mp hk q hq
      simpa [pyBeq_false_iff] using this
    · simp only [mapInsertPairs]
      exact ih _ k v hnd2 hmem2

/-! ### Character and decimal lemmas -/

theorem charToNat_ofNat {n : Nat} (h : n.isValidChar) : (Char.ofNat n).toNat = n := by
  unfold Char.ofNat
  rw [dif_pos h]
  rfl

theorem char_toNat_inj {c d : Char} (h : c.toNat = d.toNat) : c = d :=
  Char.eq_of_val_eq (UInt32.toNat.inj h)

theorem charValidRange (c : Char) :
    c.toNat < 0xd800 ∨ (0xdfff < c.toNat ∧ c.toNat < 0x110000) := c.valid

theorem char_ne_of_toNat_ne {c d : Char} (h : c.toNat ≠ d.toNat) : c ≠ d :=
  fun he => h (he ▸ rfl)

theorem digitChar_toNat {d : Nat} (h : d < 10) : (digitChar d).toNat = 48 + d :=
  charToNat_ofNat (Or.inl (by omega))

theorem isDigitC_digitChar {d : Nat} (h : d < 10) : isDigitC (digitChar d) = true := by
  simp [isDigitC, digitChar_toNat h]
  omega

theorem natToDigitsAux_eq (n : Nat) (acc : List Char) :
    natToDigitsAux n acc =
      if n < 10 then digitChar n :: acc
      else natToDigitsAux (n / 10) (digitChar (n % 10) :: acc) := by
  by_cases h : n < 10
  · rw [natToDigitsAux, dif_pos h, if_pos h]
  · rw [natToDigitsAux, dif_neg h, if_neg h]

theorem natToDigitsAux_append (n : Nat) :
    ∀ acc, natToDigitsAux n acc = natToDigitsAux n [] ++ acc := by
  induction n using Nat.strong_induction_on with
  | _ n ih =>
    intro acc
    by_cases h : n < 10
    · rw [natToDigitsAux_eq n acc, natToDigitsAux_eq n [], if_pos h, if_pos h]
      rfl
    · rw [natToDigitsAux_eq n acc, natToDigitsAux_eq n [], if_neg h, if_neg h]
      rw [ih (n / 10) (by omega) (digitChar (n % 10) :: acc),
        ih (n / 10) (by omega) [digitChar (n % 10)]]
      simp

theorem natRepr_step {n : Nat} (h : ¬n < 10) :
    natRepr n = natRepr (n / 10) ++ [digitChar (n % 10)] := by
  rw [natRepr, natToDigitsAux_eq, if_neg h]
  exact natToDigitsAux_append (n / 10) [digitChar (n % 10)]

theorem natRepr_small {n : Nat} (h : n < 10) : natRepr n = [digitChar n] := by
  rw [natRepr, natToDigitsAux_eq, if_pos h]

theorem natRepr_all_digits (n : Nat) : ∀ c ∈ natRepr n, isDigitC c = true := by
  induction n using Nat.strong_induction_on with
  | _ n ih =>
    intro c hc
    by_cases h : n < 10
    · rw [natRepr_small h] at hc
      simp at hc
      subst hc
      exact isDigitC_digitChar h
    · rw [natRepr_step h] at hc
      rcases List.mem_append.mp hc with h1 | h2
      · exact ih (n / 10) (by omega) c h1
      · simp at h2
        subst h2
        exact isDigitC_digitChar (by omega)

theorem natRepr_ne_nil (n : Nat) : natRepr n ≠ [] := by
  by_cases h : n < 10
  · rw [natRepr_small h]; simp
  · rw [natRepr_step h]; simp

theorem digitsVal_append (xs : List Char) :
    ∀ (ys : List Char) (a : Nat), digitsVal (xs ++ ys) a = digitsVal ys (digitsVal xs a) := by
  induction xs with
  | nil => intro ys a; rfl
  | cons x xs ih => intro ys a; simp [digitsVal, ih]

theorem digitsVal_natRepr_gen (n : Nat) :
    ∀ a, digitsVal (natRepr n) a = a * 10 ^ (natRepr n).length + n := by
  induction n using Nat.strong_induction_on with
  | _ n ih =>
    intro a
    by_cases h : n < 10
    · rw [natRepr_small h]
      simp only [digitsVal, List.length_singleton, pow_one, digitChar_toNat h]
      omega
    · rw [natRepr_step h, digitsVal_append, ih (n / 10) (by omega) a,
        show (natRepr (n / 10) ++ [digitChar (n % 10)]).length =
          (natRepr (n / 10)).length + 1 from by simp]
      simp only [digitsVal]
      rw [digitChar_toNat (show n % 10 < 10 by omega)]
      have h48 : 48 + n % 10 - 48 = n % 10 := by omega
      rw [h48, pow_succ]
      have h10 : 10 * (n / 10) + n % 10 = n := by omega
      calc (a * 10 ^ (natRepr (n / 10)).length + n / 10) * 10 + n % 10
          = a * (10 ^ (natRepr (n / 10)).length * 10) + (10 * (n / 10) + n % 10) := by ring
        _ = a * (10 ^ (natRepr (n / 10)).length * 10) + n := by rw [h10]

theorem digitsVal_natRepr (n : Nat) : digitsVal (natRepr n) 0 = n := by
  rw [digitsVal_natRepr_gen n 0]
  simp

theorem takeDigits_spec (xs : List Char) :
    ∀ (rest : List Char), (∀ c ∈ xs, isDigitC c = true) →
    (∀ c cs, rest = c :: cs → isDigitC c = false) →
    takeDigits (xs ++ rest) = (xs, rest) := by
  induction xs with
  | nil =>
    intro rest _ hrest
    cases rest with
    | nil => rfl
    | cons c cs =>
      simp only [List.nil_append, takeDigits]
      rw [if_neg (by simp [hrest c cs rfl])]
  | cons x xs ih =>
    intro rest hdig hrest
    have hx : isDigitC x = true := hdig x (by simp)
    show takeDigits (x :: (xs ++ rest)) = (x :: xs, rest)
    rw [takeDigits, if_pos hx, ih rest (fun c hc => hdig c (List.mem_cons_of_mem _ hc)) hrest]

theorem isDigitC_not_special {c : Char} (h : isDigitC c = true) :
    isJsonWs c = false ∧ c ≠ '\x7b' ∧ c ≠ '[' ∧ c ≠ '"' ∧ c ≠ 't' ∧ c ≠ 'f' ∧
      c ≠ 'n' ∧ c ≠ '-' ∧ c ≠ ',' ∧ c ≠ ']' ∧ c ≠ '\x7d' ∧ c ≠ ':' := by
  simp only [isDigitC, Bool.and_eq_true, decide_eq_true_eq] at h
  refine ⟨?_, ?_, ?_, ?_, ?_, ?_, ?_, ?_, ?_, ?_, ?_, ?_⟩
  · simp only [isJsonWs, Bool.or_eq_false_iff, decide_eq_false_iff_not]
    refine ⟨⟨⟨?_, ?_⟩, ?_⟩, ?_⟩ <;> (intro he; rw [he] at h; simp at h; try omega)
  all_goals (apply char_ne_of_toNat_ne; simp; omega)

/-! ### UTF-8 round trip -/

theorem utf8EncodeChar_eq (c : Char) :
    utf8EncodeChar c =
      if c.toNat < 0x80 then [c.toNat]
      else if c.toNat < 0x800 then [0xC0 + c.toNat / 64, 0x80 + c.toNat % 64]
      else if c.toNat < 0x10000 then
        [0xE0 + c.toNat / 4096, 0x80 + c.toNat / 64 % 64, 0x80 + c.toNat % 64]
      else
        [0xF0 + c.toNat / 262144, 0x80 + c.toNat / 4096 % 64, 0x80 + c.toNat / 64 % 64,
          0x80 + c.toNat % 64] := rfl

theorem utf8Decode_cons (b1 : Nat) (rest : List Nat) :
    utf8Decode (b1 :: rest) =
    (if b1 < 0x80 then (utf8Decode rest).map (Char.ofNat b1 :: ·)
    else if b1 < 0xC2 then none
    else if b1 < 0xE0 then
      match rest with
      | b2 :: rest2 =>
        if 0x80 ≤ b2 && b2 < 0xC0 then
          (utf8Decode rest2).map (Char.ofNat ((b1 - 0xC0) * 64 + (b2 - 0x80)) :: ·)
        else none
      | [] => none
    else if b1 < 0xF0 then
      match rest with
      | b2 :: b3 :: rest3 =>
        let u := (b1 - 0xE0) * 4096 + (b2 - 0x80) * 64 + (b3 - 0x80)
        if (0x80 ≤ b2 && b2 < 0xC0) && (0x80 ≤ b3 && b3 < 0xC0) &&
            (decide (0x800 ≤ u) && !(decide (0xD800 ≤ u) && decide (u < 0xE000))) then
          (utf8Decode rest3).map (Char.ofNat u :: ·)
        else none
      | _ => none
    else if b1 < 0xF5 then
      match rest with
      | b2 :: b3 :: b4 :: rest4 =>
        let u := (b1 - 0xF0) * 262144 + (b2 - 0x80) * 4096 + (b3 - 0x80) * 64 + (b4 - 0x80)
        if (0x80 ≤ b2 && b2 < 0xC0) && (0x80 ≤ b3 && b3 < 0xC0) && (0x80 ≤ b4 && b4 < 0xC0) &&
            (decide (0x10000 ≤ u) && decide (u < 0x110000)) then
          (utf8Decode rest4).map (Char.ofNat u :: ·)
        else none
      | _ => none
    else none) := by
  cases rest with
  | nil => rfl
  | cons b2 r2 =>
    cases r2 with
    | nil => rfl
    | cons b3 r3 =>
      cases r3 with
      | nil => rfl
      | cons b4 r4 => rfl

theorem utf8Decode_encodeChar (c : Char) (bs : List Nat) :
    utf8Decode (utf8EncodeChar c ++ bs) = (utf8Decode bs).map (c :: ·) := by
  have hv := charValidRange c
  have hcu : Char.ofNat c.toNat = c := Char.ofNat_toNat c
  by_cases h1 : c.toNat < 0x80
  · rw [utf8EncodeChar_eq, if_pos h1]
    rw [List.cons_append, List.nil_append, utf8Decode_cons, if_pos h1, hcu]
  · by_cases h2 : c.toNat < 0x800
    · rw [utf8EncodeChar_eq, if_neg h1, if_pos h2]
      rw [List.cons_append, List.cons_append, List.nil_append, utf8Decode_cons]
      rw [if_neg (by omega), if_neg (by omega), if_pos (show 0xC0 + c.toNat / 64 < 0xE0 by omega)]
      simp only []
      rw [if_pos (show (decide (0x80 ≤ 0x80 + c.toNat % 64) &&
          decide (0x80 + c.toNat % 64 < 0xC0)) = true by simp; omega)]
      rw [show (0xC0 + c.toNat / 64 - 0xC0) * 64 + (0x80 + c.toNat % 64 - 0x80) = c.toNat by omega,
        hcu]
    · by_cases h3 : c.toNat < 0x10000
      · rw [utf8EncodeChar_eq, if_neg h1, if_neg h2, if_pos h3]
        rw [List.cons_append, List.cons_append, List.cons_append, List.nil_append,
          utf8Decode_cons]
        rw [if_neg (by omega), if_neg (by omega), if_neg (by omega),
          if_pos (show 0xE0 + c.toNat / 4096 < 0xF0 by omega)]
        simp only []
        have hval : (0xE0 + c.toNat / 4096 - 0xE0) * 4096 + (0x80 + c.toNat / 64 % 64 - 0x80) * 64 +
            (0x80 + c.toNat % 64 - 0x80) = c.toNat := by omega
        rw [if_pos (show ((decide (0x80 ≤ 0x80 + c.toNat / 64 % 64) &&
            decide (0x80 + c.toNat / 64 % 64 < 0xC0)) &&
            (decide (0x80 ≤ 0x80 + c.toNat % 64) && decide (0x80 + c.toNat % 64 < 0xC0)) &&
            (decide (0x800 ≤ (0xE0 + c.toNat / 4096 - 0xE0) * 4096 +
              (0x80 + c.toNat / 64 % 64 - 0x80) * 64 + (0x80 + c.toNat % 64 - 0x80)) &&
             !(decide (0xD800 ≤ (0xE0 + c.toNat / 4096 - 0xE0) * 4096 +
              (0x80 + c.toNat / 64 % 64 - 0x80) * 64 + (0x80 + c.toNat % 64 - 0x80)) &&
               decide ((0xE0 + c.toNat / 4096 - 0xE0) * 4096 +
              (0x80 + c.toNat / 64 % 64 - 0x80) * 64 + (0x80 + c.toNat % 64 - 0x80) < 0xE000)))) =
            true by rw [hval]; simp; omega)]
        rw [hval, hcu]
      · rw [utf8EncodeChar_eq, if_neg h1, if_neg h2, if_neg h3]
        rw [List.cons_append, List.cons_append, List.cons_append, List.cons_append,
          List.nil_append, utf8Decode_cons]
        rw [if_neg (by omega), if_neg (by omega), if_neg (by omega), if_neg (by omega),
          if_pos (show 0xF0 + c.toNat / 262144 < 0xF5 by omega)]
        simp only []
        have hval : (0xF0 + c.toNat / 262144 - 0xF0) * 262144 +
            (0x80 + c.toNat / 4096 % 64 - 0x80) * 4096 + (0x80 + c.toNat / 64 % 64 - 0x80) * 64 +
            (0x80 + c.toNat % 64 - 0x80) = c.toNat := by omega
        rw [if_pos (show ((decide (0x80 ≤ 0x80 + c.toNat / 4096 % 64) &&
            decide (0x80 + c.toNat / 4096 % 64 < 0xC0)) &&
            (decide (0x80 ≤ 0x80 + c.toNat / 64 % 64) && decide (0x80 + c.toNat / 64 % 64 < 0xC0)) &&
            (decide (0x80 ≤ 0x80 + c.toNat % 64) && decide (0x80 + c.toNat % 64 < 0xC0)) &&
            (decide (0x10000 ≤ (0xF0 + c.toNat / 262144 - 0xF0) * 262144 +
              (0x80 + c.toNat / 4096 % 64 - 0x80) * 4096 + (0x80 + c.toNat / 64 % 64 - 0x80) * 64 +
              (0x80 + c.toNat % 64 - 0x80)) &&
             decide ((0xF0 + c.toNat / 262144 - 0xF0) * 262144 +
              (0x80 + c.toNat / 4096 % 64 - 0x80) * 4096 + (0x80 + c.toNat / 64 % 64 - 0x80) * 64 +
              (0x80 + c.toNat % 64 - 0x80) < 0x110000))) = true by rw [hval]; simp; omega)]
        rw [hval, hcu]

theorem utf8Decode_encodeList (cs : List Char) :
    utf8Decode (utf8EncodeList cs) = some cs := by
  induction cs with
  | nil => rfl
  | cons c rest ih =>
    rw [utf8EncodeList, utf8Decode_encodeChar, ih]
    rfl

theorem utf8Decode_encode (s : String) : utf8Decode (utf8Encode s) = some s.data :=
  utf8Decode_encodeList s.data

/-! ### JSON string-literal round trip -/

theorem hexVal_hexDigitChar {d : Nat} (h : d < 16) : hexVal (hexDigitChar d) = some d := by
  have hd : d = 0 ∨ d = 1 ∨ d = 2 ∨ d = 3 ∨ d = 4 ∨ d = 5 ∨ d = 6 ∨ d = 7 ∨ d = 8 ∨ d = 9 ∨
      d = 10 ∨ d = 11 ∨ d = 12 ∨ d = 13 ∨ d = 14 ∨ d = 15 := by omega
  rcases hd with rfl | rfl | rfl | rfl | rfl | rfl | rfl | rfl | rfl | rfl | rfl | rfl | rfl |
    rfl | rfl | rfl <;> rfl

theorem hex4_cons (n : Nat) (tail : List Char) :
    hex4 n ++ tail =
      hexDigitChar (n / 4096 % 16) :: hexDigitChar (n / 256 % 16) ::
        hexDigitChar (n / 16 % 16) :: hexDigitChar (n % 16) :: tail := rfl

/-- One-step equation for `parseStrBody` on a cons cell. -/
theorem parseStrBody_cons (c : Char) (rest : List Char) :
    parseStrBody (c :: rest) =
    (if c = '"' then some ([], rest)
    else if c = '\\' then
      match rest with
      | [] => none
      | e :: rest2 =>
        if e = 'u' then
          match rest2 with
          | h1 :: h2 :: h3 :: h4 :: rest3 => do
            let d1 ← hexVal h1
            let d2 ← hexVal h2
            let d3 ← hexVal h3
            let d4 ← hexVal h4
            let u := d1 * 4096 + d2 * 256 + d3 * 16 + d4
            if 0xD800 ≤ u && u ≤ 0xDBFF then
              match rest3 with
              | b1 :: u1 :: g1 :: g2 :: g3 :: g4 :: rest4 =>
                if b1 = '\\' && u1 = 'u' then do
                  let e1 ← hexVal g1
                  let e2 ← hexVal g2
                  let e3 ← hexVal g3
                  let e4 ← hexVal g4
                  let w := e1 * 4096 + e2 * 256 + e3 * 16 + e4
                  if 0xDC00 ≤ w && w ≤ 0xDFFF then
                    (parseStrBody rest4).map
                      (fun p =>
                        (Char.ofNat (0x10000 + (u - 0xD800) * 1024 + (w - 0xDC00)) :: p.1, p.2))
                  else none
                else none
              | _ => none
            else if 0xDC00 ≤ u && u ≤ 0xDFFF then none
            else (parseStrBody rest3).map (fun p => (Char.ofNat u :: p.1, p.2))
          | _ => none
        else
          match escCharOf e with
          | some c2 => (parseStrBody rest2).map (fun p => (c2 :: p.1, p.2))
          | none => none
    else if 0x20 ≤ c.toNat then (parseStrBody rest).map (fun p => (c :: p.1, p.2))
    else none) := by
  cases rest with
  | nil => rfl
  | cons e r2 =>
    cases r2 with
    | nil => rfl
    | cons h1 r3 =>
      cases r3 with
      | nil => rfl
      | cons h2 r4 =>
        cases r4 with
        | nil => rfl
        | cons h3 r5 =>
          cases r5 with
          | nil => rfl
          | cons h4 r6 =>
            cases r6 with
            | nil => rfl
            | cons b1 r7 =>
              cases r7 with
              | nil => rfl
              | cons u1 r8 =>
                cases r8 with
                | nil => rfl
                | cons g1 r9 =>
                  cases r9 with
                  | nil => rfl
                  | cons g2 r10 =>
                    cases r10 with
                    | nil => rfl
                    | cons g3 r11 =>
                      cases r11 with
                      | nil => rfl
                      | cons g4 r12 => rfl

/-- The escapes `\"` `\\` `\n` `\r` `\t` `\b` `\f` decode to their
character. -/
theorem parseStrBody_escShort {e c2 : Char} (hne : e ≠ 'u') (hesc : escCharOf e = some c2)
    (tl : List Char) :
    parseStrBody ('\\' :: e :: tl) = (parseStrBody tl).map (fun p => (c2 :: p.1, p.2)) := by
  rw [parseStrBody_cons, if_neg (show ¬('\\' : Char) = '"' by decide), if_pos rfl]
  simp only []
  rw [if_neg hne, hesc]

/-- One-step equation for `parseStrBody` after `\u` with at least four
following characters. -/
theorem parseStrBody_bslash_u (h1 h2 h3 h4 : Char) (rest3 : List Char) :
    parseStrBody ('\\' :: 'u' :: h1 :: h2 :: h3 :: h4 :: rest3) =
    (do
      let d1 ← hexVal h1
      let d2 ← hexVal h2
      let d3 ← hexVal h3
      let d4 ← hexVal h4
      let u := d1 * 4096 + d2 * 256 + d3 * 16 + d4
      if 0xD800 ≤ u && u ≤ 0xDBFF then
        match rest3 with
        | b1 :: u1 :: g1 :: g2 :: g3 :: g4 :: rest4 =>
          if b1 = '\\' && u1 = 'u' then do
            let e1 ← hexVal g1
            let e2 ← hexVal g2
            let e3 ← hexVal g3
            let e4 ← hexVal g4
            let w := e1 * 4096 + e2 * 256 + e3 * 16 + e4
            if 0xDC00 ≤ w && w ≤ 0xDFFF then
              (parseStrBody rest4).map
                (fun p =>
                  (Char.ofNat (0x10000 + (u - 0xD800) * 1024 + (w - 0xDC00)) :: p.1, p.2))
            else none
          else none
        | _ => none
      else if 0xDC00 ≤ u && u ≤ 0xDFFF then none
      else (parseStrBody rest3).map (fun p => (Char.ofNat u :: p.1, p.2))) := by
  cases rest3 with
  | nil => rfl
  | cons b1 r7 =>
    cases r7 with
    | nil => rfl
    | cons u1 r8 =>
      cases r8 with
      | nil => rfl
      | cons g1 r9 =>
        cases r9 with
        | nil => rfl
        | cons g2 r10 =>
          cases r10 with
          | nil => rfl
          | cons g3 r11 =>
            cases r11 with
            | nil => rfl
            | cons g4 r12 => rfl

/-- A `\uXXXX` escape of a non-surrogate scalar value decodes to it. -/
theorem parseStrBody_escU {n : Nat} (hn : n < 0x10000)
    (hns : ¬(0xD800 ≤ n ∧ n ≤ 0xDFFF)) (tl : List Char) :
    parseStrBody ('\\' :: 'u' :: (hex4 n ++ tl)) =
      (parseStrBody tl).map (fun p => (Char.ofNat n :: p.1, p.2)) := by
  rw [hex4_cons, parseStrBody_bslash_u]
  rw [hexVal_hexDigitChar (show n / 4096 % 16 < 16 by omega),
    hexVal_hexDigitChar (show n / 256 % 16 < 16 by omega),
    hexVal_hexDigitChar (show n / 16 % 16 < 16 by omega),
    hexVal_hexDigitChar (show n % 16 < 16 by omega)]
  simp only [Option.bind_eq_bind, Option.some_bind]
  have hu : n / 4096 % 16 * 4096 + n / 256 % 16 * 256 + n / 16 % 16 * 16 + n % 16 = n := by
    omega
  rw [if_neg (show ¬(decide (0xD800 ≤ n / 4096 % 16 * 4096 + n / 256 % 16 * 256 +
      n / 16 % 16 * 16 + n % 16) && decide (n / 4096 % 16 * 4096 + n / 256 % 16 * 256 +
      n / 16 % 16 * 16 + n % 16 ≤ 0xDBFF)) = true by rw [hu]; simp; omega),
    if_neg (show ¬(decide (0xDC00 ≤ n / 4096 % 16 * 4096 + n / 256 % 16 * 256 +
      n / 16 % 16 * 16 + n % 16) && decide (n / 4096 % 16 * 4096 + n / 256 % 16 * 256 +
      n / 16 % 16 * 16 + n % 16 ≤ 0xDFFF)) = true by rw [hu]; simp; omega), hu]

/-- Fully concrete equation for a surrogate-pair escape shape. -/
theorem parseStrBody_bslash_u_pair (h1 h2 h3 h4 g1 g2 g3 g4 : Char) (rest4 : List Char) :
    parseStrBody ('\\' :: 'u' :: h1 :: h2 :: h3 :: h4 :: '\\' :: 'u' ::
        g1 :: g2 :: g3 :: g4 :: rest4) =
    (do
      let d1 ← hexVal h1
      let d2 ← hexVal h2
      let d3 ← hexVal h3
      let d4 ← hexVal h4
      let u := d1 * 4096 + d2 * 256 + d3 * 16 + d4
      if 0xD800 ≤ u && u ≤ 0xDBFF then do
        let e1 ← hexVal g1
        let e2 ← hexVal g2
        let e3 ← hexVal g3
        let e4 ← hexVal g4
        let w := e1 * 4096 + e2 * 256 + e3 * 16 + e4
        if 0xDC00 ≤ w && w ≤ 0xDFFF then
          (parseStrBody rest4).map
            (fun p =>
              (Char.ofNat (0x10000 + (u - 0xD800) * 1024 + (w - 0xDC00)) :: p.1, p.2))
        else none
      else if 0xDC00 ≤ u && u ≤ 0xDFFF then none
      else
        (parseStrBody ('\\' :: 'u' :: g1 :: g2 :: g3 :: g4 :: rest4)).map
          (fun p => (Char.ofNat u :: p.1, p.2))) := by
  rw [parseStrBody_bslash_u]
  simp only []
  simp only [decide_True, Bool.and_self, eq_self_iff_true, if_true]

/-- A surrogate pair of `\uXXXX` escapes decodes to the astral scalar
value it encodes. -/
theorem parseStrBody_escPair {hi lo : Nat} (hhi : 0xD800 ≤ hi ∧ hi ≤ 0xDBFF)
    (hlo : 0xDC00 ≤ lo ∧ lo ≤ 0xDFFF) (tl : List Char) :
    parseStrBody ('\\' :: 'u' :: (hex4 hi ++ ('\\' :: 'u' :: (hex4 lo ++ tl)))) =
      (parseStrBody tl).map
        (fun p => (Char.ofNat (0x10000 + (hi - 0xD800) * 1024 + (lo - 0xDC00)) :: p.1, p.2)) := by
  rw [hex4_cons, hex4_cons, parseStrBody_bslash_u_pair]
  rw [hexVal_hexDigitChar (show hi / 4096 % 16 < 16 by omega),
    hexVal_hexDigitChar (show hi / 256 % 16 < 16 by omega),
    hexVal_hexDigitChar (show hi / 16 % 16 < 16 by omega),
    hexVal_hexDigitChar (show hi % 16 < 16 by omega)]
  simp only [Option.bind_eq_bind, Option.some_bind]
  have hu : hi / 4096 % 16 * 4096 + hi / 256 % 16 * 256 + hi / 16 % 16 * 16 + hi % 16 = hi := by
    omega
  rw [if_pos (show (decide (0xD800 ≤ hi / 4096 % 16 * 4096 + hi / 256 % 16 * 256 +
      hi / 16 % 16 * 16 + hi % 16) && decide (hi / 4096 % 16 * 4096 + hi / 256 % 16 * 256 +
      hi / 16 % 16 * 16 + hi % 16 ≤ 0xDBFF)) = true by rw [hu]; simp; omega)]
  rw [hexVal_hexDigitChar (show lo / 4096 % 16 < 16 by omega),
    hexVal_hexDigitChar (show lo / 256 % 16 < 16 by omega),
    hexVal_hexDigitChar (show lo / 16 % 16 < 16 by omega),
    hexVal_hexDigitChar (show lo % 16 < 16 by omega)]
  simp only [Option.bind_eq_bind, Option.some_bind]
  have hw : lo / 4096 % 16 * 4096 + lo / 256 % 16 * 256 + lo / 16 % 16 * 16 + lo % 16 = lo := by
    omega
  rw [if_pos (show (decide (0xDC00 ≤ lo / 4096 % 16 * 4096 + lo / 256 % 16 * 256 +
      lo / 16 % 16 * 16 + lo % 16) && decide (lo / 4096 % 16 * 4096 + lo / 256 % 16 * 256 +
      lo / 16 % 16 * 16 + lo % 16 ≤ 0xDFFF)) = true by rw [hw]; simp; omega), hu, hw]

theorem parseStrBody_escList (s : List Char) :
    ∀ rest, parseStrBody (jsonEscList s ++ '"' :: rest) = some (s, rest) := by
  induction s with
  | nil =>
    intro rest
    rw [jsonEscList, List.nil_append, parseStrBody_cons, if_pos rfl]
  | cons c s ih =>
    intro rest
    have hv := charValidRange c
    have hcu : Char.ofNat c.toNat = c := Char.ofNat_toNat c
    rw [jsonEscList, List.append_assoc, jsonEscChar]
    by_cases hq : c = '"'
    · rw [if_pos hq, List.cons_append, List.cons_append, List.nil_append,
        parseStrBody_escShort (by decide) (show escCharOf '"' = some '"' from rfl), ih rest]
      rw [hq]
      rfl
    · rw [if_neg hq]
      by_cases hb : c = '\\'
      · rw [if_pos hb, List.cons_append, List.cons_append, List.nil_append,
          parseStrBody_escShort (by decide) (show escCharOf '\\' = some '\\' from rfl), ih rest]
        rw [hb]
        rfl
      · rw [if_neg hb]
        by_cases hn : c = '\n'
        · rw [if_pos hn, List.cons_append, List.cons_append, List.nil_append,
            parseStrBody_escShort (by decide) (show escCharOf 'n' = some '\n' from rfl), ih rest]
          rw [hn]
          rfl
        · rw [if_neg hn]
          by_cases hr : c = '\r'
          · rw [if_pos hr, List.cons_append, List.cons_append, List.nil_append,
              parseStrBody_escShort (by decide) (show escCharOf 'r' = some '\r' from rfl), ih rest]
            rw [hr]
            rfl
          · rw [if_neg hr]
            by_cases ht : c = '\t'
            · rw [if_pos ht, List.cons_append, List.cons_append, List.nil_append,
                parseStrBody_escShort (by decide) (show escCharOf 't' = some '\t' from rfl),
                ih rest]
              rw [ht]
              rfl
            · rw [if_neg ht]
              by_cases h8 : c = '\x08'
              · rw [if_pos h8, List.cons_append, List.cons_append, List.nil_append,
                  parseStrBody_escShort (by decide) (show escCharOf 'b' = some '\x08' from rfl),
                  ih rest]
                rw [h8]
                rfl
              · rw [if_neg h8]
                by_cases hf : c = '\x0c'
                · rw [if_pos hf, List.cons_append, List.cons_append, List.nil_append,
                    parseStrBody_escShort (by decide) (show escCharOf 'f' = some '\x0c' from rfl),
                    ih rest]
                  rw [hf]
                  rfl
                · rw [if_neg hf]
                  by_cases hrange : c.toNat < 0x20 || 0x7e < c.toNat
                  · rw [if_pos hrange]
                    by_cases hbmp : c.toNat < 0x10000
                    · rw [if_pos hbmp]
                      rw [show ('\\' :: 'u' :: hex4 c.toNat) ++ (jsonEscList s ++ '"' :: rest) =
                          '\\' :: 'u' :: (hex4 c.toNat ++ (jsonEscList s ++ '"' :: rest)) from
                          rfl]
                      rw [parseStrBody_escU hbmp (by omega), ih rest, Option.map_some', hcu]
                    · rw [if_neg hbmp]
                      have hx : c.toNat < 0x110000 := by omega
                      rw [show ('\\' :: 'u' :: hex4 (0xD800 + (c.toNat - 0x10000) / 1024) ++
                            ('\\' :: 'u' :: hex4 (0xDC00 + (c.toNat - 0x10000) % 1024))) ++
                            (jsonEscList s ++ '"' :: rest) =
                          '\\' :: 'u' :: (hex4 (0xD800 + (c.toNat - 0x10000) / 1024) ++
                            ('\\' :: 'u' :: (hex4 (0xDC00 + (c.toNat - 0x10000) % 1024) ++
                              (jsonEscList s ++ '"' :: rest)))) from by simp]
                      rw [parseStrBody_escPair (by omega) (by omega), ih rest, Option.map_some']
                      rw [show 0x10000 + (0xD800 + (c.toNat - 0x10000) / 1024 - 0xD800) * 1024 +
                          (0xDC00 + (c.toNat - 0x10000) % 1024 - 0xDC00) = c.toNat by omega, hcu]
                  · rw [if_neg hrange]
                    simp only [Bool.or_eq_true, not_or, Bool.not_eq_true,
                      decide_eq_false_iff_not, not_lt] at hrange
                    rw [List.cons_append, parseStrBody_cons, if_neg hq, if_neg hb,
                      if_pos (show 0x20 ≤ c.toNat by omega), List.nil_append, ih rest]
                    rfl

/-! ### JSON value round trip -/

theorem strMkData (s : String) : String.mk s.data = s := rfl

theorem skipWsC_noop {c : Char} (h : isJsonWs c = false) (cs : List Char) :
    skipWsC (c :: cs) = c :: cs := by
  rw [skipWsC, h]
  simp

theorem restOk_not_digit {rest : List Char} (h : restOkB rest = true) :
    ∀ c cs, rest = c :: cs → isDigitC c = false := by
  intro c cs hr
  subst hr
  simp only [restOkB, Bool.or_eq_true, decide_eq_true_eq] at h
  rcases h with (h | h) | h <;> (subst h; rfl)

theorem jsonParseVal_succ (n : Nat) (cs : List Char) :
    jsonParseVal (n + 1) cs =
    (match skipWsC cs with
    | [] => none
    | c :: r =>
      if c = '\x7b' then (jsonParseMembers n r).map (fun p => (.vdict (mapInsertPairs [] p.1), p.2))
      else if c = '[' then (jsonParseItems n r).map (fun p => (.vlist p.1, p.2))
      else if c = '"' then (parseStrBody r).map (fun p => (.vstr (String.mk p.1), p.2))
      else if c = 't' then (expectChars ['r', 'u', 'e'] r).map (fun r2 => (.vbool true, r2))
      else if c = 'f' then (expectChars ['a', 'l', 's', 'e'] r).map (fun r2 => (.vbool false, r2))
      else if c = 'n' then (expectChars ['u', 'l', 'l'] r).map (fun r2 => (.vnone, r2))
      else if c = '-' then
        match takeDigits r with
        | ([], _) => none
        | (ds, r2) => some (.vint (-(Int.ofNat (digitsVal ds 0))), r2)
      else
        match takeDigits (c :: r) with
        | ([], _) => none
        | (ds, r2) => some (.vint (Int.ofNat (digitsVal ds 0)), r2)) := by
  rw [jsonParseVal]

theorem jsonParseItems_succ (n : Nat) (cs : List Char) :
    jsonParseItems (n + 1) cs =
    (match skipWsC cs with
    | [] => none
    | c :: r =>
      if c = ']' then some ([], r)
      else do
        let (v, cs2) ← jsonParseVal n (c :: r)
        match skipWsC cs2 with
        | [] => none
        | c2 :: r2 =>
          if c2 = ',' then do
            let (vs, r3) ← jsonParseItems n r2
            some (v :: vs, r3)
          else if c2 = ']' then some ([v], r2)
          else none) := by
  rw [jsonParseItems]

theorem jsonParseMembers_succ (n : Nat) (cs : List Char) :
    jsonParseMembers (n + 1) cs =
    (match skipWsC cs with
    | [] => none
    | c :: r =>
      if c = '\x7d' then some ([], r)
      else if c = '"' then do
        let (k, cs2) ← parseStrBody r
        match skipWsC cs2 with
        | [] => none
        | c2 :: cs3 =>
          if c2 = ':' then do
            let (v, cs4) ← jsonParseVal n cs3
            match skipWsC cs4 with
            | [] => none
            | c3 :: cs5 =>
              if c3 = ',' then do
                let (ms, r2) ← jsonParseMembers n cs5
                some ((PyVal.vstr (String.mk k), v) :: ms, r2)
              else if c3 = '\x7d' then some ([(PyVal.vstr (String.mk k), v)], cs5)
              else none
          else none
      else none) := by
  rw [jsonParseMembers]

/-- Every encoding starts with a non-whitespace character that is not a
closing bracket or brace, a comma or a colon. -/
theorem jsonEncVal_head (v : PyVal) :
    ∃ c cs, jsonEncVal v = c :: cs ∧ isJsonWs c = false ∧ c ≠ ']' ∧ c ≠ '\x7d' := by
  cases v with
  | vstr s => exact ⟨'"', _, rfl, by decide, by decide, by decide⟩
  | vint i =>
    by_cases hneg : i < 0
    · refine ⟨'-', natRepr (-i).toNat, ?_, by decide, by decide, by decide⟩
      simp only [jsonEncVal, intRepr, if_pos hneg]
    · obtain ⟨d, ds, hds⟩ := List.exists_cons_of_ne_nil (natRepr_ne_nil i.toNat)
      have hd : isDigitC d = true := natRepr_all_digits i.toNat d (by rw [hds]; simp)
      obtain ⟨hws, _, _, _, _, _, _, _, _, hrb, hbr, _⟩ := isDigitC_not_special hd
      refine ⟨d, ds, ?_, hws, hrb, hbr⟩
      simp only [jsonEncVal, intRepr, if_neg hneg, hds]
  | vbool b =>
    cases b
    · exact ⟨'f', _, rfl, by decide, by decide, by decide⟩
    · exact ⟨'t', _, rfl, by decide, by decide, by decide⟩
  | vnone => exact ⟨'n', _, rfl, by decide, by decide, by decide⟩
  | vlist xs => exact ⟨'[', _, rfl, by decide, by decide, by decide⟩
  | vdict kvs => exact ⟨'\x7b', _, rfl, by decide, by decide, by decide⟩

theorem jsonEncVal_length_pos (v : PyVal) : 1 ≤ (jsonEncVal v).length := by
  obtain ⟨c, cs, h, _⟩ := jsonEncVal_head v
  rw [h]
  simp

theorem jsonCost_pos (v : PyVal) : 1 ≤ jsonCost v := by
  cases v <;> simp [jsonCost]

theorem jsonCostItems_pos (xs : List PyVal) : 1 ≤ jsonCostItems xs := by
  cases xs <;> simp [jsonCostItems]

theorem jsonCostMembers_pos (kvs : List (PyVal × PyVal)) : 1 ≤ jsonCostMembers kvs := by
  cases kvs with
  | nil => simp [jsonCostMembers]
  | cons p rest =>
    obtain ⟨k, v⟩ := p
    simp [jsonCostMembers]

theorem jsonCost_le_length : ∀ N : Nat,
    (∀ v : PyVal, sizeOf v ≤ N → jsonCost v ≤ (jsonEncVal v).length) ∧
    (∀ xs : List PyVal, sizeOf xs ≤ N → jsonCostItems xs ≤ (jsonEncItems xs).length) ∧
    (∀ kvs : List (PyVal × PyVal), sizeOf kvs ≤ N →
      jsonCostMembers kvs ≤ (jsonEncMembers kvs).length) := by
  intro N
  induction N using Nat.strong_induction_on with
  | _ N ih =>
    refine ⟨?_, ?_, ?_⟩
    · intro v hsz
      cases v with
      | vstr s => simp [jsonCost, jsonEncVal]
      | vint i =>
        have := jsonEncVal_length_pos (.vint i)
        simp only [jsonCost]
        omega
      | vbool b => cases b <;> simp [jsonCost, jsonEncVal]
      | vnone => simp [jsonCost, jsonEncVal]
      | vlist xs =>
        have hxs : sizeOf xs < N := by
          have h1 : sizeOf (PyVal.vlist xs) ≤ N := hsz
          simp only [PyVal.vlist.sizeOf_spec] at h1
          omega
        have := (ih (sizeOf xs) hxs).2.1 xs (le_refl _)
        simp only [jsonCost, jsonEncVal, List.length_cons]
        omega
      | vdict kvs =>
        have hk : sizeOf kvs < N := by
          have h1 : sizeOf (PyVal.vdict kvs) ≤ N := hsz
          simp only [PyVal.vdict.sizeOf_spec] at h1
          omega
        have := (ih (sizeOf kvs) hk).2.2 kvs (le_refl _)
        simp only [jsonCost, jsonEncVal, List.length_cons]
        omega
    · intro xs hsz
      cases xs with
      | nil => simp [jsonCostItems, jsonEncItems]
      | cons x tail =>
        have hx : sizeOf x < N := by
          have h1 : sizeOf (x :: tail) ≤ N := hsz
          simp only [List.cons.sizeOf_spec] at h1
          omega
        have htail : sizeOf tail < N := by
          have h1 : sizeOf (x :: tail) ≤ N := hsz
          simp only [List.cons.sizeOf_spec] at h1
          omega
        have hxle := (ih (sizeOf x) hx).1 x (le_refl _)
        have hxpos := jsonEncVal_length_pos x
        cases tail with
        | nil =>
          rw [show jsonCostItems [x] = 1 + max (jsonCost x) (jsonCostItems []) from rfl,
            show jsonEncItems [x] = jsonEncVal x ++ [']'] from rfl]
          have hmax : max (jsonCost x) (jsonCostItems []) ≤ (jsonEncVal x).length :=
            max_le hxle (by simp [jsonCostItems]; omega)
          simp only [List.length_append, List.length_cons, List.length_nil]
          omega
        | cons y tail2 =>
          have htle := (ih (sizeOf (y :: tail2)) htail).2.1 (y :: tail2) (le_refl _)
          have htpos := jsonCostItems_pos (y :: tail2)
          rw [show jsonCostItems (x :: y :: tail2) =
              1 + max (jsonCost x) (jsonCostItems (y :: tail2)) from rfl,
            show jsonEncItems (x :: y :: tail2) =
              jsonEncVal x ++ ',' :: jsonEncItems (y :: tail2) from rfl]
          have hmax : max (jsonCost x) (jsonCostItems (y :: tail2)) ≤
              (jsonEncVal x).length + (jsonEncItems (y :: tail2)).length :=
            max_le (by omega) (by omega)
          simp only [List.length_append, List.length_cons]
          omega
    · intro kvs hsz
      cases kvs with
      | nil => simp [jsonCostMembers, jsonEncMembers]
      | cons p tail =>
        obtain ⟨k, v⟩ := p
        have hv : sizeOf v < N := by
          have h1 : sizeOf ((k, v) :: tail) ≤ N := hsz
          simp only [List.cons.sizeOf_spec, Prod.mk.sizeOf_spec] at h1
          omega
        have htail : sizeOf tail < N := by
          have h1 : sizeOf ((k, v) :: tail) ≤ N := hsz
          simp only [List.cons.sizeOf_spec] at h1
          omega
        have hvle := (ih (sizeOf v) hv).1 v (le_refl _)
        have hvpos := jsonEncVal_length_pos v
        cases tail with
        | nil =>
          rw [show jsonCostMembers [(k, v)] = 1 + max (jsonCost v) (jsonCostMembers []) from rfl,
            show jsonEncMembers [(k, v)] =
              '"' :: jsonKeyText k ++ '"' :: ':' :: jsonEncVal v ++ ['\x7d'] from rfl]
          have hmax : max (jsonCost v) (jsonCostMembers []) ≤ (jsonEncVal v).length + 1 :=
            max_le (by omega) (by simp [jsonCostMembers])
          simp only [List.length_cons, List.length_append, List.length_nil]
          omega
        | cons q tail2 =>
          have htle := (ih (sizeOf (q :: tail2)) htail).2.2 (q :: tail2) (le_refl _)
          have htpos := jsonCostMembers_pos (q :: tail2)
          rw [show jsonCostMembers ((k, v) :: q :: tail2) =
              1 + max (jsonCost v) (jsonCostMembers (q :: tail2)) from rfl,
            show jsonEncMembers ((k, v) :: q :: tail2) =
              '"' :: jsonKeyText k ++ '"' :: ':' :: jsonEncVal v ++
                ',' :: jsonEncMembers (q :: tail2) from rfl]
          have hmax : max (jsonCost v) (jsonCostMembers (q :: tail2)) ≤
              (jsonEncVal v).length + (jsonEncMembers (q :: tail2)).length :=
            max_le (by omega) (by omega)
          simp only [List.length_cons, List.length_append]
          omega


theorem expectChars_self (es : List Char) : ∀ rest, expectChars es (es ++ rest) = some rest := by
  induction es with
  | nil => intro rest; rfl
  | cons e es ih =>
    intro rest
    rw [List.cons_append, expectChars, if_pos rfl, ih rest]

theorem jsonParse_enc : ∀ n : Nat,
    (∀ v rest, jsonRoundB v = true → jsonCost v ≤ n → restOkB rest = true →
      jsonParseVal n (jsonEncVal v ++ rest) = some (v, rest)) ∧
    (∀ xs rest, jsonRoundListB xs = true → jsonCostItems xs ≤ n → restOkB rest = true →
      jsonParseItems n (jsonEncItems xs ++ rest) = some (xs, rest)) ∧
    (∀ kvs rest, jsonRoundPairsB kvs = true → jsonCostMembers kvs ≤ n → restOkB rest = true →
      jsonParseMembers n (jsonEncMembers kvs ++ rest) = some (kvs, rest)) := by
  intro n
  induction n with
  | zero =>
    refine ⟨fun v _ _ hc _ => absurd hc (by have := jsonCost_pos v; omega),
      fun xs _ _ hc _ => absurd hc (by have := jsonCostItems_pos xs; omega),
      fun kvs _ _ hc _ => absurd hc (by have := jsonCostMembers_pos kvs; omega)⟩
  | succ n ih =>
    obtain ⟨ihP, ihQ, ihR⟩ := ih
    refine ⟨?_, ?_, ?_⟩
    · intro v rest hrb hcost hrest
      cases v with
      | vstr s =>
        rw [show jsonEncVal (.vstr s) ++ rest = '"' :: (jsonEscList s.data ++ '"' :: rest) from
          by simp [jsonEncVal]]
        rw [jsonParseVal_succ, skipWsC_noop (by decide : isJsonWs '"' = false)]
        simp only []
        rw [if_pos trivial, parseStrBody_escList]
        rfl
      | vint i =>
        by_cases hneg : i < 0
        · obtain ⟨d, ds, hds⟩ := List.exists_cons_of_ne_nil (natRepr_ne_nil (-i).toNat)
          have hdig : ∀ c ∈ d :: ds, isDigitC c = true := by
            rw [← hds]
            exact natRepr_all_digits _
          rw [show jsonEncVal (.vint i) ++ rest = '-' :: ((d :: ds) ++ rest) from by
            simp [jsonEncVal, intRepr, if_pos hneg, hds]]
          rw [jsonParseVal_succ, skipWsC_noop (by decide : isJsonWs '-' = false)]
          simp only []
          rw [if_pos trivial]
          rw [takeDigits_spec (d :: ds) rest hdig (restOk_not_digit hrest)]
          simp only []
          rw [← hds, digitsVal_natRepr]
          have hval : -(Int.ofNat (-i).toNat) = i := by
            have h2 : ((-i).toNat : Int) = -i := Int.toNat_of_nonneg (by omega)
            have h3 : Int.ofNat (-i).toNat = ((-i).toNat : Int) := rfl
            rw [h3, h2]
            omega
          rw [hval]
          simp
        · obtain ⟨d, ds, hds⟩ := List.exists_cons_of_ne_nil (natRepr_ne_nil i.toNat)
          have hdig : ∀ c ∈ d :: ds, isDigitC c = true := by
            rw [← hds]
            exact natRepr_all_digits _
          obtain ⟨hws, hbrace, hbrack, hquot, ht2, hf2, hn2, hminus, _, _, _, _⟩ :=
            isDigitC_not_special (hdig d (by simp))
          rw [show jsonEncVal (.vint i) ++ rest = d :: (ds ++ rest) from by
            simp [jsonEncVal, intRepr, if_neg hneg, hds]]
          rw [jsonParseVal_succ, skipWsC_noop hws]
          simp only []
          rw [if_neg hbrace, if_neg hbrack, if_neg hquot, if_neg ht2, if_neg hf2, if_neg hn2,
            if_neg hminus]
          rw [show d :: (ds ++ rest) = (d :: ds) ++ rest from rfl]
          rw [takeDigits_spec (d :: ds) rest hdig (restOk_not_digit hrest)]
          simp only []
          rw [← hds, digitsVal_natRepr]
          have hval : Int.ofNat i.toNat = i := by
            have h2 : (i.toNat : Int) = i := Int.toNat_of_nonneg (by omega)
            have h3 : Int.ofNat i.toNat = (i.toNat : Int) := rfl
            rw [h3, h2]
          rw [hval]
      | vbool b =>
        cases b
        · rw [show jsonEncVal (.vbool false) ++ rest =
              'f' :: (['a', 'l', 's', 'e'] ++ rest) from rfl]
          rw [jsonParseVal_succ, skipWsC_noop (by decide : isJsonWs 'f' = false)]
          simp only []
          rw [if_pos trivial, expectChars_self]
          rfl
        · rw [show jsonEncVal (.vbool true) ++ rest =
              't' :: (['r', 'u', 'e'] ++ rest) from rfl]
          rw [jsonParseVal_succ, skipWsC_noop (by decide : isJsonWs 't' = false)]
          simp only []
          rw [if_pos trivial, expectChars_self]
          rfl
      | vnone =>
        rw [show jsonEncVal .vnone ++ rest = 'n' :: (['u', 'l', 'l'] ++ rest) from rfl]
        rw [jsonParseVal_succ, skipWsC_noop (by decide : isJsonWs 'n' = false)]
        simp only []
        rw [if_pos trivial, expectChars_self]
        rfl
      | vlist xs =>
        rw [show jsonEncVal (.vlist xs) ++ rest = '[' :: (jsonEncItems xs ++ rest) from by
          simp [jsonEncVal]]
        rw [jsonParseVal_succ, skipWsC_noop (by decide : isJsonWs '[' = false)]
        simp only []
        rw [if_pos trivial]
        have hrb2 : jsonRoundListB xs = true := by simpa [jsonRoundB] using hrb
        have hc2 : jsonCostItems xs ≤ n := by
          simp only [jsonCost] at hcost
          omega
        rw [ihQ xs rest hrb2 hc2 hrest]
        rfl
      | vdict kvs =>
        rw [show jsonEncVal (.vdict kvs) ++ rest = '\x7b' :: (jsonEncMembers kvs ++ rest) from
          by simp [jsonEncVal]]
        rw [jsonParseVal_succ, skipWsC_noop (by decide : isJsonWs '\x7b' = false)]
        simp only []
        rw [if_pos trivial]
        have hrb2 : nodupKeysB kvs = true ∧ jsonRoundPairsB kvs = true := by
          simpa [jsonRoundB, Bool.and_eq_true] using hrb
        have hc2 : jsonCostMembers kvs ≤ n := by
          simp only [jsonCost] at hcost
          omega
        rw [ihR kvs rest hrb2.2 hc2 hrest]
        simp only [Option.map_some']
        rw [mapInsertPairs_fresh kvs [] (fun p _ => rfl) hrb2.1]
        rfl
    · intro xs rest hrb hcost hrest
      cases xs with
      | nil =>
        rw [show jsonEncItems [] ++ rest = ']' :: rest from rfl]
        rw [jsonParseItems_succ, skipWsC_noop (by decide : isJsonWs ']' = false)]
        simp only []
        rw [if_pos trivial]
      | cons x tail =>
        have hrb2 : jsonRoundB x = true ∧ jsonRoundListB tail = true := by
          simpa [jsonRoundListB, Bool.and_eq_true] using hrb
        obtain ⟨c, cs, hcs, hws, hbr, hbrace⟩ := jsonEncVal_head x
        cases tail with
        | nil =>
          have hshape : jsonEncItems [x] ++ rest = c :: (cs ++ (']' :: rest)) := by
            rw [show jsonEncItems [x] = jsonEncVal x ++ [']'] from rfl, hcs]
            simp
          rw [hshape, jsonParseItems_succ, skipWsC_noop hws]
          simp only []
          rw [if_neg hbr]
          rw [show c :: (cs ++ (']' :: rest)) = jsonEncVal x ++ (']' :: rest) from by
            rw [hcs]; simp]
          have hm := le_max_left (jsonCost x) (jsonCostItems ([] : List PyVal))
          rw [show jsonCostItems [x] = 1 + max (jsonCost x) (jsonCostItems []) from rfl] at hcost
          rw [ihP x (']' :: rest) hrb2.1 (by omega) (by rfl)]
          simp only [Option.bind_eq_bind, Option.some_bind]
          rw [skipWsC_noop (by decide : isJsonWs ']' = false)]
          simp only []
          rw [if_pos trivial]
          simp
        | cons y tail2 =>
          have hshape : jsonEncItems (x :: y :: tail2) ++ rest =
              c :: (cs ++ (',' :: (jsonEncItems (y :: tail2) ++ rest))) := by
            rw [show jsonEncItems (x :: y :: tail2) =
              jsonEncVal x ++ ',' :: jsonEncItems (y :: tail2) from rfl, hcs]
            simp
          rw [hshape, jsonParseItems_succ, skipWsC_noop hws]
          simp only []
          rw [if_neg hbr]
          rw [show c :: (cs ++ (',' :: (jsonEncItems (y :: tail2) ++ rest))) =
              jsonEncVal x ++ (',' :: (jsonEncItems (y :: tail2) ++ rest)) from by
            rw [hcs]; simp]
          have hm1 := le_max_left (jsonCost x) (jsonCostItems (y :: tail2))
          have hm2 := le_max_right (jsonCost x) (jsonCostItems (y :: tail2))
          rw [show jsonCostItems (x :: y :: tail2) =
              1 + max (jsonCost x) (jsonCostItems (y :: tail2)) from rfl] at hcost
          rw [ihP x _ hrb2.1 (by omega) (by rfl)]
          simp only [Option.bind_eq_bind, Option.some_bind]
          rw [skipWsC_noop (by decide : isJsonWs ',' = false)]
          simp only []
          rw [if_pos trivial]
          rw [ihQ (y :: tail2) rest hrb2.2 (by omega) hrest]
          rfl
    · intro kvs rest hrb hcost hrest
      cases kvs with
      | nil =>
        rw [show jsonEncMembers [] ++ rest = '\x7d' :: rest from rfl]
        rw [jsonParseMembers_succ, skipWsC_noop (by decide : isJsonWs '\x7d' = false)]
        simp only []
        rw [if_pos trivial]
      | cons p tail =>
        obtain ⟨k, v⟩ := p
        cases k with
        | vstr s =>
          have hrb2 : jsonRoundB v = true ∧ jsonRoundPairsB tail = true := by
            simpa [jsonRoundPairsB, Bool.and_eq_true] using hrb
          cases tail with
          | nil =>
            have hshape : jsonEncMembers [(PyVal.vstr s, v)] ++ rest =
                '"' :: (jsonEscList s.data ++ '"' ::
                  (':' :: (jsonEncVal v ++ ('\x7d' :: rest)))) := by
              rw [show jsonEncMembers [(PyVal.vstr s, v)] =
                '"' :: jsonKeyText (PyVal.vstr s) ++ '"' :: ':' :: jsonEncVal v ++ ['\x7d']
                from rfl]
              simp [jsonKeyText]
            rw [hshape, jsonParseMembers_succ, skipWsC_noop (by decide : isJsonWs '"' = false)]
            simp only []
            rw [if_pos trivial, parseStrBody_escList]
            simp only [Option.bind_eq_bind, Option.some_bind]
            rw [skipWsC_noop (by decide : isJsonWs ':' = false)]
            simp only []
            rw [if_pos trivial]
            have hm := le_max_left (jsonCost v) (jsonCostMembers ([] : List (PyVal × PyVal)))
            rw [show jsonCostMembers [(PyVal.vstr s, v)] =
                1 + max (jsonCost v) (jsonCostMembers []) from rfl] at hcost
            rw [ihP v ('\x7d' :: rest) hrb2.1 (by omega) (by rfl)]
            simp only [Option.bind_eq_bind, Option.some_bind]
            rw [skipWsC_noop (by decide : isJsonWs '\x7d' = false)]
            simp only []
            rw [if_pos trivial]
            simp
          | cons q tail2 =>
            have hshape : jsonEncMembers ((PyVal.vstr s, v) :: q :: tail2) ++ rest =
                '"' :: (jsonEscList s.data ++ '"' ::
                  (':' :: (jsonEncVal v ++
                    (',' :: (jsonEncMembers (q :: tail2) ++ rest))))) := by
              rw [show jsonEncMembers ((PyVal.vstr s, v) :: q :: tail2) =
                '"' :: jsonKeyText (PyVal.vstr s) ++ '"' :: ':' :: jsonEncVal v ++
                  ',' :: jsonEncMembers (q :: tail2) from rfl]
              simp [jsonKeyText]
            rw [hshape, jsonParseMembers_succ, skipWsC_noop (by decide : isJsonWs '"' = false)]
            simp only []
            rw [if_pos trivial, parseStrBody_escList]
            simp only [Option.bind_eq_bind, Option.some_bind]
            rw [skipWsC_noop (by decide : isJsonWs ':' = false)]
            simp only []
            rw [if_pos trivial]
            have hm1 := le_max_left (jsonCost v) (jsonCostMembers (q :: tail2))
            have hm2 := le_max_right (jsonCost v) (jsonCostMembers (q :: tail2))
            rw [show jsonCostMembers ((PyVal.vstr s, v) :: q :: tail2) =
                1 + max (jsonCost v) (jsonCostMembers (q :: tail2)) from rfl] at hcost
            rw [ihP v _ hrb2.1 (by omega) (by rfl)]
            simp only [Option.bind_eq_bind, Option.some_bind]
            rw [skipWsC_noop (by decide : isJsonWs ',' = false)]
            simp only []
            rw [if_pos trivial]
            rw [ihR (q :: tail2) rest hrb2.2 (by omega) hrest]
            rfl
        | vint i => simp [jsonRoundPairsB] at hrb
        | vbool b => simp [jsonRoundPairsB] at hrb
        | vnone => simp [jsonRoundPairsB] at hrb
        | vlist xs => simp [jsonRoundPairsB] at hrb
        | vdict kvs2 => simp [jsonRoundPairsB] at hrb

theorem jsonLoads_enc {v : PyVal} (h : jsonRoundB v = true) :
    jsonLoads (jsonEncVal v) = .ok v := by
  have hcost : jsonCost v ≤ (jsonEncVal v).length + 1 := by
    have := (jsonCost_le_length (sizeOf v)).1 v (le_refl _)
    omega
  have := (jsonParse_enc ((jsonEncVal v).length + 1)).1 v [] h hcost (by rfl)
  rw [jsonLoads]
  rw [List.append_nil] at this
  rw [this]
  rfl

/-! ### CSV round trip -/

theorem csvQuoteChars_cons (c : Char) (cs : List Char) :
    csvQuoteChars (c :: cs) =
      if c = '"' then '"' :: '"' :: csvQuoteChars cs else c :: csvQuoteChars cs := rfl

theorem csvGo_cons (c : Char) (rest : List Char) (st : CsvSt) (f : List Char)
    (row : List String) :
    csvGo (c :: rest) st f row =
    (if st = CsvSt.inQ then
      if c = '"' then
        match rest with
        | [] => csvGo [] .postQ f row
        | c2 :: rest2 =>
          if c2 = '"' then csvGo rest2 .inQ (f ++ ['"']) row
          else csvGo (c2 :: rest2) .postQ f row
      else csvGo rest .inQ (f ++ [c]) row
    else
      if c = ',' then csvGo rest .fStart [] (row ++ [String.mk f])
      else if c = '\r' then
        csvEmitRow st f row ::
          (match rest with
            | [] => csvGo [] .rStart [] []
            | c2 :: rest2 =>
              if c2 = '\n' then csvGo rest2 .rStart [] []
              else csvGo (c2 :: rest2) .rStart [] [])
      else if c = '\n' then csvEmitRow st f row :: csvGo rest .rStart [] []
      else if c = '"' then
        if st = .rStart || st = .fStart then csvGo rest .inQ [] row
        else csvGo rest .inF (f ++ ['"']) row
      else csvGo rest .inF (f ++ [c]) row) := by
  conv_lhs => rw [csvGo.eq_def]

theorem csvGo_plain_comma :
    ∀ (f : List Char), (∀ c ∈ f, c ≠ ',' ∧ c ≠ '"' ∧ c ≠ '\r' ∧ c ≠ '\n') →
    ∀ (tail acc : List Char) (row : List String) (st : CsvSt), st ≠ CsvSt.inQ →
    csvGo (f ++ ',' :: tail) st acc row =
      csvGo tail CsvSt.fStart [] (row ++ [String.mk (acc ++ f)]) := by
  intro f
  induction f with
  | nil =>
    intro _ tail acc row st hst
    rw [List.nil_append, csvGo_cons, if_neg hst, if_pos rfl]
    simp
  | cons c f ih =>
    intro hpl tail acc row st hst
    obtain ⟨hc1, hc2, hc3, hc4⟩ := hpl c (by simp)
    rw [List.cons_append, csvGo_cons, if_neg hst, if_neg hc1, if_neg hc3, if_neg hc4,
      if_neg hc2]
    rw [ih (fun x hx => hpl x (List.mem_cons_of_mem _ hx)) tail (acc ++ [c]) row .inF
      (by decide)]
    simp

theorem csvGo_plain_crlf :
    ∀ (f : List Char), (∀ c ∈ f, c ≠ ',' ∧ c ≠ '"' ∧ c ≠ '\r' ∧ c ≠ '\n') →
    ∀ (tail acc : List Char) (row : List String) (st : CsvSt),
      st = CsvSt.fStart ∨ st = CsvSt.inF →
    csvGo (f ++ '\r' :: '\n' :: tail) st acc row =
      (row ++ [String.mk (acc ++ f)]) :: csvGo tail CsvSt.rStart [] [] := by
  intro f
  induction f with
  | nil =>
    intro _ tail acc row st hst
    have hst2 : st ≠ CsvSt.inQ := by rcases hst with rfl | rfl <;> decide
    rw [List.nil_append, csvGo_cons, if_neg hst2,
      if_neg (show ¬('\r' : Char) = ',' by decide), if_pos rfl]
    have hemit : csvEmitRow st acc row = row ++ [String.mk acc] := by
      rcases hst with rfl | rfl <;> rfl
    rw [hemit]
    simp only []
    simp
  | cons c f ih =>
    intro hpl tail acc row st hst
    have hst2 : st ≠ CsvSt.inQ := by rcases hst with rfl | rfl <;> decide
    obtain ⟨hc1, hc2, hc3, hc4⟩ := hpl c (by simp)
    rw [List.cons_append, csvGo_cons, if_neg hst2, if_neg hc1, if_neg hc3, if_neg hc4,
      if_neg hc2]
    rw [ih (fun x hx => hpl x (List.mem_cons_of_mem _ hx)) tail (acc ++ [c]) row .inF
      (Or.inr rfl)]
    simp

theorem csvGo_plain_lf :
    ∀ (f : List Char), (∀ c ∈ f, c ≠ ',' ∧ c ≠ '"' ∧ c ≠ '\r' ∧ c ≠ '\n') →
    ∀ (tail acc : List Char) (row : List String) (st : CsvSt),
      st = CsvSt.fStart ∨ st = CsvSt.inF →
    csvGo (f ++ '\n' :: tail) st acc row =
      (row ++ [String.mk (acc ++ f)]) :: csvGo tail CsvSt.rStart [] [] := by
  intro f
  induction f with
  | nil =>
    intro _ tail acc row st hst
    have hst2 : st ≠ CsvSt.inQ := by rcases hst with rfl | rfl <;> decide
    rw [List.nil_append, csvGo_cons, if_neg hst2,
      if_neg (show ¬('\n' : Char) = ',' by decide),
      if_neg (show ¬('\n' : Char) = '\r' by decide), if_pos rfl]
    have hemit : csvEmitRow st acc row = row ++ [String.mk acc] := by
      rcases hst with rfl | rfl <;> rfl
    rw [hemit]
    simp
  | cons c f ih =>
    intro hpl tail acc row st hst
    have hst2 : st ≠ CsvSt.inQ := by rcases hst with rfl | rfl <;> decide
    obtain ⟨hc1, hc2, hc3, hc4⟩ := hpl c (by simp)
    rw [List.cons_append, csvGo_cons, if_neg hst2, if_neg hc1, if_neg hc3, if_neg hc4,
      if_neg hc2]
    rw [ih (fun x hx => hpl x (List.mem_cons_of_mem _ hx)) tail (acc ++ [c]) row .inF
      (Or.inr rfl)]
    simp

theorem csvGo_quoted :
    ∀ (s acc : List Char) (row : List String) (d : Char) (tail : List Char), d ≠ '"' →
    csvGo (csvQuoteChars s ++ '"' :: d :: tail) CsvSt.inQ acc row =
      csvGo (d :: tail) CsvSt.postQ (acc ++ s) row := by
  intro s
  induction s with
  | nil =>
    intro acc row d tail hd
    rw [show csvQuoteChars [] = [] from rfl, List.nil_append, csvGo_cons, if_pos rfl,
      if_pos rfl]
    simp only []
    rw [if_neg hd]
    simp
  | cons c s ih =>
    intro acc row d tail hd
    by_cases hc : c = '"'
    · subst hc
      rw [csvQuoteChars_cons, if_pos rfl, List.cons_append, List.cons_append, csvGo_cons,
        if_pos rfl, if_pos rfl]
      simp only []
      rw [if_pos trivial]
      rw [ih (acc ++ ['"']) row d tail hd]
      simp
    · rw [csvQuoteChars_cons, if_neg hc, List.cons_append, csvGo_cons, if_pos rfl,
        if_neg hc]
      rw [ih (acc ++ [c]) row d tail hd]
      simp

theorem csvFieldNeedsQuote_false {s : List Char} (h : csvFieldNeedsQuote s = false) :
    ∀ c ∈ s, c ≠ ',' ∧ c ≠ '"' ∧ c ≠ '\r' ∧ c ≠ '\n' := by
  intro c hc
  simp only [csvFieldNeedsQuote, List.any_eq_false] at h
  have h2 := h c hc
  simp only [Bool.or_eq_true, decide_eq_true_eq, not_or] at h2
  exact ⟨h2.1.1.1, h2.1.1.2, h2.1.2, h2.2⟩

theorem csvGo_postQ_comma (f : List Char) (tail : List Char) (row : List String) :
    csvGo (',' :: tail) CsvSt.postQ f row =
      csvGo tail CsvSt.fStart [] (row ++ [String.mk f]) := by
  rw [csvGo_cons, if_neg (show CsvSt.postQ ≠ CsvSt.inQ by decide), if_pos rfl]

theorem csvGo_postQ_crlf (f : List Char) (tail : List Char) (row : List String) :
    csvGo ('\r' :: '\n' :: tail) CsvSt.postQ f row =
      (row ++ [String.mk f]) :: csvGo tail CsvSt.rStart [] [] := by
  rw [csvGo_cons, if_neg (show CsvSt.postQ ≠ CsvSt.inQ by decide),
    if_neg (show ¬('\r' : Char) = ',' by decide), if_pos rfl]
  simp only []
  simp [csvEmitRow]

theorem csvGo_postQ_lf (f : List Char) (tail : List Char) (row : List String) :
    csvGo ('\n' :: tail) CsvSt.postQ f row =
      (row ++ [String.mk f]) :: csvGo tail CsvSt.rStart [] [] := by
  rw [csvGo_cons, if_neg (show CsvSt.postQ ≠ CsvSt.inQ by decide),
    if_neg (show ¬('\n' : Char) = ',' by decide),
    if_neg (show ¬('\n' : Char) = '\r' by decide), if_pos rfl]
  simp [csvEmitRow]

theorem csvGo_openQuote (tail : List Char) (f : List Char) (row : List String) (st : CsvSt)
    (hst : st = CsvSt.rStart ∨ st = CsvSt.fStart) :
    csvGo ('"' :: tail) st f row = csvGo tail CsvSt.inQ [] row := by
  rcases hst with rfl | rfl <;>
    rw [csvGo_cons, if_neg (by decide), if_neg (show ¬('"' : Char) = ',' by decide),
      if_neg (show ¬('"' : Char) = '\r' by decide),
      if_neg (show ¬('"' : Char) = '\n' by decide), if_pos rfl, if_pos (by decide)]

theorem csvGo_field_comma (k : String) (tail : List Char) (row : List String) (st : CsvSt)
    (hst : st = CsvSt.rStart ∨ st = CsvSt.fStart) :
    csvGo (csvFieldText k ++ ',' :: tail) st [] row =
      csvGo tail CsvSt.fStart [] (row ++ [k]) := by
  have hst2 : st ≠ CsvSt.inQ := by rcases hst with rfl | rfl <;> decide
  by_cases hq : csvFieldNeedsQuote k.data = true
  · rw [show csvFieldText k ++ ',' :: tail =
        '"' :: (csvQuoteChars k.data ++ '"' :: ',' :: tail) from by
      simp [csvFieldText, hq]]
    rw [csvGo_openQuote _ _ _ _ hst,
      csvGo_quoted k.data [] row ',' tail (by decide), csvGo_postQ_comma]
    simp
  · rw [show csvFieldText k = k.data from by
      simp [csvFieldText, Bool.not_eq_true _ ▸ hq]]
    rw [csvGo_plain_comma k.data
      (csvFieldNeedsQuote_false (Bool.not_eq_true _ ▸ hq)) tail [] row st hst2]
    simp

theorem csvGo_field_crlf (v : String) (tail : List Char) (row : List String) :
    csvGo (csvFieldText v ++ '\r' :: '\n' :: tail) CsvSt.fStart [] row =
      (row ++ [v]) :: csvGo tail CsvSt.rStart [] [] := by
  by_cases hq : csvFieldNeedsQuote v.data = true
  · rw [show csvFieldText v ++ '\r' :: '\n' :: tail =
        '"' :: (csvQuoteChars v.data ++ '"' :: '\r' :: '\n' :: tail) from by
      simp [csvFieldText, hq]]
    rw [csvGo_openQuote _ _ _ _ (Or.inr rfl),
      csvGo_quoted v.data [] row '\r' ('\n' :: tail) (by decide), csvGo_postQ_crlf]
    simp
  · rw [show csvFieldText v = v.data from by
      simp [csvFieldText, Bool.not_eq_true _ ▸ hq]]
    rw [csvGo_plain_crlf v.data
      (csvFieldNeedsQuote_false (Bool.not_eq_true _ ▸ hq)) tail [] row CsvSt.fStart
      (Or.inl rfl)]
    simp

theorem csvGo_field_lf (v : String) (tail : List Char) (row : List String) :
    csvGo (csvFieldText v ++ '\n' :: tail) CsvSt.fStart [] row =
      (row ++ [v]) :: csvGo tail CsvSt.rStart [] [] := by
  by_cases hq : csvFieldNeedsQuote v.data = true
  · rw [show csvFieldText v ++ '\n' :: tail =
        '"' :: (csvQuoteChars v.data ++ '"' :: '\n' :: tail) from by
      simp [csvFieldText, hq]]
    rw [csvGo_openQuote _ _ _ _ (Or.inr rfl),
      csvGo_quoted v.data [] row '\n' tail (by decide), csvGo_postQ_lf]
    simp
  · rw [show csvFieldText v = v.data from by
      simp [csvFieldText, Bool.not_eq_true _ ▸ hq]]
    rw [csvGo_plain_lf v.data
      (csvFieldNeedsQuote_false (Bool.not_eq_true _ ▸ hq)) tail [] row CsvSt.fStart
      (Or.inl rfl)]
    simp

theorem csvGo_row_crlf (k v : String) (rest : List Char) :
    csvGo (csvRowText k v ++ rest) CsvSt.rStart [] [] =
      [k, v] :: csvGo rest CsvSt.rStart [] [] := by
  rw [show csvRowText k v ++ rest =
      csvFieldText k ++ ',' :: (csvFieldText v ++ '\r' :: '\n' :: rest) from by
    simp [csvRowText]]
  rw [csvGo_field_comma k _ [] CsvSt.rStart (Or.inl rfl), csvGo_field_crlf]
  simp

/-- `csv.reader ∘ csv.writer` is the identity on the row structure, for
arbitrary field strings, when the produced text is read back verbatim. -/
theorem csvGo_write (l : List (String × String)) :
    csvGo (csvWriteRows l) CsvSt.rStart [] [] = rowsOfPairs l := by
  induction l with
  | nil => rfl
  | cons p rest ih =>
    obtain ⟨k, v⟩ := p
    rw [show csvWriteRows ((k, v) :: rest) = csvRowText k v ++ csvWriteRows rest from rfl,
      csvGo_row_crlf, ih]
    rfl

theorem csvWrite_parse (l : List (String × String)) :
    csvParseRows (csvWriteRows l) = rowsOfPairs l := csvGo_write l

/-! ### Universal-newline translation vs the csv and json texts -/

theorem univNewline_cons (c : Char) (rest : List Char) :
    univNewline (c :: rest) =
      if c = '\r' then
        (match rest with
          | [] => ['\n']
          | c2 :: rest2 =>
            if c2 = '\n' then '\n' :: univNewline rest2 else '\n' :: univNewline (c2 :: rest2))
      else c :: univNewline rest := by
  conv_lhs => rw [univNewline.eq_def]

theorem univNewline_crlf (rest : List Char) :
    univNewline ('\r' :: '\n' :: rest) = '\n' :: univNewline rest := by
  rw [univNewline_cons, if_pos rfl]
  simp only []
  rw [if_pos trivial]

theorem univNewline_noCR_append {p : List Char} (h : ∀ c ∈ p, c ≠ '\r')
    (rest : List Char) : univNewline (p ++ rest) = p ++ univNewline rest := by
  induction p with
  | nil => rfl
  | cons c p ih =>
    rw [List.cons_append, univNewline_cons, if_neg (h c (by simp)),
      ih (fun x hx => h x (List.mem_cons_of_mem _ hx)), List.cons_append]

theorem univNewline_noCR {cs : List Char} (h : ∀ c ∈ cs, c ≠ '\r') :
    univNewline cs = cs := by
  induction cs with
  | nil => rfl
  | cons c p ih =>
    rw [univNewline_cons, if_neg (h c (by simp)),
      ih (fun x hx => h x (List.mem_cons_of_mem _ hx))]

theorem mem_csvQuoteChars {x : Char} :
    ∀ {s : List Char}, x ∈ csvQuoteChars s → x ∈ s ∨ x = '"' := by
  intro s
  induction s with
  | nil => simp [csvQuoteChars]
  | cons c s ih =>
    rw [csvQuoteChars_cons]
    by_cases hc : c = '"'
    · subst hc
      rw [if_pos rfl]
      intro hx
      rcases hx with _ | ⟨_, hx⟩
      · exact Or.inr rfl
      · rcases hx with _ | ⟨_, hx⟩
        · exact Or.inr rfl
        · rcases ih hx with h1 | h1
          · exact Or.inl (List.mem_cons_of_mem _ h1)
          · exact Or.inr h1
    · rw [if_neg hc]
      intro hx
      rcases hx with _ | ⟨_, hx⟩
      · exact Or.inl (by simp)
      · rcases ih hx with h1 | h1
        · exact Or.inl (List.mem_cons_of_mem _ h1)
        · exact Or.inr h1

theorem noCR_mem {s : String} (h : noCR s = true) : ∀ c ∈ s.data, c ≠ '\r' := by
  intro c hc he
  subst he
  simp only [noCR, Bool.not_eq_true'] at h
  have h2 : s.data.elem '\r' = true := List.elem_eq_true_of_mem hc
  rw [show s.data.contains '\r' = s.data.elem '\r' from rfl, h2] at h
  cases h

theorem csvFieldText_noCR {s : String} (h : noCR s = true) :
    ∀ c ∈ csvFieldText s, c ≠ '\r' := by
  intro c hc
  unfold csvFieldText at hc
  by_cases hq : csvFieldNeedsQuote s.data = true
  · rw [if_pos hq] at hc
    rcases hc with _ | ⟨_, hc⟩
    · decide
    · rcases List.mem_append.mp hc with h1 | h1
      · rcases mem_csvQuoteChars h1 with h2 | h2
        · exact noCR_mem h c h2
        · subst h2; decide
      · rcases h1 with _ | ⟨_, h1⟩
        · decide
        · cases h1
  · rw [if_neg hq] at hc
    exact noCR_mem h c hc

/-- Reading the csv writer's output back through a text-mode file (CRLF
terminators become LF) still recovers the rows, provided no field
contains a carriage return. -/
theorem csvParse_univ_write (l : List (String × String)) (h : pairsNoCR l = true) :
    csvParseRows (univNewline (csvWriteRows l)) = rowsOfPairs l := by
  show csvGo (univNewline (csvWriteRows l)) CsvSt.rStart [] [] = _
  induction l with
  | nil => rfl
  | cons p rest ih =>
    obtain ⟨k, v⟩ := p
    have hk : noCR k = true ∧ noCR v = true := by
      have := (List.all_eq_true.mp h) (k, v) (by simp)
      simpa [Bool.and_eq_true] using this
    have hrest : pairsNoCR rest = true := by
      apply List.all_eq_true.mpr
      intro p hp
      exact (List.all_eq_true.mp h) p (List.mem_cons_of_mem _ hp)
    rw [show csvWriteRows ((k, v) :: rest) = csvRowText k v ++ csvWriteRows rest from rfl]
    rw [show csvRowText k v ++ csvWriteRows rest =
        (csvFieldText k ++ ',' :: csvFieldText v) ++ '\r' :: '\n' :: csvWriteRows rest from by
      simp [csvRowText]]
    rw [univNewline_noCR_append (by
      intro c hc
      rcases List.mem_append.mp hc with h1 | h1
      · exact csvFieldText_noCR hk.1 c h1
      · rcases h1 with _ | ⟨_, h1⟩
        · decide
        · exact csvFieldText_noCR hk.2 c h1)]
    rw [univNewline_crlf]
    rw [show (csvFieldText k ++ ',' :: csvFieldText v) ++ '\n' :: univNewline (csvWriteRows rest) =
        csvFieldText k ++ ',' :: (csvFieldText v ++ '\n' :: univNewline (csvWriteRows rest))
      from by simp]
    rw [csvGo_field_comma k _ [] CsvSt.rStart (Or.inl rfl), csvGo_field_lf, ih hrest]
    rfl

/-! ### The json encoder emits no carriage return (its escaping replaces
control characters), so text-mode reads return its output verbatim -/

theorem hexDigitChar_ne_cr {d : Nat} (h : d < 16) : hexDigitChar d ≠ '\r' := by
  apply char_ne_of_toNat_ne
  unfold hexDigitChar
  have hcr : ('\r').toNat = 13 := rfl
  by_cases h10 : d < 10
  · rw [if_pos h10, digitChar_toNat h10, hcr]
    omega
  · rw [if_neg h10, charToNat_ofNat (Or.inl (by omega)), hcr]
    omega

theorem mem_hex4_ne_cr {n : Nat} {x : Char} (hx : x ∈ hex4 n) : x ≠ '\r' := by
  unfold hex4 at hx
  rcases hx with _ | ⟨_, hx⟩
  · exact hexDigitChar_ne_cr (by omega)
  · rcases hx with _ | ⟨_, hx⟩
    · exact hexDigitChar_ne_cr (by omega)
    · rcases hx with _ | ⟨_, hx⟩
      · exact hexDigitChar_ne_cr (by omega)
      · rcases hx with _ | ⟨_, hx⟩
        · exact hexDigitChar_ne_cr (by omega)
        · cases hx

theorem mem_jsonEscChar_ne_cr {c x : Char} (hx : x ∈ jsonEscChar c) : x ≠ '\r' := by
  unfold jsonEscChar at hx
  by_cases h1 : c = '"'
  · rw [if_pos h1] at hx
    rcases hx with _ | ⟨_, hx⟩
    · decide
    · rcases hx with _ | ⟨_, hx⟩
      · decide
      · cases hx
  · rw [if_neg h1] at hx
    by_cases h2 : c = '\\'
    · rw [if_pos h2] at hx
      rcases hx with _ | ⟨_, hx⟩
      · decide
      · rcases hx with _ | ⟨_, hx⟩
        · decide
        · cases hx
    · rw [if_neg h2] at hx
      by_cases h3 : c = '\n'
      · rw [if_pos h3] at hx
        rcases hx with _ | ⟨_, hx⟩
        · decide
        · rcases hx with _ | ⟨_, hx⟩
          · decide
          · cases hx
      · rw [if_neg h3] at hx
        by_cases h4 : c = '\r'
        · rw [if_pos h4] at hx
          rcases hx with _ | ⟨_, hx⟩
          · decide
          · rcases hx with _ | ⟨_, hx⟩
            · decide
            · cases hx
        · rw [if_neg h4] at hx
          by_cases h5 : c = '\t'
          · rw [if_pos h5] at hx
            rcases hx with _ | ⟨_, hx⟩
            · decide
            · rcases hx with _ | ⟨_, hx⟩
              · decide
              · cases hx
          · rw [if_neg h5] at hx
            by_cases h6 : c = '\x08'
            · rw [if_pos h6] at hx
              rcases hx with _ | ⟨_, hx⟩
              · decide
              · rcases hx with _ | ⟨_, hx⟩
                · decide
                · cases hx
            · rw [if_neg h6] at hx
              by_cases h7 : c = '\x0c'
              · rw [if_pos h7] at hx
                rcases hx with _ | ⟨_, hx⟩
                · decide
                · rcases hx with _ | ⟨_, hx⟩
                  · decide
                  · cases hx
              · rw [if_neg h7] at hx
                by_cases h8 : (c.toNat < 0x20 || 0x7e < c.toNat) = true
                · rw [if_pos h8] at hx
                  by_cases h9 : c.toNat < 0x10000
                  · rw [if_pos h9] at hx
                    rcases hx with _ | ⟨_, hx⟩
                    · decide
                    · rcases hx with _ | ⟨_, hx⟩
                      · decide
                      · exact mem_hex4_ne_cr hx
                  · rw [if_neg h9] at hx
                    rcases List.mem_append.mp hx with h10 | h10
                    · rcases h10 with _ | ⟨_, h10⟩
                      · decide
                      · rcases h10 with _ | ⟨_, h10⟩
                        · decide
                        · exact mem_hex4_ne_cr h10
                    · rcases h10 with _ | ⟨_, h10⟩
                      · decide
                      · rcases h10 with _ | ⟨_, h10⟩
                        · decide
                        · exact mem_hex4_ne_cr h10
                · rw [if_neg h8] at hx
                  rcases hx with _ | ⟨_, hx⟩
                  · intro he
                    subst he
                    simp only [Bool.or_eq_true, decide_eq_true_eq, not_or, not_lt] at h8
                    have : ('\r').toNat = 13 := rfl
                    omega
                  · cases hx

theorem mem_jsonEscList_ne_cr {s : List Char} {x : Char} (hx : x ∈ jsonEscList s) :
    x ≠ '\r' := by
  induction s with
  | nil => cases hx
  | cons c s ih =>
    rw [show jsonEscList (c :: s) = jsonEscChar c ++ jsonEscList s from rfl] at hx
    rcases List.mem_append.mp hx with h1 | h1
    · exact mem_jsonEscChar_ne_cr h1
    · exact ih h1

theorem mem_intRepr_ne_cr {i : Int} {x : Char} (hx : x ∈ intRepr i) : x ≠ '\r' := by
  have hdig : ∀ n : Nat, ∀ y ∈ natRepr n, y ≠ '\r' := by
    intro n y hy he
    subst he
    have := natRepr_all_digits n _ hy
    have h2 := (isDigitC_not_special this).1
    simp [isJsonWs] at h2
  unfold intRepr at hx
  by_cases hneg : i < 0
  · rw [if_pos hneg] at hx
    rcases hx with _ | ⟨_, hx⟩
    · decide
    · exact hdig _ _ hx
  · rw [if_neg hneg] at hx
    exact hdig _ _ hx

theorem mem_jsonKeyText_ne_cr {k : PyVal} {x : Char} (hx : x ∈ jsonKeyText k) :
    x ≠ '\r' := by
  cases k with
  | vstr s => exact mem_jsonEscList_ne_cr hx
  | vint i => exact mem_intRepr_ne_cr hx
  | vbool b =>
    cases b <;>
      (intro he
       subst he
       simp [jsonKeyText] at hx)
  | vnone =>
    intro he
    subst he
    simp [jsonKeyText] at hx
  | vlist xs => cases hx
  | vdict kvs => cases hx

theorem jsonEnc_noCR : ∀ N : Nat,
    (∀ v : PyVal, sizeOf v ≤ N → ∀ x ∈ jsonEncVal v, x ≠ '\r') ∧
    (∀ xs : List PyVal, sizeOf xs ≤ N → ∀ x ∈ jsonEncItems xs, x ≠ '\r') ∧
    (∀ kvs : List (PyVal × PyVal), sizeOf kvs ≤ N → ∀ x ∈ jsonEncMembers kvs, x ≠ '\r') := by
  intro N
  induction N using Nat.strong_induction_on with
  | _ N ih =>
    refine ⟨?_, ?_, ?_⟩
    · intro v hsz x hx
      cases v with
      | vstr s =>
        rw [show jsonEncVal (.vstr s) = '"' :: (jsonEscList s.data ++ ['"']) from by
          simp [jsonEncVal]] at hx
        rcases hx with _ | ⟨_, hx⟩
        · decide
        · rcases List.mem_append.mp hx with h1 | h1
          · exact mem_jsonEscList_ne_cr h1
          · rcases h1 with _ | ⟨_, h1⟩
            · decide
            · cases h1
      | vint i => exact mem_intRepr_ne_cr hx
      | vbool b =>
        cases b <;>
          (intro he
           subst he
           simp [jsonEncVal] at hx)
      | vnone =>
        intro he
        subst he
        simp [jsonEncVal] at hx
      | vlist xs =>
        rw [show jsonEncVal (.vlist xs) = '[' :: jsonEncItems xs from rfl] at hx
        rcases hx with _ | ⟨_, hx⟩
        · decide
        · have hlt : sizeOf xs < N := by
            have h1 : sizeOf (PyVal.vlist xs) ≤ N := hsz
            simp only [PyVal.vlist.sizeOf_spec] at h1
            omega
          exact (ih (sizeOf xs) hlt).2.1 xs (le_refl _) x hx
      | vdict kvs =>
        rw [show jsonEncVal (.vdict kvs) = '\x7b' :: jsonEncMembers kvs from rfl] at hx
        rcases hx with _ | ⟨_, hx⟩
        · decide
        · have hlt : sizeOf kvs < N := by
            have h1 : sizeOf (PyVal.vdict kvs) ≤ N := hsz
            simp only [PyVal.vdict.sizeOf_spec] at h1
            omega
          exact (ih (sizeOf kvs) hlt).2.2 kvs (le_refl _) x hx
    · intro xs hsz x hx
      cases xs with
      | nil =>
        rcases hx with _ | ⟨_, hx⟩
        · decide
        · cases hx
      | cons a tail =>
        have ha : sizeOf a < N := by
          have h1 : sizeOf (a :: tail) ≤ N := hsz
          simp only [List.cons.sizeOf_spec] at h1
          omega
        have ht : sizeOf tail < N := by
          have h1 : sizeOf (a :: tail) ≤ N := hsz
          simp only [List.cons.sizeOf_spec] at h1
          omega
        cases tail with
        | nil =>
          rw [show jsonEncItems [a] = jsonEncVal a ++ [']'] from rfl] at hx
          rcases List.mem_append.mp hx with h1 | h1
          · exact (ih (sizeOf a) ha).1 a (le_refl _) x h1
          · rcases h1 with _ | ⟨_, h1⟩
            · decide
            · cases h1
        | cons b tail2 =>
          rw [show jsonEncItems (a :: b :: tail2) =
              jsonEncVal a ++ ',' :: jsonEncItems (b :: tail2) from rfl] at hx
          rcases List.mem_append.mp hx with h1 | h1
          · exact (ih (sizeOf a) ha).1 a (le_refl _) x h1
          · rcases h1 with _ | ⟨_, h1⟩
            · decide
            · exact (ih (sizeOf (b :: tail2)) ht).2.1 (b :: tail2) (le_refl _) x h1
    · intro kvs hsz x hx
      cases kvs with
      | nil =>
        rcases hx with _ | ⟨_, hx⟩
        · decide
        · cases hx
      | cons p tail =>
        obtain ⟨k, v⟩ := p
        have hv : sizeOf v < N := by
          have h1 : sizeOf ((k, v) :: tail) ≤ N := hsz
          simp only [List.cons.sizeOf_spec, Prod.mk.sizeOf_spec] at h1
          omega
        have ht : sizeOf tail < N := by
          have h1 : sizeOf ((k, v) :: tail) ≤ N := hsz
          simp only [List.cons.sizeOf_spec] at h1
          omega
        cases tail with
        | nil =>
          rw [show jsonEncMembers [(k, v)] =
              '"' :: jsonKeyText k ++ '"' :: ':' :: jsonEncVal v ++ ['\x7d'] from rfl] at hx
          simp only [List.mem_cons, List.mem_append, List.not_mem_nil, or_false] at hx
          rcases hx with ((rfl | hx) | rfl | rfl | hx) | rfl
          · decide
          · exact mem_jsonKeyText_ne_cr hx
          · decide
          · decide
          · exact (ih (sizeOf v) hv).1 v (le_refl _) x hx
          · decide
        | cons q tail2 =>
          rw [show jsonEncMembers ((k, v) :: q :: tail2) =
              '"' :: jsonKeyText k ++ '"' :: ':' :: jsonEncVal v ++
                ',' :: jsonEncMembers (q :: tail2) from rfl] at hx
          simp only [List.mem_cons, List.mem_append, List.not_mem_nil, or_false] at hx
          rcases hx with ((rfl | hx) | rfl | rfl | hx) | rfl | hx
          · decide
          · exact mem_jsonKeyText_ne_cr hx
          · decide
          · decide
          · exact (ih (sizeOf v) hv).1 v (le_refl _) x hx
          · decide
          · exact (ih (sizeOf (q :: tail2)) ht).2.2 (q :: tail2) (le_refl _) x hx

theorem jsonEncVal_noCR (v : PyVal) : ∀ x ∈ jsonEncVal v, x ≠ '\r' :=
  (jsonEnc_noCR (sizeOf v)).1 v (le_refl _)

/-! ### The json parser cannot accept the csv text: a primitive parse
consumes no comma, and the first row's delimiter is left over -/

theorem expectChars_cons (e c : Char) (es cs : List Char) :
    expectChars (e :: es) (c :: cs) = if c = e then expectChars es cs else none := rfl

theorem expectChars_eq : ∀ (es xs rest : List Char), expectChars es xs = some rest →
    xs = es ++ rest := by
  intro es
  induction es with
  | nil =>
    intro xs rest h
    rw [List.nil_append]
    exact Option.some.inj h
  | cons e es ih =>
    intro xs rest h
    cases xs with
    | nil => simp [expectChars] at h
    | cons c cs =>
      rw [expectChars_cons] at h
      by_cases hc : c = e
      · rw [if_pos hc] at h
        subst hc
        rw [List.cons_append, ih cs rest h]
      · rw [if_neg hc] at h
        cases h

theorem takeDigits_eq : ∀ (cs ds r : List Char), takeDigits cs = (ds, r) →
    cs = ds ++ r ∧ ∀ c ∈ ds, isDigitC c = true := by
  intro cs
  induction cs with
  | nil =>
    intro ds r h
    simp only [takeDigits, Prod.mk.injEq] at h
    obtain ⟨h1, h2⟩ := h
    subst h1
    subst h2
    exact ⟨rfl, by intro c hc; cases hc⟩
  | cons c cs ih =>
    intro ds r h
    by_cases hd : isDigitC c = true
    · rw [takeDigits, if_pos hd] at h
      rcases htd : takeDigits cs with ⟨ds2, r2⟩
      rw [htd] at h
      simp only [Prod.mk.injEq] at h
      obtain ⟨h1, h2⟩ := h
      subst h1
      subst h2
      obtain ⟨hsp, hdig⟩ := ih ds2 r2 htd
      refine ⟨by rw [List.cons_append, hsp], ?_⟩
      intro y hy
      rcases List.mem_cons.mp hy with rfl | hy2
      · exact hd
      · exact hdig y hy2
    · rw [takeDigits, if_neg hd] at h
      simp only [Prod.mk.injEq] at h
      obtain ⟨h1, h2⟩ := h
      subst h1
      subst h2
      exact ⟨rfl, by intro y hy; cases hy⟩

theorem jsonPrim_consume : ∀ (n : Nat) (c : Char) (cs : List Char) (v : PyVal)
    (rest : List Char), isJsonWs c = false → c ≠ '"' → c ≠ '[' → c ≠ '\x7b' →
    jsonParseVal n (c :: cs) = some (v, rest) →
    ∃ pre, c :: cs = pre ++ rest ∧ ',' ∉ pre := by
  intro n
  cases n with
  | zero =>
    intro c cs v rest _ _ _ _ h
    simp [jsonParseVal] at h
  | succ n =>
    intro c cs v rest hws hq hbr hbrace h
    rw [jsonParseVal_succ, skipWsC_noop hws] at h
    simp only [] at h
    rw [if_neg hbrace, if_neg hbr, if_neg hq] at h
    by_cases ht : c = 't'
    · subst ht
      rw [if_pos rfl] at h
      rcases he : expectChars ['r', 'u', 'e'] cs with _ | r2
      · rw [he] at h; cases h
      · rw [he] at h
        simp only [Option.map_some', Option.some.injEq, Prod.mk.injEq] at h
        obtain ⟨_, h2⟩ := h
        subst h2
        refine ⟨'t' :: ['r', 'u', 'e'], ?_, by decide⟩
        rw [expectChars_eq _ _ _ he]
        rfl
    · rw [if_neg ht] at h
      by_cases hf : c = 'f'
      · subst hf
        rw [if_pos rfl] at h
        rcases he : expectChars ['a', 'l', 's', 'e'] cs with _ | r2
        · rw [he] at h; cases h
        · rw [he] at h
          simp only [Option.map_some', Option.some.injEq, Prod.mk.injEq] at h
          obtain ⟨_, h2⟩ := h
          subst h2
          refine ⟨'f' :: ['a', 'l', 's', 'e'], ?_, by decide⟩
          rw [expectChars_eq _ _ _ he]
          rfl
      · rw [if_neg hf] at h
        by_cases hn : c = 'n'
        · subst hn
          rw [if_pos rfl] at h
          rcases he : expectChars ['u', 'l', 'l'] cs with _ | r2
          · rw [he] at h; cases h
          · rw [he] at h
            simp only [Option.map_some', Option.some.injEq, Prod.mk.injEq] at h
            obtain ⟨_, h2⟩ := h
            subst h2
            refine ⟨'n' :: ['u', 'l', 'l'], ?_, by decide⟩
            rw [expectChars_eq _ _ _ he]
            rfl
        · rw [if_neg hn] at h
          by_cases hm : c = '-'
          · subst hm
            rw [if_pos rfl] at h
            rcases htd : takeDigits cs with ⟨ds, r2⟩
            rw [htd] at h
            cases ds with
            | nil => simp at h
            | cons d ds2 =>
              simp only [Option.some.injEq, Prod.mk.injEq] at h
              obtain ⟨_, h2⟩ := h
              subst h2
              obtain ⟨hsp, hdig⟩ := takeDigits_eq cs (d :: ds2) r2 htd
              refine ⟨'-' :: d :: ds2, ?_, ?_⟩
              · rw [hsp]
                rfl
              · intro hmem
                rcases List.mem_cons.mp hmem with h1 | h1
                · simp at h1
                · exact ((isDigitC_not_special
                    (hdig _ h1)).2.2.2.2.2.2.2.2.1) rfl
          · rw [if_neg hm] at h
            rcases htd : takeDigits (c :: cs) with ⟨ds, r2⟩
            rw [htd] at h
            cases ds with
            | nil => simp at h
            | cons d ds2 =>
              simp only [Option.some.injEq, Prod.mk.injEq] at h
              obtain ⟨_, h2⟩ := h
              subst h2
              obtain ⟨hsp, hdig⟩ := takeDigits_eq (c :: cs) (d :: ds2) r2 htd
              refine ⟨d :: ds2, hsp, ?_⟩
              intro hmem
              exact ((isDigitC_not_special (hdig _ hmem)).2.2.2.2.2.2.2.2.1) rfl

theorem jsonOnlyWs_of_mem_comma : ∀ (rest : List Char), ',' ∈ rest →
    jsonOnlyWs rest = false := by
  intro rest h
  induction rest with
  | nil => cases h
  | cons c r ih =>
    unfold jsonOnlyWs
    rw [skipWsC]
    by_cases hw : isJsonWs c = true
    · rw [if_pos hw]
      have hc : ',' ∈ r := by
        rcases List.mem_cons.mp h with h1 | h1
        · exact absurd hw (by rw [← h1]; decide)
        · exact h1
      exact ih hc
    · rw [if_neg hw]

theorem univNewline_csvWrite_cons (k v : String) (rest : List (String × String))
    (hk : noCR k = true) (hv : noCR v = true) :
    univNewline (csvWriteRows ((k, v) :: rest)) =
      csvFieldText k ++ ',' :: (csvFieldText v ++ '\n' :: univNewline (csvWriteRows rest)) := by
  rw [show csvWriteRows ((k, v) :: rest) = csvRowText k v ++ csvWriteRows rest from rfl]
  rw [show csvRowText k v ++ csvWriteRows rest =
      (csvFieldText k ++ ',' :: csvFieldText v) ++ '\r' :: '\n' :: csvWriteRows rest from by
    simp [csvRowText]]
  rw [univNewline_noCR_append (by
    intro c hc
    rcases List.mem_append.mp hc with h1 | h1
    · exact csvFieldText_noCR hk c h1
    · rcases List.mem_cons.mp h1 with rfl | h2
      · decide
      · exact csvFieldText_noCR hv c h2)]
  rw [univNewline_crlf]
  simp

/-- The json driver's attempt on a text file holding the csv writer's
output fails: the comma of the first row survives any primitive parse. -/
theorem jsonLoads_csv_fails (k v : String) (rest : List (String × String))
    (hsafe : csvJsonSafeStart ((k, v) :: rest) = true)
    (hk : noCR k = true) (hv : noCR v = true) :
    jsonLoads (univNewline (csvWriteRows ((k, v) :: rest))) = .error .jsonDecodeError := by
  obtain ⟨c, fk, hfk⟩ : ∃ c fk, csvFieldText k = c :: fk := by
    rcases hck : csvFieldText k with _ | ⟨c, fk⟩
    · exfalso
      unfold csvJsonSafeStart at hsafe
      simp only [] at hsafe
      rw [hck] at hsafe
      cases hsafe
    · exact ⟨c, fk, rfl⟩
  have hcond : ¬(c = '"' ∨ c = '[' ∨ c = '\x7b' ∨ isJsonWs c = true) := by
    unfold csvJsonSafeStart at hsafe
    simp only [] at hsafe
    rw [hfk] at hsafe
    simp only [Bool.not_eq_true', Bool.or_eq_false_iff, decide_eq_false_iff_not] at hsafe
    rintro (h1 | h1 | h1 | h1)
    · exact hsafe.1.1.1 h1
    · exact hsafe.1.1.2 h1
    · exact hsafe.1.2 h1
    · rw [hsafe.2] at h1; cases h1
  have hws : isJsonWs c = false := by
    cases hb : isJsonWs c
    · rfl
    · exact absurd (Or.inr (Or.inr (Or.inr hb))) hcond
  have hq : c ≠ '"' := fun he => hcond (Or.inl he)
  have hbrk : c ≠ '[' := fun he => hcond (Or.inr (Or.inl he))
  have hbrc : c ≠ '\x7b' := fun he => hcond (Or.inr (Or.inr (Or.inl he)))
  rw [univNewline_csvWrite_cons k v rest hk hv, hfk]
  rw [show (c :: fk) ++ ',' :: (csvFieldText v ++ '\n' :: univNewline (csvWriteRows rest)) =
      c :: (fk ++ ',' :: (csvFieldText v ++ '\n' :: univNewline (csvWriteRows rest)))
    from rfl]
  set cs := fk ++ ',' :: (csvFieldText v ++ '\n' :: univNewline (csvWriteRows rest)) with hcs
  unfold jsonLoads
  rcases hp : jsonParseVal ((c :: cs).length + 1) (c :: cs) with _ | p
  · rfl
  · obtain ⟨v2, rest2⟩ := p
    simp only []
    obtain ⟨pre, hsplit, hpre⟩ :=
      jsonPrim_consume ((c :: cs).length + 1) c cs v2 rest2 hws hq hbrk hbrc hp
    have hmem : ',' ∈ c :: cs := by
      apply List.mem_cons_of_mem
      rw [hcs]
      exact List.mem_append.mpr (Or.inr (by simp))
    have hrest2 : ',' ∈ rest2 := by
      rw [hsplit] at hmem
      rcases List.mem_append.mp hmem with h1 | h1
      · exact absurd h1 hpre
      · exact h1
    rw [jsonOnlyWs_of_mem_comma rest2 hrest2]
    rfl

/-! ### dict.update over parsed rows, and small driver-level facts -/

theorem updateFromRows_pairs : ∀ (l : List (String × String)) (m : PyMap) (i : Nat),
    (∀ p ∈ l, mapLookup m (.vstr p.1) = none) → strNodupKeys l = true →
    updateFromRows m i (rowsOfPairs l) = (m ++ strPairsMap l, none) := by
  intro l
  induction l with
  | nil =>
    intro m i _ _
    simp [rowsOfPairs, updateFromRows, strPairsMap]
  | cons p rest ih =>
    obtain ⟨k, v⟩ := p
    intro m i hfresh hnd
    simp only [strNodupKeys, Bool.and_eq_true, Bool.not_eq_true'] at hnd
    obtain ⟨hk, hnd2⟩ := hnd
    rw [show rowsOfPairs ((k, v) :: rest) = [k, v] :: rowsOfPairs rest from rfl]
    rw [show updateFromRows m i ([k, v] :: rowsOfPairs rest) =
        updateFromRows (mapInsert m (.vstr k) (.vstr v)) (i + 1) (rowsOfPairs rest) from rfl]
    rw [mapInsert_fresh m _ _ (hfresh (k, v) (by simp))]
    simp only []
    have hfr : ∀ p ∈ rest, mapLookup (m ++ [(PyVal.vstr k, PyVal.vstr v)])
        (PyVal.vstr p.1) = none := by
      intro q hq
      rw [mapLookup_append]
      rw [hfresh q (List.mem_cons_of_mem _ hq)]
      have hqk : (q.1 == k) = false :=
        Bool.not_eq_true _ ▸ (List.any_eq_false.mp hk q hq)
      have hne : pyBeq (PyVal.vstr k) (PyVal.vstr q.1) = false := by
        rw [pyBeq_false_iff]
        intro he
        have h3 : k = q.1 := PyVal.vstr.inj he
        rw [← h3] at hqk
        simp at hqk
      simp [mapLookup, hne]
    rw [ih (m ++ [(PyVal.vstr k, PyVal.vstr v)]) (i + 1) hfr hnd2]
    simp [strPairsMap]

/-- `jsonRoundB` values are accepted by `json.dump` (their keys are
strings). -/
theorem jsonRound_dumpable : ∀ N : Nat,
    (∀ v : PyVal, sizeOf v ≤ N → jsonRoundB v = true → jsonDumpableB v = true) ∧
    (∀ xs : List PyVal, sizeOf xs ≤ N → jsonRoundListB xs = true →
      jsonDumpableListB xs = true) ∧
    (∀ kvs : List (PyVal × PyVal), sizeOf kvs ≤ N → jsonRoundPairsB kvs = true →
      jsonDumpablePairsB kvs = true) := by
  intro N
  induction N using Nat.strong_induction_on with
  | _ N ih =>
    refine ⟨?_, ?_, ?_⟩
    · intro v hsz hr
      cases v with
      | vstr s => rfl
      | vint i => rfl
      | vbool b => rfl
      | vnone => rfl
      | vlist xs =>
        have hlt : sizeOf xs < N := by
          have h1 : sizeOf (PyVal.vlist xs) ≤ N := hsz
          simp only [PyVal.vlist.sizeOf_spec] at h1
          omega
        exact (ih (sizeOf xs) hlt).2.1 xs (le_refl _) (by simpa [jsonRoundB] using hr)
      | vdict kvs =>
        have hlt : sizeOf kvs < N := by
          have h1 : sizeOf (PyVal.vdict kvs) ≤ N := hsz
          simp only [PyVal.vdict.sizeOf_spec] at h1
          omega
        have hr2 : jsonRoundPairsB kvs = true := by
          simp only [jsonRoundB, Bool.and_eq_true] at hr
          exact hr.2
        exact (ih (sizeOf kvs) hlt).2.2 kvs (le_refl _) hr2
    · intro xs hsz hr
      cases xs with
      | nil => rfl
      | cons x tail =>
        have hx : sizeOf x < N := by
          have h1 : sizeOf (x :: tail) ≤ N := hsz
          simp only [List.cons.sizeOf_spec] at h1
          omega
        have ht : sizeOf tail < N := by
          have h1 : sizeOf (x :: tail) ≤ N := hsz
          simp only [List.cons.sizeOf_spec] at h1
          omega
        simp only [jsonRoundListB, Bool.and_eq_true] at hr
        simp only [jsonDumpableListB, Bool.and_eq_true]
        exact ⟨(ih (sizeOf x) hx).1 x (le_refl _) hr.1,
          (ih (sizeOf tail) ht).2.1 tail (le_refl _) hr.2⟩
    · intro kvs hsz hr
      cases kvs with
      | nil => rfl
      | cons p tail =>
        obtain ⟨k, v⟩ := p
        have hv : sizeOf v < N := by
          have h1 : sizeOf ((k, v) :: tail) ≤ N := hsz
          simp only [List.cons.sizeOf_spec, Prod.mk.sizeOf_spec] at h1
          omega
        have ht : sizeOf tail < N := by
          have h1 : sizeOf ((k, v) :: tail) ≤ N := hsz
          simp only [List.cons.sizeOf_spec] at h1
          omega
        simp only [jsonRoundPairsB, Bool.and_eq_true] at hr
        obtain ⟨⟨hkm, hvr⟩, htr⟩ := hr
        cases k with
        | vstr s =>
          simp only [jsonDumpablePairsB, Bool.and_eq_true]
          exact ⟨⟨trivial, (ih (sizeOf v) hv).1 v (le_refl _) hvr⟩,
            (ih (sizeOf tail) ht).2.2 tail (le_refl _) htr⟩
        | vint i => cases hkm
        | vbool b => cases hkm
        | vnone => cases hkm
        | vlist xs => cases hkm
        | vdict kvs2 => cases hkm

theorem jsonRoundB_dumpable {v : PyVal} (h : jsonRoundB v = true) :
    jsonDumpableB v = true :=
  (jsonRound_dumpable (sizeOf v)).1 v (le_refl _) h

/-- The unpickler rejects a stream whose first opcode byte is `0x7b`
(the `'\x7b'` that begins the json text of a dict). -/
theorem pickleLoop_brace (n : Nat) (bs : List Nat) (stack : List PklStack)
    (memo : List (Nat × PyVal)) :
    pickleLoop (n + 1) (0x7b :: bs) stack memo =
      .error (.unpicklingError "invalid load key") := by
  rfl

theorem loadLoop_nil (m : PyMap) (h : ReadHandle) :
    loadLoop m [] h = (m, some (.valueError "File not in a supported format")) := rfl

theorem loadLoop_cons (m : PyMap) (nm : String) (d : Driver)
    (ds : List (String × Driver)) (h : ReadHandle) :
    loadLoop m ((nm, d) :: ds) h =
      (match tryLoad m d h with
        | (m2, none) => (m2, none)
        | (m2, some _) => loadLoop m2 ds h) := by
  rfl

theorem tryLoad_error (m : PyMap) (d : Driver) (h : ReadHandle) (e : PyErr)
    (hl : d.load h = .error e) : tryLoad m d h = (m, some e) := by
  unfold tryLoad
  rw [hl]

theorem tryLoad_ok (m : PyMap) (d : Driver) (h : ReadHandle) (lv : Loaded)
    (hl : d.load h = .ok lv) : tryLoad m d h = updateFrom m lv := by
  unfold tryLoad
  rw [hl]

theorem pickleDriver_load_text (bs : List Nat) (cs : List Char)
    (h : utf8Decode bs = some cs) :
    PickleDriver.load (.textH bs) =
      .error (.typeError "a bytes-like object is required, not str") := by
  unfold PickleDriver
  simp only []
  rw [h]

theorem jsonDriver_load_text (bs : List Nat) (cs : List Char)
    (h : utf8Decode bs = some cs) :
    JSONDriver.load (.textH bs) = (jsonLoads (univNewline cs)).map .val := by
  unfold JSONDriver textReadAll
  simp only []
  rw [h]
  rfl

theorem jsonDriver_load_bin (bs : List Nat) (cs : List Char)
    (h : utf8Decode bs = some cs) :
    JSONDriver.load (.binH bs) = (jsonLoads cs).map .val := by
  unfold JSONDriver
  simp only []
  rw [h]

theorem csvDriver_load_text (bs : List Nat) (cs : List Char)
    (h : utf8Decode bs = some cs) :
    CSVDriver.load (.textH bs) = .ok (.rows (csvParseRows (univNewline cs))) := by
  unfold CSVDriver textReadAll
  simp only []
  rw [h]
  rfl

theorem fsLookup_single (nm : String) (r : FileRec) : fsLookup [(nm, r)] nm = some r := by
  unfold fsLookup
  rw [if_pos rfl]

theorem osAccessR_single (nm : String) (r : FileRec) : osAccessR [(nm, r)] nm = true := by
  unfold osAccessR
  rw [fsLookup_single]
  rfl

theorem openRead_single_text (nm : String) (r : FileRec) :
    openRead [(nm, r)] nm FMode.text = .textH r.content := by
  unfold openRead
  rw [fsLookup_single]

theorem openRead_single_bin (nm : String) (r : FileRec) :
    openRead [(nm, r)] nm FMode.bin = .binH r.content := by
  unfold openRead
  rw [fsLookup_single]

/-! ### Scenario-level lemmas: what `sync` writes and what hydration
reads back, format by format -/

theorem strData_mk (l : List Char) : (String.mk l).data = l := rfl

theorem drvLookup_pickle : drvLookup DRIVERS "pickle" = some PickleDriver := rfl

theorem drvLookup_json : drvLookup DRIVERS "json" = some JSONDriver := rfl

theorem drvLookup_csv : drvLookup DRIVERS "csv" = some CSVDriver := rfl

theorem dump_json (flag : String) (mode : Option Nat) (fname : String) (m : PyMap)
    (h : jsonDumpableB (.vdict m) = true) :
    PersistentDict.dump ⟨flag, mode, "json", fname, m⟩ =
      .ok (.textS (String.mk (jsonEncVal (.vdict m)))) := by
  unfold PersistentDict.dump
  simp only []
  rw [drvLookup_json]
  simp only []
  unfold JSONDriver
  simp only []
  rw [if_pos h]

theorem dump_csv (flag : String) (mode : Option Nat) (fname : String) (m : PyMap) :
    PersistentDict.dump ⟨flag, mode, "csv", fname, m⟩ =
      .ok (.textS (String.mk (csvWriteRows (m.map (fun kv => (pyStr kv.1, pyStr kv.2)))))) := by
  unfold PersistentDict.dump
  simp only []
  rw [drvLookup_csv]
  rfl

theorem dump_pickle (flag : String) (mode : Option Nat) (fname : String) (m : PyMap) :
    PersistentDict.dump ⟨flag, mode, "pickle", fname, m⟩ = .ok (.binS (pickleDumps m)) := by
  unfold PersistentDict.dump
  simp only []
  rw [drvLookup_pickle]
  rfl

theorem sync_ok_empty (flag : String) (mode : Option Nat) (fmt fname : String) (m : PyMap)
    (sd : StreamData) (bytes : List Nat) (hflag : flag ≠ "r")
    (hd : PersistentDict.dump ⟨flag, mode, fmt, fname, m⟩ = .ok sd)
    (hw : writeStream (PersistentDict.writeMode ⟨flag, mode, fmt, fname, m⟩) sd = .ok bytes) :
    PersistentDict.sync ⟨flag, mode, fmt, fname, m⟩ [] = ([(fname, ⟨bytes, mode⟩)], none) := by
  unfold PersistentDict.sync
  rw [if_neg hflag, hd]
  rw [show writeStream (PersistentDict.writeMode ⟨flag, mode, fmt, fname, m⟩) <$>
      (Except.ok sd : Except PyErr StreamData) =
      Except.ok (writeStream (PersistentDict.writeMode ⟨flag, mode, fmt, fname, m⟩) sd)
    from rfl]
  rw [hw]
  rfl

theorem loadDict_jsonfile_text (m init : PyMap) (h : jsonRoundB (.vdict m) = true) :
    loadDict init (.textH (utf8Encode (String.mk (jsonEncVal (.vdict m))))) =
      (mapInsertPairs init m, none) := by
  have hbs : utf8Decode (utf8Encode (String.mk (jsonEncVal (.vdict m)))) =
      some (jsonEncVal (.vdict m)) := utf8Decode_encode _
  unfold loadDict DRIVERS
  rw [loadLoop_cons, tryLoad_error _ _ _ _ (pickleDriver_load_text _ _ hbs)]
  simp only []
  rw [loadLoop_cons, tryLoad_ok _ _ _ (.val (.vdict m)) (by
    rw [jsonDriver_load_text _ _ hbs, univNewline_noCR (jsonEncVal_noCR (.vdict m)),
      jsonLoads_enc h]
    rfl)]
  rfl

theorem loadDict_jsonfile_bin (m init : PyMap) (h : jsonRoundB (.vdict m) = true) :
    loadDict init (.binH (utf8Encode (String.mk (jsonEncVal (.vdict m))))) =
      (mapInsertPairs init m, none) := by
  have hbs : utf8Decode (utf8Encode (String.mk (jsonEncVal (.vdict m)))) =
      some (jsonEncVal (.vdict m)) := utf8Decode_encode _
  have hhead : utf8Encode (String.mk (jsonEncVal (.vdict m))) =
      0x7b :: utf8EncodeList (jsonEncMembers m) := rfl
  have hp : PickleDriver.load (.binH (utf8Encode (String.mk (jsonEncVal (.vdict m))))) =
      .error (.unpicklingError "invalid load key") := by
    unfold PickleDriver
    simp only []
    unfold pickleLoads
    rw [hhead, List.length_cons, pickleLoop_brace]
    rfl
  unfold loadDict DRIVERS
  rw [loadLoop_cons, tryLoad_error _ _ _ _ hp]
  simp only []
  rw [loadLoop_cons, tryLoad_ok _ _ _ (.val (.vdict m)) (by
    rw [jsonDriver_load_bin _ _ hbs, jsonLoads_enc h]
    rfl)]
  rfl

theorem loadDict_csvfile_text (k v : String) (rest : List (String × String))
    (hsafe : csvJsonSafeStart ((k, v) :: rest) = true)
    (hnoCR : pairsNoCR ((k, v) :: rest) = true)
    (hnodup : strNodupKeys ((k, v) :: rest) = true) :
    loadDict [] (.textH (utf8Encode (String.mk (csvWriteRows ((k, v) :: rest))))) =
      (strPairsMap ((k, v) :: rest), none) := by
  have hbs : utf8Decode (utf8Encode (String.mk (csvWriteRows ((k, v) :: rest)))) =
      some (csvWriteRows ((k, v) :: rest)) := utf8Decode_encode _
  have hkv : noCR k = true ∧ noCR v = true := by
    have := (List.all_eq_true.mp hnoCR) (k, v) (by simp)
    simpa [Bool.and_eq_true] using this
  unfold loadDict DRIVERS
  rw [loadLoop_cons, tryLoad_error _ _ _ _ (pickleDriver_load_text _ _ hbs)]
  simp only []
  rw [loadLoop_cons, tryLoad_error _ _ _ (.jsonDecodeError) (by
    rw [jsonDriver_load_text _ _ hbs,
      jsonLoads_csv_fails k v rest hsafe hkv.1 hkv.2]
    rfl)]
  simp only []
  rw [loadLoop_cons, tryLoad_ok _ _ _ (.rows (rowsOfPairs ((k, v) :: rest))) (by
    rw [csvDriver_load_text _ _ hbs, csvParse_univ_write _ hnoCR])]
  rw [show updateFrom [] (.rows (rowsOfPairs ((k, v) :: rest))) =
      updateFromRows [] 0 (rowsOfPairs ((k, v) :: rest)) from rfl]
  rw [updateFromRows_pairs _ [] 0 (fun p _ => rfl) hnodup]
  rfl

theorem construct_eq (fname flag : String) (mode : Option Nat) (fmt : String)
    (init : PyMap) (fs : FS) (m2 : PyMap) (e : Option PyErr)
    (hflag : flag ≠ "n") (hacc : osAccessR fs fname = true)
    (hld : loadDict init (openRead fs fname
        (if fmt = "pickle" then FMode.bin else FMode.text)) = (m2, e)) :
    PersistentDict.construct fname flag mode fmt init fs =
      ({ flag := flag, mode := mode, fmt := fmt, filename := fname, data := m2 }, e) := by
  unfold PersistentDict.construct
  rw [if_pos ⟨hflag, hacc⟩]
  unfold PersistentDict.readMode
  simp only []
  rw [hld]

/-! ### The filesystem after an erase -/

theorem fsLookup_erase_self (fs : FS) (nm : String) :
    fsLookup (fsErase fs nm) nm = none := by
  induction fs with
  | nil => rfl
  | cons p rest ih =>
    obtain ⟨n0, r0⟩ := p
    rw [show fsErase ((n0, r0) :: rest) nm =
        if !(n0 == nm) then (n0, r0) :: fsErase rest nm else fsErase rest nm from by
      simp [fsErase, List.filter_cons]]
    by_cases hn : n0 = nm
    · rw [if_neg (by simp [hn])]
      exact ih
    · rw [if_pos (by simp [hn])]
      unfold fsLookup
      rw [if_neg hn]
      exact ih

theorem fsLookup_erase_ne (fs : FS) (nm nm' : String) (h : nm' ≠ nm) :
    fsLookup (fsErase fs nm) nm' = fsLookup fs nm' := by
  induction fs with
  | nil => rfl
  | cons p rest ih =>
    obtain ⟨n0, r0⟩ := p
    rw [show fsErase ((n0, r0) :: rest) nm =
        if !(n0 == nm) then (n0, r0) :: fsErase rest nm else fsErase rest nm from by
      simp [fsErase, List.filter_cons]]
    by_cases hn : n0 = nm
    · rw [if_neg (by simp [hn])]
      rw [show fsLookup ((n0, r0) :: rest) nm' =
          if n0 = nm' then some r0 else fsLookup rest nm' from rfl]
      rw [if_neg (by rw [hn]; exact fun he => h he.symm)]
      exact ih
    · rw [if_pos (by simp [hn])]
      rw [show fsLookup ((n0, r0) :: fsErase rest nm) nm' =
          if n0 = nm' then some r0 else fsLookup (fsErase rest nm) nm' from rfl,
        show fsLookup ((n0, r0) :: rest) nm' =
          if n0 = nm' then some r0 else fsLookup rest nm' from rfl]
      by_cases hn2 : n0 = nm'
      · rw [if_pos hn2, if_pos hn2]
      · rw [if_neg hn2, if_neg hn2, ih]

theorem filename_ne_tmp (s : String) : s ≠ s ++ ".tmp" := by
  intro he
  have hlen := congrArg String.length he
  rw [String.length_append] at hlen
  have h4 : ".tmp".length = 4 := rfl
  omega

theorem strPairsMap_pyStr (l : List (String × String)) :
    (strPairsMap l).map (fun kv => (pyStr kv.1, pyStr kv.2)) = l := by
  unfold strPairsMap
  rw [List.map_map]
  rw [show ((fun kv : PyVal × PyVal => (pyStr kv.1, pyStr kv.2)) ∘
      (fun p : String × String => (PyVal.vstr p.1, PyVal.vstr p.2))) =
      (fun p : String × String => (p.1, p.2)) from rfl]
  simp

/-! ## The claims -/

/-- C1: hydration tries the registered drivers in registration order —
pickle, then json, then csv — merges the first successful decode into the
mapping via update and stops, swallows the exception of every failing
attempt, and raises `ValueError('File not in a supported format')` exactly
when all three attempts fail.  The loop over the registry equals the
spec-worded cascade `loadSpecOrder`. -/
theorem c1_load_cascade (m : PyMap) (h : ReadHandle) :
    loadDict m h = loadSpecOrder m h ∧
    ((loadDict m h).2 = some (.valueError "File not in a supported format") ↔
      (tryLoad m PickleDriver h).2.isSome = true ∧
      (tryLoad (tryLoad m PickleDriver h).1 JSONDriver h).2.isSome = true ∧
      (tryLoad (tryLoad (tryLoad m PickleDriver h).1 JSONDriver h).1
          CSVDriver h).2.isSome = true) := by
  have hld : loadDict m h =
      (match tryLoad m PickleDriver h with
        | (m1, none) => (m1, none)
        | (m1, some _) =>
          match tryLoad m1 JSONDriver h with
          | (m2, none) => (m2, none)
          | (m2, some _) =>
            match tryLoad m2 CSVDriver h with
            | (m3, none) => (m3, none)
            | (m3, some _) =>
              (m3, some (.valueError "File not in a supported format"))) := by
    unfold loadDict DRIVERS
    rw [loadLoop_cons]
    rcases h1 : tryLoad m PickleDriver h with ⟨m1, e1⟩
    cases e1 with
    | none => rfl
    | some e1 =>
      simp only []
      rw [loadLoop_cons]
      rcases h2 : tryLoad m1 JSONDriver h with ⟨m2, e2⟩
      cases e2 with
      | none => rfl
      | some e2 =>
        simp only []
        rw [loadLoop_cons]
        rcases h3 : tryLoad m2 CSVDriver h with ⟨m3, e3⟩
        cases e3 with
        | none => rfl
        | some e3 => rfl
  constructor
  · rw [hld]
    unfold loadSpecOrder
    rfl
  · rw [hld]
    rcases h1 : tryLoad m PickleDriver h with ⟨m1, e1⟩
    cases e1 with
    | none => simp
    | some e1 =>
      simp only []
      rcases h2 : tryLoad m1 JSONDriver h with ⟨m2, e2⟩
      cases e2 with
      | none => simp
      | some e2 =>
        simp only []
        rcases h3 : tryLoad m2 CSVDriver h with ⟨m3, e3⟩
        cases e3 with
        | none => simp
        | some e3 => simp

/-- C2 (counterexample): with an existing readable file holding the json
text of `{"a": "file"}` and the explicit initial entry `("a", "init")`,
the constructed mapping holds the file's value: construction seeds the
mapping with the initial entries first and hydration then overrides them —
the opposite order of application from the one the specification states. -/
theorem c2_counterexample :
    (PersistentDict.construct "f" "c" none "json"
        [(.vstr "a", .vstr "init")]
        [("f", ⟨utf8Encode "\x7b\"a\":\"file\"\x7d", none⟩)]).1.data =
      [(.vstr "a", .vstr "file")] ∧
    [(PyVal.vstr "a", PyVal.vstr "file")] ≠ [(PyVal.vstr "a", PyVal.vstr "init")] := by
  exact ⟨rfl, by decide⟩

/-- C2 (amended): for a store constructed over an existing readable file
(json text of `{k: va}`) with explicit initial entry `(k, vb)`, the order
of application is: seed with the initial entries, then hydrate from the
file, so the loaded value overrides the explicitly supplied one at a
shared key. -/
theorem c2_amended (k va vb fname : String) :
    PersistentDict.construct fname "c" none "json" [(.vstr k, .vstr vb)]
        [(fname,
          ⟨utf8Encode (String.mk (jsonEncVal (.vdict [(.vstr k, .vstr va)]))), none⟩)] =
      ({ flag := "c", mode := none, fmt := "json", filename := fname,
         data := [(.vstr k, .vstr va)] }, none) := by
  apply construct_eq fname "c" none "json" _ _ _ _ (by decide) (osAccessR_single _ _)
  rw [if_neg (by decide : ¬("json" : String) = "pickle"), openRead_single_text]
  show loadDict [(.vstr k, .vstr vb)]
      (.textH (utf8Encode (String.mk (jsonEncVal (.vdict [(.vstr k, .vstr va)]))))) =
    ([(.vstr k, .vstr va)], none)
  rw [loadDict_jsonfile_text [(.vstr k, .vstr va)] [(.vstr k, .vstr vb)] rfl]
  have hins : mapInsertPairs [(PyVal.vstr k, PyVal.vstr vb)]
      [(PyVal.vstr k, PyVal.vstr va)] = [(PyVal.vstr k, PyVal.vstr va)] := by
    show mapInsert [(PyVal.vstr k, PyVal.vstr vb)] (PyVal.vstr k) (PyVal.vstr va) = _
    rw [show mapInsert [(PyVal.vstr k, PyVal.vstr vb)] (PyVal.vstr k) (PyVal.vstr va) =
        if pyBeq (PyVal.vstr k) (PyVal.vstr k) then [(PyVal.vstr k, PyVal.vstr va)]
        else (PyVal.vstr k, PyVal.vstr vb) :: mapInsert [] (PyVal.vstr k) (PyVal.vstr va)
      from rfl]
    rw [pyBeq_refl]
    simp
  rw [hins]

/-- C3 (counterexample): a file written by the pickle driver (binary
protocol-2 bytes, first byte `0x80`) cannot be hydrated by a store whose
configured write format is json: the json format opens the file in text
mode, the UTF-8 decode of the pickle bytes fails, every driver's attempt
fails, and construction raises `ValueError('File not in a supported
format')` — auto-detection is not independent of the configured format. -/
theorem c3_counterexample :
    (PersistentDict.sync ⟨"c", none, "pickle", "f", [(.vstr "a", .vstr "b")]⟩ []).2 =
      none ∧
    (PersistentDict.construct "f" "c" none "json" []
        (PersistentDict.sync ⟨"c", none, "pickle", "f",
          [(.vstr "a", .vstr "b")]⟩ []).1).2 =
      some (.valueError "File not in a supported format") := by
  exact ⟨rfl, rfl⟩

/-- C3 (amended): auto-detection does succeed across the format pairs
whose read mode and first-driver behaviour allow it: a json-written file
hydrates under configured format pickle (binary read; the unpickler
rejects the `0x7b` head and the json driver decodes) and under csv (text
read; the json text contains no carriage return), and a csv-written file
of string pairs hydrates under configured format json provided the first
field does not open like a json document, no field contains a carriage
return, and the keys are distinct. -/
theorem c3_amended (m : PyMap) (k v : String) (rest : List (String × String))
    (fname : String) :
    (jsonRoundB (.vdict m) = true →
      PersistentDict.construct fname "c" none "pickle" []
          (PersistentDict.sync ⟨"c", none, "json", fname, m⟩ []).1 =
        ({ flag := "c", mode := none, fmt := "pickle", filename := fname, data := m },
          none)) ∧
    (jsonRoundB (.vdict m) = true →
      PersistentDict.construct fname "c" none "csv" []
          (PersistentDict.sync ⟨"c", none, "json", fname, m⟩ []).1 =
        ({ flag := "c", mode := none, fmt := "csv", filename := fname, data := m },
          none)) ∧
    (csvJsonSafeStart ((k, v) :: rest) = true → pairsNoCR ((k, v) :: rest) = true →
      strNodupKeys ((k, v) :: rest) = true →
      PersistentDict.construct fname "c" none "json" []
          (PersistentDict.sync ⟨"c", none, "csv", fname,
            strPairsMap ((k, v) :: rest)⟩ []).1 =
        ({ flag := "c", mode := none, fmt := "json", filename := fname,
           data := strPairsMap ((k, v) :: rest) }, none)) := by
  have hsync_json : jsonRoundB (.vdict m) = true →
      PersistentDict.sync ⟨"c", none, "json", fname, m⟩ [] =
        ([(fname, ⟨utf8Encode (String.mk (jsonEncVal (.vdict m))), none⟩)], none) :=
    fun h => sync_ok_empty "c" none "json" fname m _ _ (by decide)
      (dump_json "c" none fname m (jsonRoundB_dumpable h)) rfl
  have hmip : jsonRoundB (.vdict m) = true → mapInsertPairs [] m = m := fun h => by
    have hnodup : nodupKeysB m = true := by
      simp only [jsonRoundB, Bool.and_eq_true] at h
      exact h.1
    rw [mapInsertPairs_fresh m [] (fun p _ => rfl) hnodup]
    exact List.nil_append m
  refine ⟨?_, ?_, ?_⟩
  · intro h
    rw [hsync_json h]
    simp only []
    apply construct_eq _ _ _ _ _ _ _ _ (by decide) (osAccessR_single _ _)
    rw [if_pos rfl, openRead_single_bin]
    show loadDict [] (.binH (utf8Encode (String.mk (jsonEncVal (.vdict m))))) = (m, none)
    rw [loadDict_jsonfile_bin m [] h, hmip h]
  · intro h
    rw [hsync_json h]
    simp only []
    apply construct_eq _ _ _ _ _ _ _ _ (by decide) (osAccessR_single _ _)
    rw [if_neg (by decide : ¬("csv" : String) = "pickle"), openRead_single_text]
    show loadDict [] (.textH (utf8Encode (String.mk (jsonEncVal (.vdict m))))) = (m, none)
    rw [loadDict_jsonfile_text m [] h, hmip h]
  · intro hsafe hnoCR hnd
    have hsync_csv : PersistentDict.sync ⟨"c", none, "csv", fname,
        strPairsMap ((k, v) :: rest)⟩ [] =
        ([(fname, ⟨utf8Encode (String.mk (csvWriteRows ((k, v) :: rest))), none⟩)],
          none) := by
      have hd := dump_csv "c" none fname (strPairsMap ((k, v) :: rest))
      rw [strPairsMap_pyStr] at hd
      exact sync_ok_empty "c" none "csv" fname _ _ _ (by decide) hd rfl
    rw [hsync_csv]
    simp only []
    apply construct_eq _ _ _ _ _ _ _ _ (by decide) (osAccessR_single _ _)
    rw [if_neg (by decide : ¬("json" : String) = "pickle"), openRead_single_text]
    show loadDict [] (.textH (utf8Encode (String.mk (csvWriteRows ((k, v) :: rest))))) =
      (strPairsMap ((k, v) :: rest), none)
    exact loadDict_csvfile_text k v rest hsafe hnoCR hnd

/-- C3 (amended, witness): the amended statement at the concrete mapping
`{"a": "b"}` and the concrete pair list `[("a", "b")]`. -/
theorem c3_amended_witness :
    PersistentDict.construct "f" "c" none "pickle" []
        (PersistentDict.sync ⟨"c", none, "json", "f",
          [(.vstr "a", .vstr "b")]⟩ []).1 =
      ({ flag := "c", mode := none, fmt := "pickle", filename := "f",
         data := [(.vstr "a", .vstr "b")] }, none) ∧
    PersistentDict.construct "f" "c" none "json" []
        (PersistentDict.sync ⟨"c", none, "csv", "f",
          strPairsMap [("a", "b")]⟩ []).1 =
      ({ flag := "c", mode := none, fmt := "json", filename := "f",
         data := strPairsMap [("a", "b")] }, none) :=
  ⟨(c3_amended [(.vstr "a", .vstr "b")] "a" "b" [] "f").1 (by decide),
    (c3_amended [(.vstr "a", .vstr "b")] "a" "b" [] "f").2.2 (by decide) (by decide)
      (by decide)⟩

/-- C4: for a writable store, if serialization (or the write of its
output) fails during `sync`, the temporary sibling `filename + ".tmp"` is
removed, the target file's content is unchanged, and the error propagates;
on success the temporary is moved over the target with the optional
permission bits applied. -/
theorem c4_sync_atomic (st : PersistentDict) (fs : FS) (hw : st.flag ≠ "r") :
    (∀ e : PyErr,
      (writeStream st.writeMode <$> st.dump = .error e ∨
        writeStream st.writeMode <$> st.dump = .ok (.error e)) →
      st.sync fs = (fsErase fs (st.filename ++ ".tmp"), some e) ∧
      fsLookup (st.sync fs).1 (st.filename ++ ".tmp") = none ∧
      fsLookup (st.sync fs).1 st.filename = fsLookup fs st.filename) ∧
    (∀ bytes : List Nat, writeStream st.writeMode <$> st.dump = .ok (.ok bytes) →
      st.sync fs = (fsInsert (fsErase fs (st.filename ++ ".tmp")) st.filename
        ⟨bytes, st.mode⟩, none)) := by
  constructor
  · intro e he
    have hsync : st.sync fs = (fsErase fs (st.filename ++ ".tmp"), some e) := by
      unfold PersistentDict.sync
      rw [if_neg hw]
      rcases he with he | he
      · rw [he]
      · rw [he]
    refine ⟨hsync, ?_, ?_⟩
    · rw [hsync]
      exact fsLookup_erase_self fs _
    · rw [hsync]
      exact fsLookup_erase_ne fs _ _ (filename_ne_tmp st.filename)
  · intro bytes hb
    unfold PersistentDict.sync
    rw [if_neg hw, hb]

/-- C4 (witness): a json-configured store holding a container key (whose
dump raises `TypeError`) over a filesystem with both the target and a
stale temp file: `sync` erases the temp, leaves the target alone, and
propagates the error. -/
theorem c4_sync_atomic_witness :
    PersistentDict.sync ⟨"c", none, "json", "f", [(.vlist [], .vnone)]⟩
        [("f", ⟨[0], none⟩), ("f" ++ ".tmp", ⟨[1], none⟩)] =
      (fsErase [("f", ⟨[0], none⟩), ("f" ++ ".tmp", ⟨[1], none⟩)] ("f" ++ ".tmp"),
        some (.typeError "keys must be str, int, float, bool or None")) ∧
    fsLookup (PersistentDict.sync ⟨"c", none, "json", "f", [(.vlist [], .vnone)]⟩
        [("f", ⟨[0], none⟩), ("f" ++ ".tmp", ⟨[1], none⟩)]).1 ("f" ++ ".tmp") = none ∧
    fsLookup (PersistentDict.sync ⟨"c", none, "json", "f", [(.vlist [], .vnone)]⟩
        [("f", ⟨[0], none⟩), ("f" ++ ".tmp", ⟨[1], none⟩)]).1 "f" =
      fsLookup [("f", ⟨[0], none⟩), ("f" ++ ".tmp", ⟨[1], none⟩)] "f" :=
  (c4_sync_atomic ⟨"c", none, "json", "f", [(.vlist [], .vnone)]⟩
      [("f", ⟨[0], none⟩), ("f" ++ ".tmp", ⟨[1], none⟩)] (by decide)).1
    (.typeError "keys must be str, int, float, bool or None") (Or.inl rfl)

/-- C5 (counterexample): the json driver coerces the int key `1` to the
string key `"1"`, so its `load ∘ dump` is not the identity on a mapping
with a numeric key — the round trip the specification asserts for
number-keyed Record Mappings fails. -/
theorem c5_counterexample :
    JSONDriver.dump [(.vint 1, .vstr "x")] = .ok (.textS "\x7b\"1\":\"x\"\x7d") ∧
    JSONDriver.load (.textH (utf8Encode "\x7b\"1\":\"x\"\x7d")) =
      .ok (.val (.vdict [(.vstr "1", .vstr "x")])) ∧
    updateFromVal [] (.vdict [(.vstr "1", .vstr "x")]) =
      ([(.vstr "1", .vstr "x")], none) ∧
    ([(PyVal.vstr "1", PyVal.vstr "x")] : PyMap) ≠ [(PyVal.vint 1, PyVal.vstr "x")] := by
  have hkey : jsonKeyText (.vint 1) = ['1'] := by
    show intRepr 1 = ['1']
    rw [show intRepr 1 = natRepr (1 : Int).toNat from by
      unfold intRepr
      rw [if_neg (by decide : ¬(1 : Int) < 0)]]
    rw [natRepr_small (by decide : (1 : Int).toNat < 10)]
    decide
  have hstr : String.mk (jsonEncVal (.vdict [(.vint 1, .vstr "x")])) =
      "\x7b\"1\":\"x\"\x7d" := by
    rw [show jsonEncVal (.vdict [(.vint 1, .vstr "x")]) =
        '\x7b' :: ('"' :: jsonKeyText (.vint 1) ++
          '"' :: ':' :: jsonEncVal (.vstr "x") ++ ['\x7d']) from rfl]
    rw [hkey]
    decide
  refine ⟨?_, ?_, rfl, by decide⟩
  · unfold JSONDriver
    simp only []
    rw [if_pos (by decide : jsonDumpableB (.vdict [(.vint 1, .vstr "x")]) = true), hstr]
  · rw [show (utf8Encode "\x7b\"1\":\"x\"\x7d" : List Nat) =
        utf8Encode (String.mk (jsonEncVal (.vdict [(.vstr "1", .vstr "x")]))) from by
      decide]
    rw [jsonDriver_load_text _ _ (utf8Decode_encode _), strData_mk,
      univNewline_noCR (jsonEncVal_noCR _), jsonLoads_enc (by decide)]
    rfl

/-- C5 (amended): for a mapping of string keys and JSON-safe values with
pairwise-distinct keys, loading the stream produced by the json driver's
dump yields a mapping equal to the original. -/
theorem c5_amended (m : PyMap) (h : jsonRoundB (.vdict m) = true) :
    ∃ s : String, JSONDriver.dump m = .ok (.textS s) ∧
      JSONDriver.load (.textH (utf8Encode s)) = .ok (.val (.vdict m)) ∧
      updateFromVal [] (.vdict m) = (m, none) := by
  refine ⟨String.mk (jsonEncVal (.vdict m)), ?_, ?_, ?_⟩
  · unfold JSONDriver
    simp only []
    rw [if_pos (jsonRoundB_dumpable h)]
  · rw [jsonDriver_load_text _ _ (utf8Decode_encode _), strData_mk,
      univNewline_noCR (jsonEncVal_noCR _), jsonLoads_enc h]
    rfl
  · unfold updateFromVal
    simp only []
    have hnodup : nodupKeysB m = true := by
      simp only [jsonRoundB, Bool.and_eq_true] at h
      exact h.1
    rw [mapInsertPairs_fresh m [] (fun p _ => rfl) hnodup, List.nil_append]

/-- C5 (amended, witness): the amended round trip at the concrete mapping
`{"a": 2}`. -/
theorem c5_amended_witness :
    ∃ s : String, JSONDriver.dump [(.vstr "a", .vint 2)] = .ok (.textS s) ∧
      JSONDriver.load (.textH (utf8Encode s)) =
        .ok (.val (.vdict [(.vstr "a", .vint 2)])) ∧
      updateFromVal [] (.vdict [(.vstr "a", .vint 2)]) =
        ([(.vstr "a", .vint 2)], none) :=
  c5_amended [(.vstr "a", .vint 2)] (by decide)

/-- C6: for every mapping, the tabular driver's dump succeeds, and the
csv reader applied to the dumped stream yields one row per entry, in
order, each row being the pair of string forms `str(key), str(value)` of
the original entry — a row sequence (`Loaded.rows`), not the original
typed values. -/
theorem c6_csv_rows (m : PyMap) :
    ∃ s : String, CSVDriver.dump m = .ok (.textS s) ∧
      csvParseRows s.data = m.map (fun kv => [pyStr kv.1, pyStr kv.2]) := by
  refine ⟨String.mk (csvWriteRows (m.map (fun kv => (pyStr kv.1, pyStr kv.2)))), ?_, ?_⟩
  · rfl
  · rw [strData_mk, csvWrite_parse]
    unfold rowsOfPairs
    rw [List.map_map]
    rfl

/-- C7: `dump` raises the `NotImplementedError` naming the format exactly
when the configured format is none of the registered names pickle, json,
csv; for a registered name it delegates to the looked-up driver (whose
own errors are never this one). -/
theorem c7_dump_format (st : PersistentDict) :
    (dumpNotImpl (PersistentDict.dump st) = true ↔
      ¬(st.fmt = "pickle" ∨ st.fmt = "json" ∨ st.fmt = "csv")) ∧
    (∀ d : Driver, drvLookup DRIVERS st.fmt = some d →
      PersistentDict.dump st = d.dump st.data) := by
  constructor
  · by_cases h1 : st.fmt = "pickle"
    · have hd : PersistentDict.dump st = PickleDriver.dump st.data := by
        unfold PersistentDict.dump
        rw [show drvLookup DRIVERS st.fmt = some PickleDriver from by
          rw [h1]; exact drvLookup_pickle]
      rw [hd]
      constructor
      · intro hni
        simp [dumpNotImpl, PickleDriver] at hni
      · intro hc
        exact absurd (Or.inl h1) hc
    · by_cases h2 : st.fmt = "json"
      · have hd : PersistentDict.dump st = JSONDriver.dump st.data := by
          unfold PersistentDict.dump
          rw [show drvLookup DRIVERS st.fmt = some JSONDriver from by
            rw [h2]; exact drvLookup_json]
        rw [hd]
        constructor
        · intro hni
          exfalso
          unfold JSONDriver at hni
          simp only [] at hni
          by_cases hdm : jsonDumpableB (.vdict st.data) = true
          · rw [if_pos hdm] at hni
            simp [dumpNotImpl] at hni
          · rw [if_neg hdm] at hni
            simp [dumpNotImpl] at hni
        · intro hc
          exact absurd (Or.inr (Or.inl h2)) hc
      · by_cases h3 : st.fmt = "csv"
        · have hd : PersistentDict.dump st = CSVDriver.dump st.data := by
            unfold PersistentDict.dump
            rw [show drvLookup DRIVERS st.fmt = some CSVDriver from by
              rw [h3]; exact drvLookup_csv]
          rw [hd]
          constructor
          · intro hni
            simp [dumpNotImpl, CSVDriver] at hni
          · intro hc
            exact absurd (Or.inr (Or.inr h3)) hc
        · have hlk : drvLookup DRIVERS st.fmt = none := by
            rw [show DRIVERS = [("pickle", PickleDriver), ("json", JSONDriver),
              ("csv", CSVDriver)] from rfl]
            rw [show drvLookup (("pickle", PickleDriver) ::
                [("json", JSONDriver), ("csv", CSVDriver)]) st.fmt =
              if "pickle" = st.fmt then some PickleDriver
              else drvLookup [("json", JSONDriver), ("csv", CSVDriver)] st.fmt from rfl]
            rw [if_neg (fun he => h1 he.symm)]
            rw [show drvLookup (("json", JSONDriver) :: [("csv", CSVDriver)]) st.fmt =
              if "json" = st.fmt then some JSONDriver
              else drvLookup [("csv", CSVDriver)] st.fmt from rfl]
            rw [if_neg (fun he => h2 he.symm)]
            rw [show drvLookup [("csv", CSVDriver)] st.fmt =
              if "csv" = st.fmt then some CSVDriver else drvLookup [] st.fmt from rfl]
            rw [if_neg (fun he => h3 he.symm)]
            rfl
          have hd : PersistentDict.dump st =
              .error (.notImplementedError
                ("Unknown format: " ++ pyRepr (.vstr st.fmt))) := by
            unfold PersistentDict.dump
            rw [hlk]
          rw [hd]
          constructor
          · intro _
            rintro (hc | hc | hc)
            · exact h1 hc
            · exact h2 hc
            · exact h3 hc
          · intro _
            rfl
  · intro d hd
    unfold PersistentDict.dump
    rw [hd]

/-- C7 (witness): for the registered name json, `dump` delegates to the
json driver. -/
theorem c7_dump_format_witness :
    PersistentDict.dump ⟨"c", none, "json", "f", []⟩ = JSONDriver.dump [] :=
  (c7_dump_format ⟨"c", none, "json", "f", []⟩).2 JSONDriver rfl

/-- C8: on a store opened with the read-only flag, `sync` performs no
filesystem write and returns without error, and `close` — defined as
`sync` — likewise. -/
theorem c8_readonly_sync (st : PersistentDict) (fs : FS) (h : st.flag = "r") :
    PersistentDict.sync st fs = (fs, none) ∧
    PersistentDict.close st fs = (fs, none) := by
  have hs : PersistentDict.sync st fs = (fs, none) := by
    unfold PersistentDict.sync
    rw [if_pos h]
  exact ⟨hs, by unfold PersistentDict.close; exact hs⟩

/-- C8 (witness): the read-only no-op at a concrete store and filesystem. -/
theorem c8_readonly_sync_witness :
    PersistentDict.sync ⟨"r", none, "json", "f", []⟩ [("f", ⟨[7], none⟩)] =
      ([("f", ⟨[7], none⟩)], none) ∧
    PersistentDict.close ⟨"r", none, "json", "f", []⟩ [("f", ⟨[7], none⟩)] =
      ([("f", ⟨[7], none⟩)], none) :=
  c8_readonly_sync ⟨"r", none, "json", "f", []⟩ [("f", ⟨[7], none⟩)] rfl

/-- C9: hydration is not atomic in its failure: on the text stream
`"a,x\r\nb,c,d\r\n"` the csv driver's lazy row sequence lets update insert
the well-formed first row before the three-column second row aborts the
attempt; the loop then exhausts the drivers and raises
`ValueError('File not in a supported format')` with the inserted entry
still in the mapping. -/
theorem c9_partial_update :
    loadDict [] (.textH (utf8Encode "a,x\r\nb,c,d\r\n")) =
      ([(.vstr "a", .vstr "x")], some (.valueError "File not in a supported format")) := by
  rfl

theorem loadDict_empty_text (init : PyMap) : loadDict init (.textH []) = (init, none) := by
  unfold loadDict DRIVERS
  rw [loadLoop_cons, tryLoad_error _ _ _ _ (pickleDriver_load_text [] [] rfl)]
  simp only []
  rw [loadLoop_cons, tryLoad_error _ _ _ (.jsonDecodeError) (by
    rw [jsonDriver_load_text [] [] rfl]
    rfl)]
  simp only []
  rw [loadLoop_cons, tryLoad_ok _ _ _ (.rows []) (by
    rw [csvDriver_load_text [] [] rfl]
    rfl)]
  rfl

theorem loadDict_empty_bin (init : PyMap) : loadDict init (.binH []) = (init, none) := by
  unfold loadDict DRIVERS
  rw [loadLoop_cons, tryLoad_error _ _ _ (.eofError) (by
    unfold PickleDriver
    simp only []
    rfl)]
  simp only []
  rw [loadLoop_cons, tryLoad_error _ _ _ (.jsonDecodeError) (by
    rw [jsonDriver_load_bin [] [] rfl]
    rfl)]
  simp only []
  rw [loadLoop_cons, tryLoad_ok _ _ _ (.rows []) rfl]
  rfl

/-- C10: constructing a `PersistentDict` over an existing, readable,
zero-byte file succeeds and yields an empty mapping — for every
configured format: the pickle and json drivers fail on the empty input,
while the csv reader, whose strings-not-bytes check fires only on a
fetched line, yields the empty row sequence over the exhausted stream
(text or binary mode alike), which update accepts, so detection never
exhausts all drivers for an empty file. -/
theorem c10_empty_file (fname flag fmt : String) (mode : Option Nat)
    (hflag : flag ≠ "n") :
    PersistentDict.construct fname flag mode fmt [] [(fname, ⟨[], none⟩)] =
      ({ flag := flag, mode := mode, fmt := fmt, filename := fname, data := [] },
        none) := by
  apply construct_eq _ _ _ _ _ _ _ _ hflag (osAccessR_single _ _)
  by_cases hf : fmt = "pickle"
  · rw [if_pos hf, openRead_single_bin]
    exact loadDict_empty_bin []
  · rw [if_neg hf, openRead_single_text]
    exact loadDict_empty_text []

/-- C10 (witness): the empty-file construction at the concrete
configured format pickle — the binary-mode read. -/
theorem c10_empty_file_witness :
    PersistentDict.construct "f" "c" none "pickle" [] [("f", ⟨[], none⟩)] =
      ({ flag := "c", mode := none, fmt := "pickle", filename := "f", data := [] },
        none) :=
  c10_empty_file "f" "c" "pickle" none (by decide)

end TermiusStorage
